import Mathlib

/-!
Verification of the IX-F importer (peeringdb_server/ixf.py).

This file contains a shallow embedding of the `Importer` and `PostMortem`
classes of peeringdb_server/ixf.py, together with a model of the persistent
records the module manipulates.  Definitions follow the source line by line.
Parts of the repository that are not available under src
(peeringdb_server/models.py with `IXFMemberData`, `NetworkIXLan` and friends,
and peeringdb_server/deskpro.py with the ticket client) are modelled from the
specification; their doc comments start with "Modelled from the spec:".

Conventions of the embedding:
- parsed IP addresses are abstract values (`Ip := Nat`); the string form of an
  address in the feed either parses to such a value or raises, which mirrors
  `ipaddress.ip_address`;
- a JSON key that may be absent is an `Option`; an absent-or-empty object is
  `none` (Python treats `{}` as falsy in the places that matter here);
- Python exceptions that the source can raise and does not catch are the
  `PyErr` error monad of the embedding (`KeyError`, `UnboundLocalError`,
  `AttributeError`);
- every externally observable action (database write, email, ticket API call,
  cache write) is recorded in an effect trace, one emission per call site of
  the source.
-/

namespace IXF

/-- Abstract parsed IP address (the result of `ipaddress.ip_address`). -/
abbrev Ip := Nat

/-- Identity key of a connection: the tuple `(asn, ipv4 or None, ipv6 or None)`
exactly as built in `parse_vlans` and `NetworkIXLan.ixf_id`. -/
abbrev IxfId := Nat × Option Ip × Option Ip

/-- The `address` string of an ipv4/ipv6 object: it either parses to an
address or makes `ipaddress.ip_address` raise with a message. -/
inductive IpStr where
  | valid (ip : Ip)
  | invalid (msg : String)
deriving DecidableEq, Inhabited

/-- An `ipv4` / `ipv6` object inside a `vlan_list` entry. -/
structure IpObj where
  address : Option IpStr := none
  routeserver : Bool := false
deriving DecidableEq, Inhabited

/-- A `vlan_list` entry.  A `none` field models an absent key. -/
structure VlanEntry where
  vlan_id : Option Nat := none
  ipv4 : Option IpObj := none
  ipv6 : Option IpObj := none
deriving DecidableEq, Inhabited

/-- An `if_speed` value of an `if_list` entry: either an integer (or integer
string), or a value on which `int()` raises `ValueError`. -/
inductive IfSpeed where
  | num (n : Int)
  | bad (s : String)
deriving DecidableEq, Inhabited

/-- An `if_list` entry; only `if_speed` is consumed (default 0 when absent). -/
structure IfEntry where
  if_speed : Option IfSpeed := none
deriving DecidableEq, Inhabited

/-- A `connection_list` entry.  `state` is `none` when the key is absent
(the source then defaults it to "active"). -/
structure Connection where
  state : Option String := none
  if_list : List IfEntry := []
  vlan_list : List VlanEntry := []
deriving DecidableEq, Inhabited

/-- A `member_list` entry.  `asnum` is `none` when the key is absent, in which
case `member["asnum"]` raises `KeyError`. -/
structure Member where
  member_type : Option String := none
  asnum : Option Nat := none
  connection_list : List Connection := []
deriving DecidableEq, Inhabited

/-- The IX-F document as consumed by the importer: `member_list` plus the
`pdb_error` note the sanitizer / fetcher may set. -/
structure IxfData where
  member_list : List Member := []
  pdb_error : Option String := none
deriving DecidableEq, Inhabited

-- Decidable equality for `Except` results, used by the closed statements.
deriving instance DecidableEq for Except

/-- Python exceptions the embedded code can raise without catching them. -/
inductive PyErr where
  | keyError (k : String)
  | unboundLocal (v : String)
  | attributeError (a : String)
deriving DecidableEq, Inhabited

/-- Modelled from the spec: an exception raised by the deskpro ticket client
(`peeringdb_server/deskpro.py`, not under src).  The client performs a
synchronous HTTP call; an API-level failure carries an error payload in its
`data` attribute, while a transport-level failure is a plain exception
without a `data` attribute. -/
inductive TicketExc where
  | withData (data : String)
  | plain (msg : String)
deriving DecidableEq, Inhabited

/-- Modelled from the spec: a Network record.  Carries the flags
`ipv4_support`, `ipv6_support` and `allow_ixp_update` (consent to automatic
application), a status, and a policy-contact list. -/
structure NetworkRec where
  id : Nat
  asn : Nat
  status : String := "ok"
  ipv4_support : Bool := true
  ipv6_support : Bool := true
  allow_ixp_update : Bool := false
  policy_contacts : List String := []
deriving DecidableEq, Inhabited

/-- Modelled from the spec: a NetworkIXLan record (a connection record).
`version` counts the committed reversion versions of the row (0 when none
exist yet); `updated` is the last-write timestamp. -/
structure Netixlan where
  id : Nat
  asn : Nat
  ipaddr4 : Option Ip := none
  ipaddr6 : Option Ip := none
  speed : Int := 0
  operational : Bool := true
  is_rs_peer : Bool := false
  status : String := "ok"
  version : Nat := 0
  updated : Nat := 0
  network_id : Nat := 0
deriving DecidableEq, Inhabited

/-- Identity key of a connection record, as used by `process_deletions`. -/
def Netixlan.ixfId (n : Netixlan) : IxfId := (n.asn, n.ipaddr4, n.ipaddr6)

/-- Modelled from the spec: an IXFMemberData proposal record.  `has_data`
states whether the raw member payload is non-empty (deletion proposals are
instantiated with `data={}`); `log_eid` models the in-memory `ixf_log_entry`
attribute set by `log_peer`; `requirement_keys` models `requirements`. -/
structure IXFMemberData where
  asn : Nat
  ipaddr4 : Option Ip := none
  ipaddr6 : Option Ip := none
  speed : Int := 0
  operational : Bool := true
  is_rs_peer : Bool := false
  has_data : Bool := true
  reason : String := ""
  error : Option String := none
  requirement_of : Option IxfId := none
  requirement_keys : List IxfId := []
  deskpro_id : Option Nat := none
  deskpro_ref : Option String := none
  created : Nat := 0
  updated : Nat := 0
  log_eid : Option Nat := none
deriving DecidableEq, Inhabited

/-- Identity key of a proposal. -/
def IXFMemberData.ixfId (m : IXFMemberData) : IxfId := (m.asn, m.ipaddr4, m.ipaddr6)

/-- Modelled from the spec: a DeskProTicket row. -/
structure TicketRec where
  id : Nat
  subject : String
  body : String
  deskpro_id : Option Nat := none
  deskpro_ref : Option String := none
  published : Option Nat := none
deriving DecidableEq, Inhabited

/-- Modelled from the spec: the IXLan record targeted by a run.  Active
prefixes are abstract finite sets of addresses (`ixpfx_set_active`); the feed
URL, the last import error and its notification timestamp are carried as in
the source. -/
structure IXLanRec where
  id : Nat
  ix_id : Nat
  ix_name : String := ""
  ixf_ixp_member_list_url : Option String := none
  ixf_ixp_import_error : Option String := none
  ixf_ixp_import_error_notified : Option Nat := none
  ixpfx_set_active : List (List Ip) := []
  tech_contacts : List String := []
deriving DecidableEq, Inhabited

/-- Membership test of an optional address in the active prefixes, modelling
`IXLan.test_ipv4_address` / `test_ipv6_address` (both return False for a
missing address). -/
def IXLanRec.test_ip_address (l : IXLanRec) (a : Option Ip) : Bool :=
  match a with
  | none => false
  | some ip => l.ixpfx_set_active.any (fun pfx => pfx.contains ip)

/-- Modelled from the spec: the InternetExchange fields `update_ix` writes. -/
structure IXRec where
  id : Nat
  name : String := ""
  ixf_last_import : Option Nat := none
  ixf_net_count : Nat := 0
deriving DecidableEq, Inhabited

/-- The database visible to one run: the targeted IXLan and its exchange,
the Network table, the connection records on the IXLan, the persisted
proposals for the IXLan, and the DeskPro ticket rows. -/
structure DB where
  ixlan : IXLanRec
  ix : IXRec
  networks : List NetworkRec := []
  netixlans : List Netixlan := []
  ixf_member_data : List IXFMemberData := []
  deskpro_tickets : List TicketRec := []
  next_nix_id : Nat := 1
  next_ticket_id : Nat := 1
deriving DecidableEq, Inhabited

/-- Network lookup by asn (`Network.objects.get(asn=asn)`). -/
def DB.network? (db : DB) (asn : Nat) : Option NetworkRec :=
  db.networks.find? (fun n => n.asn = asn)

/-- Active connection record with exactly the given identity key.  Matching
is exact identity-key equality per the spec ("A local record matches a feed
row iff their keys are equal"). -/
def DB.findActiveNetixlan (db : DB) (key : IxfId) : Option Netixlan :=
  db.netixlans.find? (fun n => n.status = "ok" ∧ n.ixfId = key)

/-- Connection record with the given identity key, preferring an active one
(models the `IXFMemberData.netixlan` property lookup). -/
def DB.findAnyNetixlan (db : DB) (key : IxfId) : Option Netixlan :=
  match db.findActiveNetixlan key with
  | some n => some n
  | none => db.netixlans.find? (fun n => n.ixfId = key)

/-- Persisted proposal with the given identity key (proposals are unique by
identity key within an IXLan per the spec). -/
def DB.findProposal (db : DB) (key : IxfId) : Option IXFMemberData :=
  db.ixf_member_data.find? (fun m => m.ixfId = key)

/-- Update the connection record with the given row id in place. -/
def DB.updateNix (db : DB) (nid : Nat) (f : Netixlan → Netixlan) : DB :=
  { db with netixlans := db.netixlans.map (fun n => if n.id = nid then f n else n) }

/-- Upsert a proposal row, keyed by identity key. -/
def DB.upsertProposal (db : DB) (m : IXFMemberData) : DB :=
  if (db.findProposal m.ixfId).isSome then
    { db with ixf_member_data :=
        db.ixf_member_data.map (fun p => if p.ixfId = m.ixfId then m else p) }
  else
    { db with ixf_member_data := db.ixf_member_data ++ [m] }

/-- Remove a proposal row by identity key. -/
def DB.removeProposal (db : DB) (key : IxfId) : DB :=
  { db with ixf_member_data := db.ixf_member_data.filter (fun p => ¬ p.ixfId = key) }

/-- Observable actions of a run.  `dbWrite` carries a tag naming the table and
operation of the call site; `archiveEntry` is the creation of one
IXLanIXFMemberImportLogEntry row; `ticketApi` is a call into the deskpro
client; `email` / `debugMail` are the two dispatch paths of `_email`. -/
inductive Effect where
  | dbWrite (tag : String)
  | archiveEntry (action : String) (nix_id : Nat) (reason : String)
  | ticketApi (subject : String)
  | email (recipients : List String) (subject : String)
  | debugMail (recipients : List String) (subject : String)
  | cacheWrite (url : String)
deriving DecidableEq, Inhabited

/-- One entry of the attempt log (`log["data"]`), as built by `log_peer`.
`eid` is a fresh identifier modelling Python object identity, which
`consolidate_delete_add` needs in order to remove and rewrite entries. -/
structure LogEntry where
  eid : Nat
  ixlan_id : Nat
  ix_id : Nat
  ix_name : String
  asn : Nat
  net_id : Option Nat := none
  ipaddr4 : Option Ip := none
  ipaddr6 : Option Ip := none
  speed : Option Int := none
  is_rs_peer : Option Bool := none
  operational : Option Bool := none
  action : String
  reason : String
deriving DecidableEq, Inhabited

/-- A queued notification (`queue_notification`). -/
structure Notif where
  key : IxfId
  typ : String
  ac : Bool := true
  ix : Bool := true
  net : Bool := true
  action : String
deriving DecidableEq, Inhabited

/-- One entry of an `actions_taken` bucket (`log_apply`). -/
structure ActionInfo where
  nix_id : Nat
  version_before : Option Nat
  reason : String
deriving DecidableEq, Inhabited

/-- The four `actions_taken` buckets. -/
structure ActionsTaken where
  add : List ActionInfo := []
  delete : List ActionInfo := []
  modify : List ActionInfo := []
  noop : List ActionInfo := []
deriving DecidableEq, Inhabited

/-- Append to the bucket named by an action string. -/
def ActionsTaken.push (t : ActionsTaken) (action : String) (i : ActionInfo) : ActionsTaken :=
  if action = "add" then { t with add := t.add ++ [i] }
  else if action = "delete" then { t with delete := t.delete ++ [i] }
  else if action = "modify" then { t with modify := t.modify ++ [i] }
  else { t with noop := t.noop ++ [i] }

/-- Importer configuration: the `save` / `asn` arguments of `update`, the
`cache_only` / `skip_import` attributes, the django settings the module
reads, the clock, and the modelled outcome of deskpro ticket API calls.
`email_subject_tag` models the EMAIL_SUBJECT_PREFIX setting. -/
structure Cfg where
  save : Bool := false
  asn : Option Nat := none
  cache_only : Bool := false
  skip_import : Bool := false
  tickets_enabled : Bool := true
  notify_ix_enabled : Bool := false
  notify_net_enabled : Bool := false
  mail_debug : Bool := true
  email_subject_tag : String := ""
  ticket_days : Nat := 0
  error_notification_period : Nat := 0
  now : Nat := 0
  ticket_exc : Option TicketExc := none
deriving DecidableEq, Inhabited

/-- Lowercasing as Python's `str.lower()` (structural over the character
list, so that it evaluates in the kernel). -/
def pyLower (s : String) : String :=
  String.mk (s.data.map Char.toLower)

/-- Replacement worker for `pyReplace`, with the string length as fuel so
that the recursion is structural. -/
def pyReplaceAux (pat rep : List Char) : Nat → List Char → List Char
  | _, [] => []
  | 0, l => l
  | fuel + 1, c :: rest =>
    if List.isPrefixOf pat (c :: rest) then
      rep ++ pyReplaceAux pat rep fuel ((c :: rest).drop pat.length)
    else c :: pyReplaceAux pat rep fuel rest

/-- Replacement as Python's `str.replace(pat, rep)` for a non-empty pattern
(all non-overlapping occurrences, left to right; the embedding never calls
it with an empty pattern). -/
def pyReplace (s pat rep : String) : String :=
  if pat.isEmpty then s
  else String.mk (pyReplaceAux pat.data rep.data s.data.length s.data)

/-- Truthiness of the importer's `self.asn` (an integer or None in Python). -/
def asnTruthy (o : Option Nat) : Bool :=
  match o with
  | some a => a ≠ 0
  | none => false

/-- The mutable state of one `Importer` run, mirroring the attributes set in
`reset`, plus the database and the effect trace. -/
structure St where
  db : DB
  ixf_ids : List IxfId := []
  asns : List Nat := []
  pending_save : List IXFMemberData := []
  deletions : List (IxfId × IXFMemberData) := []
  log_data : List LogEntry := []
  log_errors : List String := []
  invalid_ip_errors : List String := []
  notifications : List Notif := []
  connection_errors : List String := []
  actions_taken : ActionsTaken := {}
  next_eid : Nat := 0
  changed : List Nat := []
  effects : List Effect := []
deriving DecidableEq, Inhabited

/-- Fresh state at the start of a run (`reset`). -/
def St.init (db : DB) : St := { db := db }

/-- Record one observable action. -/
def St.emit (st : St) (e : Effect) : St :=
  { st with effects := st.effects ++ [e] }

namespace Importer

/-- The member types the importer processes (`allowed_member_types`). -/
def allowed_member_types : List String :=
  ["peering", "ixp", "routeserver", "probono"]

/-- The connection states the importer accepts (`allowed_states`).  The
Python list also contains `None`, which can never equal the lowercased
string compared against it; the embedding keeps the string members. -/
def allowed_states : List String :=
  ["", "active", "inactive", "connected", "operational"]

def REASON_ENTRY_GONE_FROM_REMOTE : String :=
  "The entry for (asn and IPv4 and IPv6) does not exist in the exchange's IX-F data as a singular member connection"

def REASON_NEW_ENTRY : String :=
  "The entry for (asn and IPv4 and IPv6) does not exist in PeeringDB as a singular network -> ix connection"

def REASON_VALUES_CHANGED : String :=
  "Data differences between PeeringDB and the exchange's IX-F data"

/-- Merge step of `sanitize` on one connection: when `vlan_list` has exactly
two entries whose keys contain exactly one `ipv4` and one `ipv6`, the second
entry is folded into the first (`vlans[0].update(**vlans[1])`). -/
def sanitizeConnection (c : Connection) : Connection :=
  match c.vlan_list with
  | [v0, v1] =>
    let count4 := (if v0.ipv4.isSome then 1 else 0) + (if v1.ipv4.isSome then 1 else 0)
    let count6 := (if v0.ipv6.isSome then 1 else 0) + (if v1.ipv6.isSome then 1 else 0)
    if count4 = 1 ∧ count6 = 1 then
      let merged : VlanEntry :=
        { vlan_id := if v1.vlan_id.isSome then v1.vlan_id else v0.vlan_id
          ipv4 := if v1.ipv4.isSome then v1.ipv4 else v0.ipv4
          ipv6 := if v1.ipv6.isSome then v1.ipv6 else v0.ipv6 }
      { c with vlan_list := [merged] }
    else c
  | _ => c

/-- Whether any vlan_list entry exists anywhere in the document
(`vlan_list_found` in `sanitize`). -/
def vlanListFound (d : IxfData) : Bool :=
  d.member_list.any (fun m => m.connection_list.any (fun c => ¬ c.vlan_list.isEmpty))

/-- The sanitizer (`Importer.sanitize`): merges split ipv4/ipv6 vlan rows and
sets `pdb_error` to the abort note when no vlan entry exists anywhere (and to
None otherwise, overwriting a previous value as the source does). -/
def sanitize (d : IxfData) : IxfData :=
  let members := d.member_list.map
    (fun m => { m with connection_list := m.connection_list.map sanitizeConnection })
  { member_list := members
    pdb_error :=
      if vlanListFound d then none
      else some "No entries in any of the vlan_list lists, aborting." }

/-- Outcome of the HTTP request performed by `fetch`, plus the process-wide
cache consulted by `fetch_cached`. -/
inductive FetchOutcome where
  | exc (msg : String)
  | httpStatus (code : Nat)
  | notJson
  | json (d : IxfData)
deriving DecidableEq, Inhabited

structure FetchEnv where
  outcome : FetchOutcome := .json {}
  cached : Option IxfData := none
deriving DecidableEq, Inhabited

/-- The feed client (`Importer.fetch`): transport or HTTP errors become a
`pdb_error` payload, a JSON body is sanitized and, when healthy, cached. -/
def fetch (st : St) (env : FetchEnv) : IxfData × St :=
  match st.db.ixlan.ixf_ixp_member_list_url with
  | none => ({ pdb_error := some "IXF import url not specified" }, st)
  | some url =>
    match env.outcome with
    | .exc msg => ({ pdb_error := some msg }, st)
    | .httpStatus code =>
      if code ≠ 200 then
        ({ pdb_error := some ("Got HTTP status " ++ toString code) }, st)
      else ({ pdb_error := some "No JSON could be parsed" }, st)
    | .notJson => ({ pdb_error := some "No JSON could be parsed" }, st)
    | .json d =>
      let d := sanitize d
      if d.pdb_error.isNone then (d, st.emit (.cacheWrite url))
      else (d, st)

/-- The cache-only feed client (`Importer.fetch_cached`).  The cached copy
was stored after sanitization, so it is returned as is. -/
def fetch_cached (st : St) (env : FetchEnv) : IxfData × St :=
  match st.db.ixlan.ixf_ixp_member_list_url with
  | none => ({ pdb_error := some "IXF import url not specified" }, st)
  | some _ =>
    match env.cached with
    | none => ({ pdb_error := some "IX-F data not locally cached for this resource yet." }, st)
    | some d => (d, st)

/-- Data acquisition step of `update`: the `data` argument is used as
supplied when present, otherwise the feed is read from cache or network. -/
def acquireData (cfg : Cfg) (st : St) (dataArg : Option IxfData) (env : FetchEnv) :
    IxfData × St :=
  match dataArg with
  | some d => (d, st)
  | none => if cfg.cache_only then fetch_cached st env else fetch st env

/-- Append a message to `log["errors"]`; with `sv` set the attempt log is
saved (`log_error(..., save=...)`; parse-time calls leave `sv` false). -/
def log_error (st : St) (msg : String) (sv : Bool) : St :=
  let st := { st with log_errors := st.log_errors ++ [msg] }
  if sv then st.emit (.dbWrite "import_attempt") else st

/-- Save the attempt log (`save_log`). -/
def save_log (st : St) : St :=
  st.emit (.dbWrite "import_attempt")

/-- The object passed to `log_peer` through its `netixlan` keyword: either a
NetworkIXLan, an IXFMemberData, or nothing. -/
inductive LogRef where
  | nix (n : Netixlan)
  | imd (m : IXFMemberData)

/-- The attempt-log writer (`log_peer`).  It builds the peer entry, appends
it to `log["data"]`, and then unconditionally executes
`netixlan.ixf_log_entry = entry`: when `netixlan` is None this raises
`AttributeError`.  On success it returns the fresh entry id, which models
the `ixf_log_entry` reference stored on the passed object. -/
def log_peer (st : St) (asn : Nat) (action reason : String) (ref : Option LogRef) :
    Except PyErr (St × Nat) :=
  let eid := st.next_eid
  let base : LogEntry :=
    { eid := eid
      ixlan_id := st.db.ixlan.id
      ix_id := st.db.ixlan.ix_id
      ix_name := st.db.ixlan.ix_name
      asn := asn
      action := action
      reason := reason }
  let entry :=
    match ref with
    | some (.nix n) =>
      { base with
          net_id := some n.network_id
          ipaddr4 := n.ipaddr4
          ipaddr6 := n.ipaddr6
          speed := some n.speed
          is_rs_peer := some n.is_rs_peer
          operational := some n.operational }
    | some (.imd m) =>
      { base with
          net_id := (st.db.network? m.asn).map (fun n => n.id)
          ipaddr4 := m.ipaddr4
          ipaddr6 := m.ipaddr6
          speed := some m.speed
          is_rs_peer := some m.is_rs_peer
          operational := some m.operational }
    | none => base
  let st := { st with log_data := st.log_data ++ [entry], next_eid := eid + 1 }
  match ref with
  | none => .error (.attributeError "ixf_log_entry")
  | some _ => .ok (st, eid)

end Importer

/-- Modelled from the spec: `IXFMemberData._changes` diffs the business
fields (speed, operational, is_rs_peer) of the proposal against a connection
record and returns the names of the fields that differ. -/
def IXFMemberData._changes (m : IXFMemberData) (n : Netixlan) : List String :=
  (if ¬ m.speed = n.speed then ["speed"] else []) ++
  (if ¬ m.operational = n.operational then ["operational"] else []) ++
  (if ¬ m.is_rs_peer = n.is_rs_peer then ["is_rs_peer"] else [])

/-- Modelled from the spec: `IXFMemberData.changes`, the diff against the
active connection record with the proposal's identity key. -/
def IXFMemberData.changes (m : IXFMemberData) (db : DB) : List String :=
  match db.findActiveNetixlan m.ixfId with
  | some n => m._changes n
  | none => []

/-- Modelled from the spec: whether an active connection record with the
proposal's identity key exists. -/
def IXFMemberData.netixlan_exists (m : IXFMemberData) (db : DB) : Bool :=
  (db.findActiveNetixlan m.ixfId).isSome

/-- Modelled from the spec: the derived `action` of a proposal, one of
add / modify / delete / noop.  A proposal instantiated with an empty data
payload is a deletion ask; otherwise the action is decided by whether a
matching record exists and whether its business fields differ. -/
def IXFMemberData.action (m : IXFMemberData) (db : DB) : String :=
  if ¬ m.has_data then "delete"
  else if ¬ m.netixlan_exists db then "add"
  else if ¬ (m.changes db).isEmpty then "modify"
  else "noop"

/-- Modelled from the spec: `IXFMemberData.previous_error`, the error noted
on the persisted proposal for the same identity key. -/
def IXFMemberData.previous_error (m : IXFMemberData) (db : DB) : Option String :=
  (db.findProposal m.ixfId).bind (fun p => p.error)

/-- Modelled from the spec: `IXFMemberData.instantiate`.  Builds the
proposal object for an identity key; when a proposal for the same identity
is already persisted its creation date, ticket handle and requirement link
are inherited (the spec: "any existing Proposal for the same identity is
updated in place").  Nothing is written. -/
def IXFMemberData.instantiate (db : DB) (now asn : Nat) (ip4 ip6 : Option Ip)
    (speed : Int) (operational is_rs_peer has_data : Bool) : IXFMemberData :=
  let base : IXFMemberData :=
    { asn := asn, ipaddr4 := ip4, ipaddr6 := ip6, speed := speed,
      operational := operational, is_rs_peer := is_rs_peer, has_data := has_data,
      created := now, updated := now }
  match db.findProposal (asn, ip4, ip6) with
  | some old =>
    { base with created := old.created, deskpro_id := old.deskpro_id,
                deskpro_ref := old.deskpro_ref, requirement_of := old.requirement_of }
  | none => base

/-- Modelled from the spec: the persistence core shared by `set_add`,
`set_update` and `set_remove`.  The proposal takes the new reason; with
`save` it is upserted (uniqueness by identity key) with a refreshed
`updated` stamp.  The returned flag is the notify decision (a notification
is queued only when no proposal for this identity was persisted before:
notification fan-out is deduplicated). -/
def setProposal (cfg : Cfg) (st : St) (m : IXFMemberData) (reason : String) :
    St × IXFMemberData × Bool :=
  let m := { m with reason := reason }
  let existing := st.db.findProposal m.ixfId
  let notify := existing.isNone
  if cfg.save then
    let m := { m with updated := cfg.now,
                      created := match existing with
                                 | some old => old.created
                                 | none => cfg.now }
    let st := { st with db := st.db.upsertProposal m }
    (st.emit (.dbWrite "ixfmemberdata.upsert"), m, notify)
  else (st, m, notify)

/-- Modelled from the spec: `IXFMemberData.set_add`. -/
def IXFMemberData.set_add (m : IXFMemberData) (cfg : Cfg) (st : St) (reason : String) :
    St × IXFMemberData × Bool :=
  setProposal cfg st m reason

/-- Modelled from the spec: `IXFMemberData.set_update`. -/
def IXFMemberData.set_update (m : IXFMemberData) (cfg : Cfg) (st : St) (reason : String) :
    St × IXFMemberData × Bool :=
  setProposal cfg st m reason

/-- Modelled from the spec: `IXFMemberData.set_remove`. -/
def IXFMemberData.set_remove (m : IXFMemberData) (cfg : Cfg) (st : St) (reason : String) :
    St × IXFMemberData × Bool :=
  setProposal cfg st m reason

/-- Modelled from the spec: `IXFMemberData.set_resolved` retires the
persisted proposal for this identity; the returned flag says whether there
was something to resolve (and hence whether to queue a notification). -/
def IXFMemberData.set_resolved (m : IXFMemberData) (cfg : Cfg) (st : St) : St × Bool :=
  match st.db.findProposal m.ixfId with
  | none => (st, false)
  | some _ =>
    if cfg.save then
      (({ st with db := st.db.removeProposal m.ixfId } : St).emit
        (.dbWrite "ixfmemberdata.delete"), true)
    else (st, true)

/-- Modelled from the spec: `IXFMemberData.set_conflict` stamps the proposal
with the validation error and persists it with `save`. -/
def IXFMemberData.set_conflict (m : IXFMemberData) (cfg : Cfg) (st : St) (err : String) :
    St × IXFMemberData × Bool :=
  let m := { m with error := some err }
  if cfg.save then
    let m := { m with updated := cfg.now }
    (({ st with db := st.db.upsertProposal m } : St).emit
      (.dbWrite "ixfmemberdata.upsert"), m, true)
  else (st, m, true)

/-- Modelled from the spec: `IXFMemberData.set_requirement` marks another
proposal (a matching single-stack deletion) as a requirement of this one:
the requirement's `requirement_of` back-link is set, both the in-run
deletion map and (with `save`) the persisted row are updated, and the
requirement is recorded on this proposal. -/
def IXFMemberData.set_requirement (m : IXFMemberData) (cfg : Cfg) (st : St)
    (req : Option (IxfId × IXFMemberData)) : St × IXFMemberData :=
  match req with
  | none => (st, m)
  | some (rkey, rimd) =>
    let rimd := { rimd with requirement_of := some m.ixfId }
    let newDeletions := st.deletions.map (fun kv => if kv.1 = rkey then (rkey, rimd) else kv)
    let st := { st with deletions := newDeletions }
    let m := { m with requirement_keys := m.requirement_keys ++ [rkey] }
    if cfg.save then
      (({ st with db := st.db.upsertProposal rimd } : St).emit
        (.dbWrite "ixfmemberdata.upsert"), m)
    else (st, m)

/-- Modelled from the spec: `IXFMemberData.has_requirements`. -/
def IXFMemberData.has_requirements (m : IXFMemberData) : Bool :=
  ¬ m.requirement_keys.isEmpty

/-- Modelled from the spec: `IXFMemberData.apply` (the Applier).  A `delete`
is a soft-delete of the matched record; an `add` creates a record after
validating prefix containment and address uniqueness among active records;
a `modify` updates the business fields of the matched record.  Writes happen
only with `save`; written rows join the open reversion revision
(`St.changed`).  Validation failures are returned as ValidationError text. -/
def applyImd (cfg : Cfg) (st : St) (m : IXFMemberData) :
    Except String (St × String × Netixlan) :=
  let db := st.db
  let action := m.action db
  if action = "delete" then
    match db.findActiveNetixlan m.ixfId with
    | none => .error "netixlan does not exist"
    | some n =>
      let n2 := { n with status := "deleted", updated := cfg.now }
      if cfg.save then
        let st := { st with
          db := db.updateNix n.id (fun x => { x with status := "deleted", updated := cfg.now }),
          changed := st.changed ++ [n.id] }
        .ok (st.emit (.dbWrite "netixlan.delete"), "delete", n2)
      else .ok (st, "delete", n2)
  else if action = "add" then
    -- validation (full_clean) runs when the record is saved; a preview run
    -- does not touch the database and cannot raise
    if cfg.save ∧ m.ipaddr4.isSome ∧ ¬ db.ixlan.test_ip_address m.ipaddr4 then
      .error "IPv4 not in prefix address space"
    else if cfg.save ∧ m.ipaddr6.isSome ∧ ¬ db.ixlan.test_ip_address m.ipaddr6 then
      .error "IPv6 not in prefix address space"
    else if cfg.save ∧ db.netixlans.any (fun n => n.status = "ok" ∧
        ((m.ipaddr4.isSome ∧ n.ipaddr4 = m.ipaddr4) ∨
         (m.ipaddr6.isSome ∧ n.ipaddr6 = m.ipaddr6))) then
      .error "IP address already in use"
    else
      let n : Netixlan :=
        { id := db.next_nix_id, asn := m.asn, ipaddr4 := m.ipaddr4, ipaddr6 := m.ipaddr6,
          speed := m.speed, operational := m.operational, is_rs_peer := m.is_rs_peer,
          status := "ok", version := 0, updated := cfg.now,
          network_id := match db.network? m.asn with
                        | some net => net.id
                        | none => 0 }
      if cfg.save then
        let st := { st with
          db := { db with netixlans := db.netixlans ++ [n], next_nix_id := db.next_nix_id + 1 },
          changed := st.changed ++ [n.id] }
        .ok (st.emit (.dbWrite "netixlan.create"), "add", n)
      else .ok (st, "add", n)
  else if action = "modify" then
    match db.findActiveNetixlan m.ixfId with
    | none => .error "netixlan does not exist"
    | some n =>
      let n2 := { n with speed := m.speed, operational := m.operational,
                         is_rs_peer := m.is_rs_peer, updated := cfg.now }
      if cfg.save then
        let st := { st with
          db := db.updateNix n.id (fun x =>
            { x with speed := m.speed, operational := m.operational,
                     is_rs_peer := m.is_rs_peer, updated := cfg.now }),
          changed := st.changed ++ [n.id] }
        .ok (st.emit (.dbWrite "netixlan.update"), "modify", n2)
      else .ok (st, "modify", n2)
  else
    match db.findActiveNetixlan m.ixfId with
    | none => .error "netixlan does not exist"
    | some n => .ok (st, "noop", n)

namespace Importer

/-- The `log_apply` bookkeeping: the action is filed in `actions_taken`
together with the latest committed version of the record (None when none
exists yet: in-run changes only become versions when the revision closes),
the peer entry is logged, and the fresh log-entry id is transferred onto the
proposal (`apply_result["ixf_member_data"].ixf_log_entry = ...`). -/
def log_apply (st : St) (action : String) (nix : Netixlan) (m : IXFMemberData)
    (reason : String) : Except PyErr (St × IXFMemberData) :=
  let captured : Option Nat := if nix.version = 0 then none else some nix.version
  let info : ActionInfo := { nix_id := nix.id, version_before := captured, reason := reason }
  let st := { st with actions_taken := st.actions_taken.push action info }
  match log_peer st nix.asn action reason (some (.nix nix)) with
  | .error e => .error e
  | .ok (st, eid) => .ok (st, { m with log_eid := some eid })

/-- The `log_ixf_member_data` helper (a `suggest-<action>` peer entry whose
log-entry reference is stored on the proposal). -/
def log_ixf_member_data (st : St) (m : IXFMemberData) : Except PyErr (St × IXFMemberData) :=
  match log_peer st m.asn ("suggest-" ++ m.action st.db) m.reason (some (.imd m)) with
  | .error e => .error e
  | .ok (st, eid) => .ok (st, { m with log_eid := some eid })

/-- Queue a notification (`queue_notification`). -/
def queue_notification (st : St) (m : IXFMemberData) (typ : String)
    (ac ix net : Bool) : St :=
  { st with notifications := st.notifications ++
      [{ key := m.ixfId, typ := typ, ac := ac, ix := ix, net := net,
         action := m.action st.db }] }

/-- The connection-state filter of `parse_connections`: the lowercased state
(default "active") must be one of the allowed states. -/
def state_allowed (c : Connection) : Bool :=
  allowed_states.contains (pyLower (c.state.getD "active"))

/-- The operational flag computed in `parse_vlans`: the raw state string
(default "active") is compared against "inactive" without lowercasing. -/
def connection_operational (c : Connection) : Bool :=
  ¬ (c.state.getD "active") = "inactive"

/-- Helper for log messages mentioning `lan.get("vlan_id")`. -/
def vlanIdStr (v : Option Nat) : String :=
  match v with
  | some n => toString n
  | none => "None"

/-- Speed accumulation of `parse_speed`: integer `if_speed` values are
summed; values on which `int()` raises are logged as invalid speed and also
recorded in `connection_errors`, contributing 0. -/
def parse_speed_loop (st : St) (speed : Int) : List IfEntry → St × Int
  | [] => (st, speed)
  | iface :: rest =>
    match iface.if_speed.getD (.num 0) with
    | .num n => parse_speed_loop st (speed + n) rest
    | .bad s =>
      let msg := "Invalid speed value: " ++ s
      let st := log_error st msg false
      let st := { st with connection_errors := st.connection_errors ++ [msg] }
      parse_speed_loop st speed rest

/-- The `parse_speed` entry point. -/
def parse_speed (st : St) (if_list : List IfEntry) : St × Int :=
  parse_speed_loop st 0 if_list

/-- Result of the `try` block of `parse_vlans` that parses the two address
strings in order (ipv4 first): the first failing `ipaddress.ip_address`
raises and carries its message. -/
def parseAddresses (a4 a6 : Option IpStr) : Except String (Option Ip × Option Ip) :=
  match a4 with
  | some (.invalid msg) => .error msg
  | some (.valid v4) =>
    match a6 with
    | some (.invalid msg) => .error msg
    | some (.valid v6) => .ok (some v4, some v6)
    | none => .ok (some v4, none)
  | none =>
    match a6 with
    | some (.invalid msg) => .error msg
    | some (.valid v6) => .ok (none, some v6)
    | none => .ok (none, none)

/-- The body of the `parse_vlans` loop for one vlan_list entry, translated
clause by clause from the source: missing addresses, address parse errors,
prefix filtering, protocol-conflict notification, seen-set bookkeeping
(including the auxiliary keys of the if/elif block), the operational and
route-server flags, and instantiation of the pending proposal (a
NetworkProtocolsDisabled raise is caught and logged). -/
def parse_vlan_entry (cfg : Cfg) (network : NetworkRec) (asn : Nat)
    (connection : Connection) (speed : Int) (st : St) (lan : VlanEntry) : St :=
  let ipv4 := lan.ipv4
  let ipv6 := lan.ipv6
  if ipv4.isNone ∧ ipv6.isNone then
    log_error st ("Could not find ipv4 or 6 address in vlan_list entry for vlan_id " ++
      vlanIdStr lan.vlan_id ++ " (AS" ++ toString asn ++ ")") false
  else
  let ipv4_addr := ipv4.bind (fun o => o.address)
  let ipv6_addr := ipv6.bind (fun o => o.address)
  match parseAddresses ipv4_addr ipv6_addr with
  | .error exc =>
    let st := { st with invalid_ip_errors := st.invalid_ip_errors ++ [exc] }
    log_error st ("Ip address error '" ++ exc ++ "' in vlan_list entry for vlan_id " ++
      vlanIdStr lan.vlan_id) false
  | .ok (a4, a6) =>
  let v4ok := st.db.ixlan.test_ip_address a4
  let v6ok := st.db.ixlan.test_ip_address a6
  if a4.isSome ∧ ¬ v4ok ∧ a6.isSome ∧ ¬ v6ok then st
  else if ¬ v4ok ∧ a6.isNone then st
  else if ¬ v6ok ∧ a4.isNone then st
  else
  let protocol_conflicts :=
    (if a4.isSome ∧ ¬ network.ipv4_support then [4] else []) ++
    (if a6.isSome ∧ ¬ network.ipv6_support then [6] else [])
  let st :=
    if ¬ protocol_conflicts.isEmpty then
      queue_notification st
        (IXFMemberData.instantiate st.db cfg.now asn a4 a6 0 true false true)
        "protocol-conflict" false true true
    else st
  let st := { st with ixf_ids := st.ixf_ids ++ [(asn, a4, a6)] }
  let st :=
    if a4.isSome ∧ a6.isSome then
      if ¬ network.ipv6_support then { st with ixf_ids := st.ixf_ids ++ [(asn, a4, none)] }
      else if ¬ network.ipv4_support then { st with ixf_ids := st.ixf_ids ++ [(asn, none, a6)] }
      else st
    else st
  let operational := connection_operational connection
  let is_rs_peer :=
    (match ipv4 with
     | some o => o.routeserver
     | none => false) ||
    (match ipv6 with
     | some o => o.routeserver
     | none => false)
  if (a4.isSome ∧ ¬ network.ipv4_support) ∨ (a6.isSome ∧ ¬ network.ipv6_support) then
    log_error st
      ("Network has disabled protocols for the provided addresses (AS" ++ toString asn ++ ")")
      false
  else
    let m := IXFMemberData.instantiate st.db cfg.now asn a4 a6 speed operational is_rs_peer true
    let m :=
      if ¬ st.connection_errors.isEmpty then
        { m with error := some (String.intercalate "\n" st.connection_errors) }
      else { m with error := m.previous_error st.db }
    { st with pending_save := st.pending_save ++ [m] }

/-- The `parse_vlans` loop. -/
def parse_vlans (cfg : Cfg) (network : NetworkRec) (asn : Nat)
    (connection : Connection) (speed : Int) (st : St) : List VlanEntry → St
  | [] => st
  | lan :: rest =>
    parse_vlans cfg network asn connection speed
      (parse_vlan_entry cfg network asn connection speed st lan) rest

/-- The `parse_connections` loop: resets `connection_errors`, filters on the
lowercased state, computes the speed and descends into `parse_vlans`; an
invalid state is logged through `log_peer` with no netixlan object. -/
def parse_connections (cfg : Cfg) (network : NetworkRec) (asn : Nat) (st : St) :
    List Connection → Except PyErr St
  | [] => .ok st
  | connection :: rest =>
    let st := { st with connection_errors := [] }
    if state_allowed connection then
      let sp := parse_speed st connection.if_list
      parse_connections cfg network asn
        (parse_vlans cfg network asn connection sp.2 sp.1 connection.vlan_list) rest
    else
      match log_peer st asn "ignore"
          ("Invalid connection state: " ++ pyLower (connection.state.getD "active")) none with
      | .error e => .error e
      | .ok (st2, _) => parse_connections cfg network asn st2 rest

/-- The body of the `parse_members` loop for one member.  The local
variable `asn` of the source is only assigned inside the branch for allowed
member types; the embedding threads its binding state through `boundAsn`
(returned updated for the next iteration), so that the `else` branch
(invalid member type) reads the previous member's asn, or raises
`UnboundLocalError` when no previous member bound it. -/
def parse_member_one (cfg : Cfg) (boundAsn : Option Nat) (st : St) (member : Member) :
    Except PyErr (St × Option Nat) :=
  let member_type := pyLower (member.member_type.getD "peering")
  if allowed_member_types.contains member_type then
    match member.asnum with
    | none => .error (.keyError "asnum")
    | some asn =>
      if asnTruthy cfg.asn ∧ ¬ asn = cfg.asn.getD 0 then
        .ok (st, some asn)
      else
      let st := if st.asns.contains asn then st else { st with asns := st.asns ++ [asn] }
      match st.db.network? asn with
      | some network =>
        if ¬ network.status = "ok" then
          match log_peer st asn "ignore"
              ("Network status is '" ++ network.status ++ "'") none with
          | .error e => .error e
          | .ok (st2, _) => .ok (st2, some asn)
        else
          match parse_connections cfg network asn st member.connection_list with
          | .error e => .error e
          | .ok st2 => .ok (st2, some asn)
      | none =>
        match log_peer st asn "ignore" "Network does not exist in peeringdb" none with
        | .error e => .error e
        | .ok (st2, _) => .ok (st2, some asn)
  else
    match boundAsn with
    | none => .error (.unboundLocal "asn")
    | some asn =>
      match log_peer st asn "ignore" ("Invalid member type: " ++ member_type) none with
      | .error e => .error e
      | .ok (st2, _) => .ok (st2, boundAsn)

/-- The `parse_members` loop. -/
def parse_members (cfg : Cfg) (boundAsn : Option Nat) (st : St) (l : List Member) :
    Except PyErr St :=
  match l with
  | [] => .ok st
  | member :: rest =>
    match parse_member_one cfg boundAsn st member with
    | .error e => .error e
    | .ok (st2, b2) => parse_members cfg b2 st2 rest

/-- The `parse` entry point (`parse_members` over `member_list`). -/
def parse (cfg : Cfg) (st : St) (d : IxfData) : Except PyErr St :=
  parse_members cfg none st d.member_list

/-- Remove the log entry with the given id
(`self.log["data"].remove(entry)`; entries are identified by `eid`, which
models Python object identity). -/
def removeLogEntry (st : St) (eid : Option Nat) : St :=
  match eid with
  | some e => { st with log_data := st.log_data.filter (fun en => ¬ en.eid = e) }
  | none => st

/-- Rewrite the log entry with the given id as `consolidate_delete_add`
does: `log_entry["action"].replace("add", "modify")` plus the new reason. -/
def rewriteLogEntry (st : St) (eid : Option Nat) (newReason : String) : St :=
  match eid with
  | some e =>
    { st with log_data := st.log_data.map (fun en =>
        if en.eid = e then
          { en with action := pyReplace en.action "add" "modify", reason := newReason }
        else en) }
  | none => st

/-- The delete+add consolidation (`consolidate_delete_add`), translated
clause by clause: a dual-stack add looks up single-stack deletions
`(asn, v4, None)` and `(asn, None, v6)` in the run's deletion map, turns
them into requirements of the add, removes their log entries, rewrites the
add's own log entry to `modify` with the rebuilt reason (including the
source's join of the characters of the already joined changed-fields
string), clears the proposal's error and persists it when saving. -/
def consolidate_delete_add (cfg : Cfg) (st : St) (m : IXFMemberData) :
    St × IXFMemberData :=
  if m.ipaddr4.isNone ∨ m.ipaddr6.isNone then (st, m)
  else
    let ip4_deletion := st.deletions.find? (fun kv => kv.1 = ((m.asn, m.ipaddr4, none) : IxfId))
    let ip6_deletion := st.deletions.find? (fun kv => kv.1 = ((m.asn, none, m.ipaddr6) : IxfId))
    if ip4_deletion.isNone ∧ ip6_deletion.isNone then (st, m)
    else
      let p1 := m.set_requirement cfg st ip4_deletion
      let p2 := p1.2.set_requirement cfg p1.1 ip6_deletion
      let st := p2.1
      let m := p2.2
      if ¬ m.has_requirements then (st, m)
      else
        let st :=
          match ip4_deletion with
          | some kv => removeLogEntry st kv.2.log_eid
          | none => st
        let st :=
          match ip6_deletion with
          | some kv => removeLogEntry st kv.2.log_eid
          | none => st
        let oldNix :=
          match ip4_deletion with
          | some kv => st.db.findAnyNetixlan kv.1
          | none =>
            match ip6_deletion with
            | some kv => st.db.findAnyNetixlan kv.1
            | none => none
        let changed_fields := String.intercalate ", "
          (match oldNix with
           | some n => m._changes n
           | none => [])
        let joined := String.intercalate ", " (changed_fields.data.map (fun ch => String.singleton ch))
        let ipaddr_info :=
          if ip4_deletion.isSome ∧ ip6_deletion.isSome then "IP addresses moved to same entry"
          else if ip4_deletion.isSome then "IPv6 not set"
          else if ip6_deletion.isSome then "IPv4 not set"
          else ""
        let newReason := REASON_VALUES_CHANGED ++ ": " ++ joined ++ " " ++ ipaddr_info
        let st := rewriteLogEntry st m.log_eid newReason
        let m := { m with reason := newReason, error := none }
        if cfg.save then
          (({ st with db := st.db.upsertProposal m } : St).emit
            (.dbWrite "ixfmemberdata.upsert"), m)
        else (st, m)

/-- The `resolve` helper: resolve the proposal and queue a `resolved`
notification when there was something to resolve. -/
def resolve (cfg : Cfg) (st : St) (m : IXFMemberData) : St :=
  let r := m.set_resolved cfg st
  if r.2 then queue_notification r.1 m "resolved" true true true else r.1

/-- Modelled from the spec: `IXFMemberData.net_present_at_ix` (the network
already has an active connection record at the exchange). -/
def net_present_at_ix (db : DB) (asn : Nat) : Bool :=
  db.netixlans.any (fun n => n.status = "ok" ∧ n.asn = asn)

/-- The `apply_update` branch of the Decision Engine: with consent the
change is applied (validation errors turn the proposal into a conflict with
a queued `conflict` notification); without consent a `modify` proposal is
persisted, notified and logged. -/
def apply_update (cfg : Cfg) (st : St) (m : IXFMemberData) : Except PyErr St :=
  let changed_fields := String.intercalate ", " (m.changes st.db)
  let reason := REASON_VALUES_CHANGED ++ ": " ++ changed_fields
  match st.db.network? m.asn with
  | none => .ok st
  | some net =>
    if net.allow_ixp_update then
      match applyImd cfg st m with
      | .ok (st, action, nix) =>
        match log_apply st action nix m reason with
        | .error e => .error e
        | .ok (st, _) => .ok st
      | .error exc =>
        let r := m.set_conflict cfg st exc
        .ok (if r.2.2 then queue_notification r.1 r.2.1 "conflict" true true true else r.1)
    else
      let r := m.set_update cfg st reason
      let st := if r.2.2 then queue_notification r.1 r.2.1 "modify" true true true else r.1
      match log_ixf_member_data st r.2.1 with
      | .error e => .error e
      | .ok (st, _) => .ok st

/-- The `apply_add` branch of the Decision Engine, translated exactly from
the source: with consent the add is applied and
`consolidate_delete_add` is invoked only when `save` is false
(`if not self.save:`); without consent an `add` proposal is persisted,
logged, consolidated, and notified (with a reduced recipient set when the
network is not yet present at the exchange). -/
def apply_add (cfg : Cfg) (st : St) (m : IXFMemberData) : Except PyErr St :=
  match st.db.network? m.asn with
  | none => .ok st
  | some net =>
    if net.allow_ixp_update then
      match applyImd cfg st m with
      | .ok (st, action, nix) =>
        match log_apply st action nix m REASON_NEW_ENTRY with
        | .error e => .error e
        | .ok (st, m) =>
          if ¬ cfg.save then .ok (consolidate_delete_add cfg st m).1
          else .ok st
      | .error exc =>
        let r := m.set_conflict cfg st exc
        .ok (if r.2.2 then queue_notification r.1 r.2.1 "conflict" true true true else r.1)
    else
      let r := m.set_add cfg st REASON_NEW_ENTRY
      let notify := r.2.2
      match log_ixf_member_data r.1 r.2.1 with
      | .error e => .error e
      | .ok (st, m) =>
        let p := consolidate_delete_add cfg st m
        let st := p.1
        let m := p.2
        if notify ∧ net_present_at_ix st.db m.asn then
          .ok (queue_notification st m (m.action st.db) true true true)
        else if notify then
          .ok (queue_notification st m (m.action st.db) false false true)
        else .ok st

/-- The dispatcher `apply_add_or_update`. -/
def apply_add_or_update (cfg : Cfg) (st : St) (m : IXFMemberData) : Except PyErr St :=
  if m.netixlan_exists st.db then
    if (m.changes st.db).isEmpty then .ok (resolve cfg st m)
    else apply_update cfg st m
  else apply_add cfg st m

/-- Modelled from the spec: closing a reversion revision block
(`@reversion.create_revision()` on `process_deletions` / `process_saves`).
Every row written inside the block gains one committed version. -/
def close_revision (st : St) : St :=
  let ids := st.changed.dedup
  let bumped := st.db.netixlans.map (fun n =>
    if ids.contains n.id then { n with version := n.version + 1 } else n)
  { st with changed := [], db := { st.db with netixlans := bumped } }

/-- Insert or replace an entry of the run's deletion dictionary
(`self.deletions[ixf_id] = ixf_member_data`). -/
def upsertDeletion (l : List (IxfId × IXFMemberData)) (k : IxfId) (m : IXFMemberData) :
    List (IxfId × IXFMemberData) :=
  if l.any (fun kv => kv.1 = k) then l.map (fun kv => if kv.1 = k then (k, m) else kv)
  else l ++ [(k, m)]

/-- The body of the `process_deletions` loop for one active connection
record: a record whose identity key is missing from the seen-set is either
applied as a deletion (consent) or persisted as a `remove` proposal
(no consent); in both cases the proposal joins the run's deletion map
(the source inserts the shared mutable object before mutating it; the
embedding inserts the final value).  An `apply` validation error in the
consent path is unreachable for deletions and is absorbed. -/
def process_deletion_entry (cfg : Cfg) (st : St) (nix : Netixlan) : Except PyErr St :=
  if st.ixf_ids.contains nix.ixfId then .ok st
  else
    let m := IXFMemberData.instantiate st.db cfg.now nix.asn nix.ipaddr4 nix.ipaddr6
      0 true false false
    match st.db.network? nix.asn with
    | none => .ok st
    | some net =>
      if net.allow_ixp_update then
        match applyImd cfg st m with
        | .error _ => .ok st
        | .ok (st, action, nix2) =>
          match log_apply st action nix2 m REASON_ENTRY_GONE_FROM_REMOTE with
          | .error e => .error e
          | .ok (st, m) =>
            .ok { st with deletions := upsertDeletion st.deletions m.ixfId m }
      else
        let r := m.set_remove cfg st REASON_ENTRY_GONE_FROM_REMOTE
        let st := if r.2.2 then queue_notification r.1 r.2.1 "remove" true true true else r.1
        match log_ixf_member_data st r.2.1 with
        | .error e => .error e
        | .ok (st, m) =>
          .ok { st with deletions := upsertDeletion st.deletions m.ixfId m }

/-- The snapshot `process_deletions` iterates: active records on the IXLan,
restricted to the requested ASN when one was requested. -/
def netixlan_set_active (cfg : Cfg) (db : DB) : List Netixlan :=
  let qset := db.netixlans.filter (fun n => n.status = "ok")
  if asnTruthy cfg.asn then qset.filter (fun n => n.asn = cfg.asn.getD 0) else qset

def process_deletions_loop (cfg : Cfg) (st : St) : List Netixlan → Except PyErr St
  | [] => .ok st
  | nix :: rest =>
    match process_deletion_entry cfg st nix with
    | .error e => .error e
    | .ok st => process_deletions_loop cfg st rest

/-- The deletion pass (`process_deletions`), a reversion revision block. -/
def process_deletions (cfg : Cfg) (st : St) : Except PyErr St :=
  match process_deletions_loop cfg st (netixlan_set_active cfg st.db) with
  | .error e => .error e
  | .ok st => .ok (close_revision st)

def process_saves_loop (cfg : Cfg) (st : St) : List IXFMemberData → Except PyErr St
  | [] => .ok st
  | m :: rest =>
    match apply_add_or_update cfg st m with
    | .error e => .error e
    | .ok st => process_saves_loop cfg st rest

/-- The save pass (`process_saves`), a reversion revision block. -/
def process_saves (cfg : Cfg) (st : St) : Except PyErr St :=
  match process_saves_loop cfg st st.pending_save with
  | .error e => .error e
  | .ok st => .ok (close_revision st)

/-- One step of `cleanup_ixf_member_data`: resolve fulfilled deletions,
noops, and add/modify proposals whose identity is gone from the feed. -/
def cleanup_entry (cfg : Cfg) (st : St) (p : IXFMemberData) : St :=
  let action := p.action st.db
  if action = "delete" then
    match st.db.findAnyNetixlan p.ixfId with
    | some nix => if nix.status = "deleted" then resolve cfg st p else st
    | none => st
  else if action = "noop" then resolve cfg st p
  else if ¬ cfg.skip_import ∧ ¬ st.ixf_ids.contains p.ixfId then
    if action = "add" ∨ action = "modify" then resolve cfg st p else st
  else st

def cleanup_loop (cfg : Cfg) (st : St) : List IXFMemberData → St
  | [] => st
  | p :: rest => cleanup_loop cfg (cleanup_entry cfg st p) rest

/-- The end-of-run proposal cleanup (`cleanup_ixf_member_data`).  It bails
when the run is a preview (`if not self.save: return`); otherwise it walks
the persisted proposals of the IXLan (restricted to the requested ASN). -/
def cleanup_ixf_member_data (cfg : Cfg) (st : St) : St :=
  if ¬ cfg.save then st
  else
    let qset := st.db.ixf_member_data
    let qset := if asnTruthy cfg.asn then qset.filter (fun p => p.asn = cfg.asn.getD 0) else qset
    cleanup_loop cfg st qset

/-- Modelled from the spec: template rendering for notifications
(`render_notification`; template rendering is out of scope, the result is an
opaque string determined by template and recipient). -/
def render_notification (template recipient : String) : String :=
  "render:" ++ template ++ ":" ++ recipient

/-- The email dispatcher (`_email`): rows are written to the email log for
the named network / exchange, the per-recipient configuration gates cause
early returns, and the actual dispatch honors MAIL_DEBUG. -/
def _email (cfg : Cfg) (st : St) (subject _message : String) (recipients : List String)
    (net : Option Nat) (ix : Option Nat) : St :=
  let st :=
    match net with
    | some _ => st.emit (.dbWrite "email_log.create")
    | none => st
  if net.isSome ∧ ¬ cfg.notify_net_enabled then st
  else
  let st :=
    match ix with
    | some _ => st.emit (.dbWrite "email_log.create")
    | none => st
  if ix.isSome ∧ ¬ cfg.notify_ix_enabled then st
  else
  let st :=
    if ¬ cfg.mail_debug then st.emit (.email recipients subject)
    else st.emit (.debugMail recipients subject)
  if net.isSome ∨ ix.isSome then st.emit (.dbWrite "email_log.sent") else st

/-- The ticket writer (`_ticket`): the subject is tagged, a prior ticket
with the same subject and a known deskpro id donates its handle, the ticket
row is created, and the deskpro client is called.  A client exception is
caught and the row is updated with a `[FAILED]` subject and the exception's
`data` payload appended to the body; accessing `exc.data` on an exception
without that attribute raises `AttributeError` out of the handler. -/
def _ticket (cfg : Cfg) (st : St) (m : IXFMemberData) (subject0 message : String) :
    Except PyErr (St × TicketRec) :=
  let subject := cfg.email_subject_tag ++ "[IX-F] " ++ subject0
  let m :=
    if m.deskpro_id.isNone then
      match st.db.deskpro_tickets.find? (fun t => t.subject = subject ∧ t.deskpro_id.isSome) with
      | some old => { m with deskpro_id := old.deskpro_id, deskpro_ref := old.deskpro_ref }
      | none => m
    else m
  let ticket : TicketRec :=
    { id := st.db.next_ticket_id, subject := subject, body := message,
      deskpro_id := m.deskpro_id, deskpro_ref := m.deskpro_ref, published := none }
  let st := { st with db := { st.db with
    deskpro_tickets := st.db.deskpro_tickets ++ [ticket],
    next_ticket_id := st.db.next_ticket_id + 1 } }
  let st := st.emit (.dbWrite "deskpro_ticket.create")
  let st := st.emit (.ticketApi subject)
  match cfg.ticket_exc with
  | none =>
    let ticket := { ticket with published := some cfg.now }
    let rows := st.db.deskpro_tickets.map (fun t => if t.id = ticket.id then ticket else t)
    let st := { st with db := { st.db with deskpro_tickets := rows } }
    .ok (st.emit (.dbWrite "deskpro_ticket.save"), ticket)
  | some (.withData d) =>
    let ticket := { ticket with subject := "[FAILED]" ++ ticket.subject,
                                body := ticket.body ++ "\n\n" ++ d }
    let rows := st.db.deskpro_tickets.map (fun t => if t.id = ticket.id then ticket else t)
    let st := { st with db := { st.db with deskpro_tickets := rows } }
    .ok (st.emit (.dbWrite "deskpro_ticket.save"), ticket)
  | some (.plain _) => .error (.attributeError "data")

/-- Contacts of the proposal's network (policy contacts). -/
def net_contacts (db : DB) (m : IXFMemberData) : List String :=
  match db.network? m.asn with
  | some net => net.policy_contacts
  | none => []

/-- Human-readable label of a proposal, modelling its `__str__`. -/
def imdLabel (m : IXFMemberData) : String :=
  "AS" ++ toString m.asn

/-- The `ticket_proposal` routine: subject selection (an add with
requirements is renamed after its primary requirement), DeskPro ticket
creation when enabled, handle write-back onto a persisted proposal, and the
two notification emails. -/
def ticket_proposal (cfg : Cfg) (st : St) (m : IXFMemberData) (typ0 : String)
    (ac ix net : Bool) : Except PyErr St :=
  let tp :=
    if typ0 = "add" ∧ ¬ m.requirement_keys.isEmpty then
      (m.action st.db,
        match m.requirement_keys.head? with
        | some k => "AS" ++ toString k.1
        | none => imdLabel m)
    else (typ0, imdLabel m)
  let typ := tp.1
  let subject := tp.2 ++ " IX-F Conflict Resolution"
  let template_file := "email/notify-ixf-" ++ typ ++ ".txt"
  let acStep : Except PyErr (St × IXFMemberData) :=
    if ac ∧ cfg.tickets_enabled then
      match _ticket cfg st m subject (render_notification template_file "ac") with
      | .error e => .error e
      | .ok (st, ticket) =>
        let m := { m with deskpro_id := ticket.deskpro_id, deskpro_ref := ticket.deskpro_ref }
        if (st.db.findProposal m.ixfId).isSome then
          .ok (({ st with db := st.db.upsertProposal m } : St).emit
            (.dbWrite "ixfmemberdata.upsert"), m)
        else .ok (st, m)
    else .ok (st, m)
  match acStep with
  | .error e => .error e
  | .ok (st, m) =>
    let subject :=
      match m.deskpro_ref with
      | some r => subject ++ " [#" ++ r ++ "]"
      | none => subject
    let st :=
      if ix then
        _email cfg st subject (render_notification template_file "ix")
          st.db.ixlan.tech_contacts none (some st.db.ixlan.ix_id)
      else st
    let st :=
      if net ∧ m.has_data then
        _email cfg st subject (render_notification template_file "net")
          (net_contacts st.db m) (some m.asn) none
      else st
    .ok st

def ticket_aged_loop (cfg : Cfg) (st : St) : List IXFMemberData → Except PyErr St
  | [] => .ok st
  | p :: rest =>
    let action := p.action st.db
    let typ := if action = "delete" then "remove" else action
    match ticket_proposal cfg st p typ true true true with
    | .error e => .error e
    | .ok st => ticket_aged_loop cfg st rest

/-- The aging pass (`ticket_aged_proposals`): a no-op in preview mode;
otherwise proposals with no ticket and no requirement parent, old enough
when the age gate is positive, are escalated to tickets. -/
def ticket_aged_proposals (cfg : Cfg) (st : St) : Except PyErr St :=
  if ¬ cfg.save then .ok st
  else
    let qset := st.db.ixf_member_data.filter (fun p =>
      p.deskpro_id.isNone ∧ p.requirement_of.isNone)
    let qset :=
      if cfg.ticket_days > 0 then
        qset.filter (fun p => p.created ≤ cfg.now - cfg.ticket_days)
      else qset
    ticket_aged_loop cfg st qset

/-- Feed-level error notification (`notify_error`): a no-op in preview mode;
otherwise throttled by the notification period, the error and its timestamp
are written onto the IXLan, a ticket is filed and the exchange contacts are
mailed. -/
def notify_error (cfg : Cfg) (st : St) (error : String) : Except PyErr St :=
  if ¬ cfg.save then .ok st
  else
    let throttled : Bool :=
      match st.db.ixlan.ixf_ixp_import_error_notified with
      | some t => cfg.now - t < cfg.error_notification_period
      | none => false
    if throttled then .ok st
    else
      let st := { st with db := { st.db with ixlan :=
        { st.db.ixlan with ixf_ixp_import_error_notified := some cfg.now,
                           ixf_ixp_import_error := some error } } }
      let st := st.emit (.dbWrite "ixlan.error_notified")
      let m : IXFMemberData := { asn := 0 }
      let subject := "Could not process IX-F Data"
      let message := render_notification "email/notify-ixf-source-error.txt" "ac"
      match _ticket cfg st m subject message with
      | .error e => .error e
      | .ok (st, _) =>
        if ¬ st.db.ixlan.tech_contacts.isEmpty then
          .ok (_email cfg st subject message st.db.ixlan.tech_contacts none
            (some st.db.ixlan.ix_id))
        else .ok st

/-- One archive bucket entry (`archive`): the entry is written only when a
version newer than the captured one is observable. -/
def archive_entry_write (st : St) (action : String) (info : ActionInfo) : St :=
  let current := (st.db.netixlans.find? (fun n => n.id = info.nix_id)).map (fun n => n.version)
  let hasAfter : Bool :=
    match info.version_before, current with
    | some v, some cur => v < cur
    | none, some cur => 1 ≤ cur
    | _, none => false
  if hasAfter then st.emit (.archiveEntry action info.nix_id info.reason) else st

def archive_loop (st : St) (action : String) : List ActionInfo → St
  | [] => st
  | i :: rest => archive_loop (archive_entry_write st action i) action rest

/-- The archiver (`archive`): skipped in preview mode; otherwise one import
log row is created and the `delete`, `modify`, `add` buckets of
`actions_taken` are written in that order. -/
def archive (cfg : Cfg) (st : St) : St :=
  if ¬ cfg.save then st
  else
    let st := st.emit (.dbWrite "import_log.create")
    let st := archive_loop st "delete" st.actions_taken.delete
    let st := archive_loop st "modify" st.actions_taken.modify
    archive_loop st "add" st.actions_taken.add

/-- Exchange bookkeeping after a saved run (`update_ix`). -/
def update_ix (cfg : Cfg) (st : St) : St :=
  let ixf_changed := st.db.ixf_member_data.any (fun p => cfg.now ≤ p.updated)
  let nix_changed := st.db.netixlans.any (fun n => cfg.now ≤ n.updated)
  let save1 := ixf_changed ∨ nix_changed
  let ix0 := st.db.ix
  let ix1 := if save1 then { ix0 with ixf_last_import := some cfg.now } else ix0
  let cnt := st.pending_save.length
  let countChanged := ¬ cnt = ix0.ixf_net_count
  let ix2 := if countChanged then { ix1 with ixf_net_count := cnt } else ix1
  if save1 ∨ countChanged then
    ({ st with db := { st.db with ix := ix2 } } : St).emit (.dbWrite "ix")
  else st

/-- The transaction of a run: deletions then saves
(`with transaction.atomic():` in `update`). -/
def run_transaction (cfg : Cfg) (st : St) : Except PyErr St :=
  match process_deletions cfg st with
  | .error e => .error e
  | .ok st => process_saves cfg st

/-- Everything `update` does after the transaction: proposal cleanup, ticket
aging, archive, aggregated invalid address notification, and the save-gated
exchange and attempt-log writes. -/
def run_post_transaction (cfg : Cfg) (st : St) : Except PyErr St :=
  let st := cleanup_ixf_member_data cfg st
  match ticket_aged_proposals cfg st with
  | .error e => .error e
  | .ok st =>
  let st := archive cfg st
  match (if ¬ st.invalid_ip_errors.isEmpty then
      notify_error cfg st (String.intercalate "\n" st.invalid_ip_errors)
    else .ok st) with
  | .error e => .error e
  | .ok st => .ok (if cfg.save then save_log (update_ix cfg st) else st)

/-- Result of one `update` run. -/
structure RunResult where
  success : Bool
  st : St
deriving DecidableEq, Inhabited

/-- The tail of a successful parse: transaction then post-transaction. -/
def run_parsed (cfg : Cfg) (st : St) : Except PyErr RunResult :=
  match run_transaction cfg st with
  | .error e => .error e
  | .ok st =>
    match run_post_transaction cfg st with
    | .error e => .error e
    | .ok st => .ok ⟨true, st⟩

/-- The `update` entry point, phase by phase: data acquisition, the
`pdb_error` bail-out (with error notification and logged error), the
unconditional clearing of a previous import error on the IXLan, the
no-prefixes bail-out, the `skip_import` short cut, the parse (`KeyError`
logged and absorbed, other exceptions propagate), the transaction
(deletions then saves), cleanup, ticket aging, archive, aggregated invalid
address notification, and the save-gated exchange/log writes. -/
def runUpdate (cfg : Cfg) (db : DB) (dataArg : Option IxfData) (env : FetchEnv) :
    Except PyErr RunResult :=
  let st := St.init db
  let p := acquireData cfg st dataArg env
  let data := p.1
  let st := p.2
  match data.pdb_error with
  | some err =>
    match notify_error cfg st err with
    | .error e => .error e
    | .ok st => .ok ⟨false, log_error st err cfg.save⟩
  | none =>
  let st :=
    if st.db.ixlan.ixf_ixp_import_error.isSome then
      (({ st with db := { st.db with ixlan :=
        { st.db.ixlan with ixf_ixp_import_error := none } } } : St).emit
        (.dbWrite "ixlan.clear_error"))
    else st
  if st.db.ixlan.ixpfx_set_active.isEmpty then
    .ok ⟨false, log_error st "No prefixes defined on ixlan" cfg.save⟩
  else if cfg.skip_import then
    .ok ⟨true, cleanup_ixf_member_data cfg st⟩
  else
  match parse cfg st data with
  | .error (.keyError k) =>
    .ok ⟨false, log_error st ("Internal Error 'KeyError': " ++ k) cfg.save⟩
  | .error e => .error e
  | .ok st => run_parsed cfg st

end Importer

namespace PostMortem

/-- One IXLanIXFMemberImportLogEntry row together with the fields of its
related objects that `PostMortem` reads: the parent log's creation time and
exchange data, the referenced record's asn, and the `field_dict` of
`version_after` (the flattened post-change values).  The source formats
`log.created` with strftime; the embedding keeps the abstract timestamp. -/
structure ImportLogEntryRec where
  id : Nat
  log_created : Nat
  log_ixlan_id : Nat
  log_ix_id : Nat
  log_ix_name : String := ""
  netixlan_asn : Nat
  action : Option String := none
  reason : String := ""
  changes : String := ""
  va_asn : Nat
  va_ipaddr4 : Option Ip := none
  va_ipaddr6 : Option Ip := none
  va_speed : Int := 0
  va_is_rs_peer : Bool := false
deriving DecidableEq, Inhabited

/-- One flat record of the post-mortem report. -/
structure PostMortemRow where
  ix_id : Nat
  ix_name : String
  ixlan_id : Nat
  changes : String
  reason : String
  action : Option String
  asn : Nat
  ipaddr4 : Option Ip
  ipaddr6 : Option Ip
  speed : Int
  is_rs_peer : Bool
  created : Nat
deriving DecidableEq, Inhabited

/-- The ordering of `order_by("-log__created", "-id")`: newest log first,
ties broken by descending row id. -/
def entryLE (a b : ImportLogEntryRec) : Prop :=
  b.log_created < a.log_created ∨ (b.log_created = a.log_created ∧ b.id ≤ a.id)

instance : DecidableRel entryLE := fun a b => by
  unfold entryLE
  exact inferInstance

instance : IsTotal ImportLogEntryRec entryLE := by
  constructor
  intro a b
  unfold entryLE
  omega

instance : IsTrans ImportLogEntryRec entryLE := by
  constructor
  intro a b c hab hbc
  unfold entryLE at hab hbc ⊢
  omega

/-- The body of `_process_log_entry`: entries whose record asn or whose
post-version asn differ from the requested asn are skipped, the rest are
flattened. -/
def _process_log_entry (asn : Nat) (e : ImportLogEntryRec) : Option PostMortemRow :=
  if ¬ e.netixlan_asn = asn then none
  else if ¬ e.va_asn = asn then none
  else some
    { ix_id := e.log_ix_id, ix_name := e.log_ix_name, ixlan_id := e.log_ixlan_id,
      changes := e.changes, reason := e.reason, action := e.action,
      asn := e.va_asn, ipaddr4 := e.va_ipaddr4, ipaddr6 := e.va_ipaddr6,
      speed := e.va_speed, is_rs_peer := e.va_is_rs_peer, created := e.log_created }

/-- The `_process_logs` query: entries touching the asn, with a non-null
action, ordered newest first, truncated to `limit`, then flattened
per entry. -/
def _process_logs (asn limit : Nat) (entries : List ImportLogEntryRec) :
    List PostMortemRow :=
  let qset := entries.filter (fun e => e.netixlan_asn = asn)
  let qset := qset.filter (fun e => e.action.isSome)
  let qset := List.insertionSort entryLE qset
  (qset.take limit).filterMap (_process_log_entry asn)

/-- The `generate` entry point: `reset` takes the limit from the keyword
arguments with default 100 (`kwargs.get("limit", 100)`) and `_process_logs`
consumes it as is. -/
def generate (asn : Nat) (limit : Option Nat) (entries : List ImportLogEntryRec) :
    List PostMortemRow :=
  let lim := limit.getD 100
  _process_logs asn lim entries

end PostMortem

/-- Well-formedness of the database, collecting the record invariants the
spec declares for connection records: row ids are unique and below the id
counter, statuses are `ok` or `deleted`, an active record carries at least
one address, and each address family is unique among active records. -/
def DB.wf (db : DB) : Prop :=
  (db.netixlans.map (fun n => n.id)).Nodup ∧
  (∀ n ∈ db.netixlans, n.id < db.next_nix_id) ∧
  (∀ n ∈ db.netixlans, n.status = "ok" ∨ n.status = "deleted") ∧
  (∀ n ∈ db.netixlans, n.status = "ok" → n.ipaddr4.isSome ∨ n.ipaddr6.isSome) ∧
  (∀ a ∈ db.netixlans, ∀ b ∈ db.netixlans, a.status = "ok" → b.status = "ok" →
    ¬ a.id = b.id →
    (a.ipaddr4 = none ∨ ¬ a.ipaddr4 = b.ipaddr4) ∧
    (a.ipaddr6 = none ∨ ¬ a.ipaddr6 = b.ipaddr6))

instance (db : DB) : Decidable db.wf := by
  unfold DB.wf
  exact inferInstance

/-- Whether a record is in the scope of a run (`self.asn` filtering). -/
def inAsnScope (cfg : Cfg) (asn : Nat) : Prop :=
  asnTruthy cfg.asn = true → asn = cfg.asn.getD 0

/-- Projection of an `Except` run outcome, for closed statements. -/
def runOk (x : Except PyErr Importer.RunResult) : Importer.RunResult :=
  match x with
  | .ok r => r
  | .error _ => default

/-- Projection of a `_ticket` outcome onto its state. -/
def ticketResSt (x : Except PyErr (St × TicketRec)) : St :=
  match x with
  | .ok p => p.1
  | .error _ => default

/-- Projection of a `_ticket` outcome onto the returned ticket row. -/
def ticketResTicket (x : Except PyErr (St × TicketRec)) : TicketRec :=
  match x with
  | .ok p => p.2
  | .error _ => default

/-- The state after a run step extends the effect trace of the state before
it, and every appended effect satisfies `P`. -/
def EffectsExtend (P : Effect → Prop) (st st' : St) : Prop :=
  ∃ es, st'.effects = st.effects ++ es ∧ ∀ e ∈ es, P e

/-- Effects allowed in a dry run: anything except an email (real or debug),
a ticket API call, and any database write other than the clearing of a
previous import error note on the IXLan (feed caching is not a database
write). -/
def dryRunAllowed : Effect → Prop
  | .email _ _ => False
  | .debugMail _ _ => False
  | .ticketApi _ => False
  | .dbWrite t => t = "ixlan.clear_error"
  | .archiveEntry _ _ _ => False
  | .cacheWrite _ => True

/-- The effect is a soft-deletion write of a connection record. -/
def isNixDelete : Effect → Prop
  | .dbWrite t => t = "netixlan.delete"
  | _ => False

/-- The effect is a creation or update write of a connection record. -/
def isNixCreateOrUpdate : Effect → Prop
  | .dbWrite t => t = "netixlan.create" ∨ t = "netixlan.update"
  | _ => False

/-- Active records with equal identity keys coincide (a consequence of the
record invariants in `DB.wf`). -/
def ActiveUnique (db : DB) : Prop :=
  ∀ a ∈ db.netixlans, ∀ b ∈ db.netixlans, a.status = "ok" → b.status = "ok" →
    a.ixfId = b.ixfId → a = b

/-- Evolution of the connection-record table by soft deletion only: records
keep their id, asn and addresses, and a status can only move to deleted. -/
def NixSoftDeleteEvol (old new : List Netixlan) : Prop :=
  ∃ g : Netixlan → Netixlan, new = old.map g ∧
    ∀ n, (g n).id = n.id ∧ (g n).asn = n.asn ∧ (g n).ipaddr4 = n.ipaddr4 ∧
      (g n).ipaddr6 = n.ipaddr6 ∧ ((g n).status = n.status ∨ (g n).status = "deleted")

/-- Every pending row parsed from the feed carries a data payload and its
identity key is in the seen-set. -/
def PendingInv (st : St) : Prop :=
  ∀ m ∈ st.pending_save, m.has_data = true ∧ m.ixfId ∈ st.ixf_ids

/-- State evolution across the parse phase: the database, effect trace,
deletion map and action buckets are untouched, the seen-set only grows, and
every new pending row has a payload and a key in the seen-set. -/
def ParseEvol (st st2 : St) : Prop :=
  st2.db = st.db ∧ st2.effects = st.effects ∧ st2.deletions = st.deletions ∧
  st2.actions_taken = st.actions_taken ∧
  (∀ k ∈ st.ixf_ids, k ∈ st2.ixf_ids) ∧
  (∀ m ∈ st2.pending_save, m ∈ st.pending_save ∨
     (m.has_data = true ∧ m.ixfId ∈ st2.ixf_ids))

/-- The amended C2 invariant over a state: every record that is not soft
deleted, lies in the run's ASN scope, and belongs to a consenting network
has its identity key in the seen-set. -/
def SeenOrDeleted (cfg : Cfg) (st : St) : Prop :=
  ∀ n ∈ st.db.netixlans, ¬ n.status = "deleted" → inAsnScope cfg n.asn →
    ∀ net, st.db.network? n.asn = some net → net.allow_ixp_update = true →
      n.ixfId ∈ st.ixf_ids


/-- The effect is neither a connection-record deletion nor a creation or
update of one. -/
def nonNixEffect (e : Effect) : Prop :=
  ¬ isNixDelete e ∧ ¬ isNixCreateOrUpdate e

/-- The consent obligation of one record in a state: if the record's network
consents to automatic updates, the record's identity key was seen. -/
def ConsentSeen (_cfg : Cfg) (st : St) (n : Netixlan) : Prop :=
  ∀ net, st.db.network? n.asn = some net → net.allow_ixp_update = true →
    n.ixfId ∈ st.ixf_ids

/-- Loop invariant of the deletion pass: every active in-scope record either
already meets its consent obligation or is still to be visited. -/
def DelInv (cfg : Cfg) (st : St) (l : List Netixlan) : Prop :=
  ∀ n ∈ st.db.netixlans, n.status = "ok" → inAsnScope cfg n.asn →
    ConsentSeen cfg st n ∨ ∃ n' ∈ l, n'.ixfId = n.ixfId

/-- Record statuses are `ok` or `deleted`. -/
def StatusWf (st : St) : Prop :=
  ∀ n ∈ st.db.netixlans, n.status = "ok" ∨ n.status = "deleted"

/-- Frame of the transaction phases: the seen-set, the pending rows and the
network table are untouched. -/
def TransFrame (st st2 : St) : Prop :=
  st2.ixf_ids = st.ixf_ids ∧ st2.pending_save = st.pending_save ∧
  st2.db.networks = st.db.networks

/-- Full state frame of the log, notification and proposal helpers: the
record table too is untouched. -/
def StFrame (st st2 : St) : Prop :=
  st2.db.netixlans = st.db.netixlans ∧ TransFrame st st2

/-- Effects the deletion pass may append. -/
def delPhaseEffect (cfg : Cfg) (e : Effect) : Prop :=
  cfg.save = true ∧
    (e = Effect.dbWrite "netixlan.delete" ∨ e = Effect.dbWrite "ixfmemberdata.upsert")

/-- Effects the save pass may append. -/
def savePhaseEffect (cfg : Cfg) (e : Effect) : Prop :=
  cfg.save = true ∧
    (e = Effect.dbWrite "netixlan.create" ∨ e = Effect.dbWrite "netixlan.update" ∨
     e = Effect.dbWrite "ixfmemberdata.upsert" ∨ e = Effect.dbWrite "ixfmemberdata.delete")

/-- Effects the post-transaction phase may append. -/
def postPhaseEffect (cfg : Cfg) (e : Effect) : Prop :=
  cfg.save = true ∧ nonNixEffect e

/-- Record evolution across one save step for the identity key of the saved
row: each record either keeps the identity key, status and asn of a prior
record, or is the new record of the given key, created active. -/
def NixSaveEvol (old new : List Netixlan) (k : IxfId) : Prop :=
  ∀ n ∈ new, (∃ n0 ∈ old, n.ixfId = n0.ixfId ∧ n.status = n0.status ∧ n.asn = n0.asn) ∨
    (n.ixfId = k ∧ n.status = "ok")

/-- Effects the pre-parse segment of a run may append: allowed in a dry run
and not a connection-record write. -/
def preRunEffect (e : Effect) : Prop :=
  dryRunAllowed e ∧ nonNixEffect e

instance : DecidablePred isNixDelete := fun e => by
  unfold isNixDelete
  cases e <;> exact inferInstance

instance : DecidablePred isNixCreateOrUpdate := fun e => by
  unfold isNixCreateOrUpdate
  cases e <;> exact inferInstance

instance : DecidablePred dryRunAllowed := fun e => by
  unfold dryRunAllowed
  cases e <;> exact inferInstance

instance (e : Effect) : Decidable (nonNixEffect e) := by
  unfold nonNixEffect
  exact inferInstance

instance (e : Effect) : Decidable (preRunEffect e) := by
  unfold preRunEffect
  exact inferInstance

/-! Concrete instances used by the closed statements below. -/

/-- AS1 with consent to automatic application. -/
def exNetConsent : NetworkRec := { id := 1, asn := 1, allow_ixp_update := true }

/-- AS1 without consent. -/
def exNetNoConsent : NetworkRec := { id := 1, asn := 1, allow_ixp_update := false }

/-- An active IPv4-only connection record of AS1. -/
def exNix4 : Netixlan :=
  { id := 1, asn := 1, ipaddr4 := some 10, ipaddr6 := none, status := "ok", version := 1 }

/-- An IXLan whose active prefixes contain the addresses 10 and 20. -/
def exIxlan : IXLanRec := { id := 7, ix_id := 3, ixpfx_set_active := [[10, 20]] }

/-- Database with the consenting AS1 and its IPv4-only record. -/
def exDbConsent : DB :=
  { ixlan := exIxlan, ix := { id := 3 }, networks := [exNetConsent],
    netixlans := [exNix4], next_nix_id := 2 }

/-- Database with the non-consenting AS1 and its IPv4-only record. -/
def exDbNoConsent : DB :=
  { ixlan := exIxlan, ix := { id := 3 }, networks := [exNetNoConsent],
    netixlans := [exNix4], next_nix_id := 2 }

/-- A feed whose only member row is a dual-stack AS1 entry (10, 20). -/
def exDualStackData : IxfData :=
  { member_list := [ { asnum := some 1, connection_list := [ { vlan_list :=
      [ { ipv4 := some { address := some (.valid 10) },
          ipv6 := some { address := some (.valid 20) } } ] } ] } ] }

/-- A feed with no members at all. -/
def exEmptyData : IxfData := { member_list := [] }

/-- A saving run configuration. -/
def exCfgSave : Cfg := { save := true, now := 100, ticket_days := 1 }

/-- A dry-run configuration. -/
def exCfgDry : Cfg := { save := false, now := 100, ticket_days := 1 }

/-- Database with a plain AS5 network and no records. -/
def exDbPlain : DB := { ixlan := exIxlan, ix := { id := 3 }, networks := [{ id := 9, asn := 5 }] }

/-- A member entry of an invalid member type. -/
def exBadMember : Member := { member_type := some "leech", asnum := some 64500 }

/-- A valid member entry of AS5 with no connections. -/
def exGoodMember : Member := { asnum := some 5 }

/-- A connection whose state differs from "inactive" only in letter case. -/
def exConnInactive : Connection :=
  { state := some "Inactive",
    vlan_list := [ { ipv4 := some { address := some (.valid 10) } } ] }

/-- AS7 with IPv6 support disabled. -/
def exNetNoV6 : NetworkRec := { id := 2, asn := 7, ipv6_support := false }

/-- Database carrying `exNetNoV6`. -/
def exDbNoV6 : DB := { ixlan := exIxlan, ix := { id := 3 }, networks := [exNetNoV6] }

/-- A dual-stack vlan entry (10, 20). -/
def exLanDual : VlanEntry :=
  { ipv4 := some { address := some (.valid 10) },
    ipv6 := some { address := some (.valid 20) } }

/-- Database whose IXLan still carries an import error note from before. -/
def exDbWithError : DB :=
  { ixlan := { exIxlan with ixf_ixp_import_error := some "previous failure" },
    ix := { id := 3 } }

/-- Configuration whose ticket client raises a plain exception (no `data`). -/
def exCfgTicketPlain : Cfg := { ticket_exc := some (.plain "connection reset") }

/-- Configuration whose ticket client raises an API error carrying `data`. -/
def exCfgTicketData : Cfg := { ticket_exc := some (.withData "api error payload") }

/-- Three archive log entries touching AS1, in scrambled order. -/
def exPmEntries : List PostMortem.ImportLogEntryRec :=
  [ { id := 1, log_created := 50, log_ixlan_id := 7, log_ix_id := 3,
      netixlan_asn := 1, action := some "add", va_asn := 1 },
    { id := 2, log_created := 60, log_ixlan_id := 7, log_ix_id := 3,
      netixlan_asn := 1, action := some "modify", va_asn := 1 },
    { id := 3, log_created := 55, log_ixlan_id := 7, log_ix_id := 3,
      netixlan_asn := 1, action := some "delete", va_asn := 1 } ]

/-- Database with a feed URL, for the fetch-path statements. -/
def exDbUrl : DB :=
  { ixlan := { exIxlan with ixf_ixp_member_list_url := some "https feed url" },
    ix := { id := 3 } }

/-! ## Theorems -/

/-- C9: the claim says a member whose `member_type` is not allowed is
skipped with an `ignore: invalid member type` log entry carrying that
member's ASN, without raising, in particular as the first member.  The code
instead reads the loop-local `asn`, which is only assigned in the branch for
allowed member types: as the first member this raises `UnboundLocalError`;
after a valid member, `log_peer` is called with the previous member's asn
and then raises `AttributeError` on `netixlan.ixf_log_entry = entry` with
`netixlan = None`.  This theorem evaluates the code at both failing
inputs. -/
theorem C9_invalid_member_type_raises :
    Importer.parse_members {} none (St.init exDbPlain) [exBadMember]
      = Except.error (PyErr.unboundLocal "asn") ∧
    Importer.parse_members {} none (St.init exDbPlain) [exGoodMember, exBadMember]
      = Except.error (PyErr.attributeError "ixf_log_entry") := by
  constructor
  · decide
  · decide

/-- C1: the claim says delete+add consolidation applies to every run,
regardless of `allow_ixp_update` and of `save`.  In `apply_add`, the
consent path runs `consolidate_delete_add` only under `if not self.save:`.
Evaluated at a consenting network, save=true, with a single-stack record
`(1, 10, None)` and a dual-stack feed row `(1, 10, 20)`: the log keeps the
separate `delete` and `add` entries, the deletion acquires no
`requirement_of` link, `actions_taken` files the add under `add`, and the
archive records `delete` and `add` (no `modify`).  The same input with
save=false consolidates into a single `modify` entry with the requirement
link, so the preview and the committed run disagree. -/
theorem C1_consolidation_skipped_on_saving_runs :
    (Importer.runUpdate exCfgSave exDbConsent (some exDualStackData) {}
      = Except.ok (runOk (Importer.runUpdate exCfgSave exDbConsent (some exDualStackData) {}))) ∧
    (runOk (Importer.runUpdate exCfgSave exDbConsent (some exDualStackData) {})).success = true ∧
    (runOk (Importer.runUpdate exCfgSave exDbConsent (some exDualStackData) {})).st.log_data.map
        (fun e => e.action) = ["delete", "add"] ∧
    (runOk (Importer.runUpdate exCfgSave exDbConsent (some exDualStackData) {})).st.actions_taken.modify
        = [] ∧
    (runOk (Importer.runUpdate exCfgSave exDbConsent (some exDualStackData) {})).st.deletions.map
        (fun kv => kv.2.requirement_of) = [none] ∧
    (runOk (Importer.runUpdate exCfgSave exDbConsent (some exDualStackData) {})).st.effects
      = [Effect.dbWrite "netixlan.delete", Effect.dbWrite "netixlan.create",
         Effect.dbWrite "import_log.create",
         Effect.archiveEntry "delete" 1 Importer.REASON_ENTRY_GONE_FROM_REMOTE,
         Effect.archiveEntry "add" 2 Importer.REASON_NEW_ENTRY,
         Effect.dbWrite "ix", Effect.dbWrite "import_attempt"] ∧
    (runOk (Importer.runUpdate exCfgDry exDbConsent (some exDualStackData) {})).st.log_data.map
        (fun e => e.action) = ["modify"] ∧
    (runOk (Importer.runUpdate exCfgDry exDbConsent (some exDualStackData) {})).st.deletions.map
        (fun kv => kv.2.requirement_of) = [some (1, some 10, some 20)] := by
  refine ⟨by decide, by decide, by decide, by decide, by decide, by decide, by decide, by decide⟩

/-- C2 counterexample: the claim says after every committed run each local
connection record's key is in the seen-set or the record is deleted.  A
record of a network without `allow_ixp_update` whose key is absent from the
feed only produces a `remove` proposal: after the run it is still active
(`status = ok`) while the seen-set is empty. -/
theorem C2_counterexample :
    (Importer.runUpdate exCfgSave exDbNoConsent (some exEmptyData) {}
      = Except.ok (runOk (Importer.runUpdate exCfgSave exDbNoConsent (some exEmptyData) {}))) ∧
    (runOk (Importer.runUpdate exCfgSave exDbNoConsent (some exEmptyData) {})).success = true ∧
    (runOk (Importer.runUpdate exCfgSave exDbNoConsent (some exEmptyData) {})).st.db.netixlans.map
        (fun n => (n.ixfId, n.status)) = [((1, some 10, none), "ok")] ∧
    (runOk (Importer.runUpdate exCfgSave exDbNoConsent (some exEmptyData) {})).st.ixf_ids = [] := by
  refine ⟨by decide, by decide, by decide, by decide⟩

/-- C4 counterexample: the claim says a save=false run performs no database
writes of any kind.  When the IXLan carries an import error note from a
previous run and the feed parses, `update` clears the note and calls
`ixlan.save()` before checking `save`: the dry run performs exactly that
database write. -/
theorem C4_counterexample :
    (Importer.runUpdate exCfgDry exDbWithError (some exEmptyData) {}
      = Except.ok (runOk (Importer.runUpdate exCfgDry exDbWithError (some exEmptyData) {}))) ∧
    (runOk (Importer.runUpdate exCfgDry exDbWithError (some exEmptyData) {})).success = true ∧
    (runOk (Importer.runUpdate exCfgDry exDbWithError (some exEmptyData) {})).st.effects
      = [Effect.dbWrite "ixlan.clear_error"] := by
  refine ⟨by decide, by decide, by decide⟩

/-- C5 counterexample: the claim requires `operational = false` for every
state that differs from "inactive" only in letter case.  The state
"Inactive" passes the connection-state filter (which lowercases) but
`parse_vlans` compares the raw string, so the parsed row carries
`operational = true`. -/
theorem C5_counterexample :
    Importer.state_allowed exConnInactive = true ∧
    (match Importer.parse_connections {} { id := 9, asn := 5 } 5 (St.init exDbPlain)
        [exConnInactive] with
     | .ok st => st.pending_save.map (fun m => m.operational)
     | .error _ => []) = [true] := by
  refine ⟨by decide, by decide⟩

/-- C5 amended: for every connection that passes the state filter, the
operational flag is false exactly when the raw state string (default
"active") equals "inactive" case-sensitively; case variants pass the filter
and yield `operational = true`. -/
theorem C5_operational_iff_raw_state_inactive (c : Connection)
    (_h : Importer.state_allowed c = true) :
    (Importer.connection_operational c = false ↔ c.state.getD "active" = "inactive") := by
  unfold Importer.connection_operational
  by_cases h2 : c.state.getD "active" = "inactive" <;> simp [h2]

/-- Witness for the amended C5 at the concrete case-variant connection. -/
theorem C5_operational_iff_raw_state_inactive_witness :
    Importer.state_allowed exConnInactive = true ∧
    (Importer.connection_operational exConnInactive = false ↔
      exConnInactive.state.getD "active" = "inactive") :=
  ⟨by decide, C5_operational_iff_raw_state_inactive exConnInactive (by decide)⟩

/-- C3 counterexample: the claim says both auxiliary keys are inserted when
at least one protocol is unsupported.  For a dual-stack row of a network
with `ipv6_support = false`, only `(asn, ipv4, None)` is appended; the
`elif` never inserts `(asn, None, ipv6)`. -/
theorem C3_counterexample :
    (Importer.parse_vlan_entry {} exNetNoV6 7 {} 0 (St.init exDbNoV6) exLanDual).ixf_ids
      = [(7, some 10, some 20), (7, some 10, none)] ∧
    ¬ ((7, (none : Option Ip), (some 20 : Option Ip)) ∈
        (Importer.parse_vlan_entry {} exNetNoV6 7 {} 0 (St.init exDbNoV6) exLanDual).ixf_ids) := by
  refine ⟨by decide, by decide⟩

/-- C7 counterexample: the claim caps the result size by
min(limit, IXF_POSTMORTEM_LIMIT).  `PostMortem` never reads that setting:
with the configured cap at 1 and limit 2, the claim allows at most
min(2, 1) = 1 entry, but `generate` returns 2. -/
theorem C7_counterexample :
    (PostMortem.generate 1 (some 2) exPmEntries).length = 2 ∧
    ¬ ((PostMortem.generate 1 (some 2) exPmEntries).length ≤ min 2 1) := by
  refine ⟨by decide, by decide⟩

/-- C8 counterexample: the claim says no exception of the ticket client
propagates.  The handler reads `exc.data` unconditionally, so a client
exception without a `data` attribute (for example a transport error)
escapes `_ticket` as `AttributeError`. -/
theorem C8_counterexample :
    Importer._ticket exCfgTicketPlain (St.init exDbPlain) { asn := 0 } "subject" "body"
      = Except.error (PyErr.attributeError "data") := by
  decide

/-- Helper: projections of `parse_vlan_entry` bookkeeping that does not
touch the seen-set. -/
theorem queue_notification_ixf_ids (st : St) (m : IXFMemberData) (typ : String)
    (ac ix net : Bool) :
    (Importer.queue_notification st m typ ac ix net).ixf_ids = st.ixf_ids := rfl

theorem log_error_ixf_ids (st : St) (msg : String) (sv : Bool) :
    (Importer.log_error st msg sv).ixf_ids = st.ixf_ids := by
  unfold Importer.log_error St.emit
  split <;> rfl

/-- C3 amended: for every surviving dual-stack row, exactly one auxiliary
key is appended after the full key: `(asn, ipv4, None)` when the network
declares IPv6 unsupported, otherwise `(asn, None, ipv6)` when it declares
IPv4 unsupported, and no auxiliary key when both are supported. -/
theorem C3_exactly_one_auxiliary_key (cfg : Cfg) (network : NetworkRec) (asn : Nat)
    (connection : Connection) (speed : Int) (st : St) (lan : VlanEntry)
    (o4 o6 : IpObj) (a4 a6 : Ip)
    (h4 : lan.ipv4 = some o4) (h6 : lan.ipv6 = some o6)
    (ha4 : o4.address = some (.valid a4)) (ha6 : o6.address = some (.valid a6))
    (hv4 : st.db.ixlan.test_ip_address (some a4) = true)
    (hv6 : st.db.ixlan.test_ip_address (some a6) = true) :
    (Importer.parse_vlan_entry cfg network asn connection speed st lan).ixf_ids
      = st.ixf_ids ++ [(asn, some a4, some a6)] ++
        (if network.ipv6_support = false then [(asn, some a4, none)]
         else if network.ipv4_support = false then [(asn, none, some a6)]
         else []) := by
  unfold Importer.parse_vlan_entry
  rw [h4, h6]
  simp only [Option.isNone_some, Option.some_bind]
  rw [ha4, ha6]
  simp only [Importer.parseAddresses, hv4, hv6]
  simp only [Option.isSome_some, Option.isNone_some, Bool.not_true, Bool.false_and,
    Bool.and_false, and_false, false_and, if_false, not_true_eq_false]
  by_cases hs6 : network.ipv6_support <;> by_cases hs4 : network.ipv4_support <;>
    simp only [hs6, hs4, queue_notification_ixf_ids, log_error_ixf_ids,
      Bool.false_eq_true, Bool.true_eq_false, if_true, if_false, ite_true, ite_false,
      not_false_eq_true, not_true_eq_false, and_true, and_false, true_and, false_and,
      and_self, if_neg, List.append_assoc] <;>
    rfl

/-- Witness for the amended C3 at a concrete row of an IPv6-unsupporting
network. -/
theorem C3_exactly_one_auxiliary_key_witness :
    exLanDual.ipv4 = some { address := some (.valid 10) } ∧
    (Importer.parse_vlan_entry {} exNetNoV6 7 {} 0 (St.init exDbNoV6) exLanDual).ixf_ids
      = (St.init exDbNoV6).ixf_ids ++ [(7, some 10, some 20)] ++
        (if exNetNoV6.ipv6_support = false then [(7, some 10, none)]
         else if exNetNoV6.ipv4_support = false then [(7, none, some 20)]
         else []) :=
  ⟨rfl, C3_exactly_one_auxiliary_key {} exNetNoV6 7 {} 0 (St.init exDbNoV6) exLanDual
    { address := some (.valid 10) } { address := some (.valid 20) } 10 20
    rfl rfl rfl rfl (by decide) (by decide)⟩

/-- C7 amended: `generate` uses the requested limit (default 100) as is —
no configuration cap — returning at most that many entries, newest import
first, all touching the requested asn. -/
theorem C7_default_limit_order_and_bound (asn : Nat) (limit : Option Nat)
    (entries : List PostMortem.ImportLogEntryRec) :
    (PostMortem.generate asn limit entries).length ≤ limit.getD 100 ∧
    (PostMortem.generate asn limit entries).Pairwise
      (fun a b => b.created ≤ a.created) ∧
    (∀ r ∈ PostMortem.generate asn limit entries, r.asn = asn) := by
  unfold PostMortem.generate PostMortem._process_logs
  refine ⟨?_, ?_, ?_⟩
  · exact le_trans (List.length_filterMap_le _ _) (List.length_take_le _ _)
  · have hs := List.sorted_insertionSort PostMortem.entryLE
      ((entries.filter (fun e => e.netixlan_asn = asn)).filter (fun e => e.action.isSome))
    have ht := hs.sublist (List.take_sublist (limit.getD 100) _)
    refine ht.filterMap _ ?_
    intro a a' hR b hb b' hb'
    rw [Option.mem_def] at hb hb'
    unfold PostMortem._process_log_entry at hb hb'
    split_ifs at hb hb'
    injection hb with hb1
    injection hb' with hb1'
    subst hb1
    subst hb1'
    show a'.log_created ≤ a.log_created
    rcases hR with h | ⟨h, _⟩ <;> omega
  · intro r hr
    rw [List.mem_filterMap] at hr
    obtain ⟨e, _, hfe⟩ := hr
    unfold PostMortem._process_log_entry at hfe
    split_ifs at hfe with hskip hva
    · simp only [not_not] at hva
      simp only [Option.some.injEq] at hfe
      rw [← hfe]
      exact hva


/-- Witness for the amended C7 at a concrete archive. -/
theorem C7_default_limit_order_and_bound_witness :
    (PostMortem.generate 1 (some 2) exPmEntries).length ≤ (some 2).getD 100 ∧
    (PostMortem.generate 1 (some 2) exPmEntries).Pairwise
      (fun a b => b.created ≤ a.created) ∧
    (∀ r ∈ PostMortem.generate 1 (some 2) exPmEntries, r.asn = 1) :=
  C7_default_limit_order_and_bound 1 (some 2) exPmEntries

/-- C8 amended: for every ticket client exception that carries an error
payload (`data` attribute), `_ticket` does not propagate it: the ticket row
is persisted with its subject prefixed `[FAILED]` and the payload appended
to the body. -/
theorem C8_failed_ticket_persisted (cfg : Cfg) (st : St) (m : IXFMemberData)
    (s msg d : String) (h : cfg.ticket_exc = some (.withData d)) :
    (Importer._ticket cfg st m s msg).isOk = true ∧
    (ticketResTicket (Importer._ticket cfg st m s msg)).subject
      = "[FAILED]" ++ (cfg.email_subject_tag ++ "[IX-F] " ++ s) ∧
    (ticketResTicket (Importer._ticket cfg st m s msg)).body = msg ++ "\n\n" ++ d ∧
    (ticketResTicket (Importer._ticket cfg st m s msg))
      ∈ (ticketResSt (Importer._ticket cfg st m s msg)).db.deskpro_tickets := by
  unfold Importer._ticket
  rw [h]
  by_cases hdm : m.deskpro_id.isNone
  case neg =>
    simp only [hdm, if_false, Bool.false_eq_true]
    refine ⟨rfl, rfl, rfl, ?_⟩
    simp [ticketResTicket, ticketResSt, St.emit, List.mem_map]
  case pos =>
    simp only [hdm, if_true]
    cases hfind : st.db.deskpro_tickets.find? (fun t =>
        t.subject = cfg.email_subject_tag ++ "[IX-F] " ++ s ∧ t.deskpro_id.isSome) <;>
      · simp only [hfind]
        refine ⟨rfl, rfl, rfl, ?_⟩
        simp [ticketResTicket, ticketResSt, St.emit, List.mem_map]

/-- Witness for the amended C8 at a concrete payload-carrying exception. -/
theorem C8_failed_ticket_persisted_witness :
    exCfgTicketData.ticket_exc = some (.withData "api error payload") ∧
    (Importer._ticket exCfgTicketData (St.init exDbPlain) { asn := 0 } "subject" "body").isOk
      = true ∧
    (ticketResTicket (Importer._ticket exCfgTicketData (St.init exDbPlain)
        { asn := 0 } "subject" "body")).subject
      = "[FAILED]" ++ (exCfgTicketData.email_subject_tag ++ "[IX-F] " ++ "subject") :=
  ⟨rfl,
    (C8_failed_ticket_persisted exCfgTicketData (St.init exDbPlain) { asn := 0 }
      "subject" "body" "api error payload" rfl).1,
    (C8_failed_ticket_persisted exCfgTicketData (St.init exDbPlain) { asn := 0 }
      "subject" "body" "api error payload" rfl).2.1⟩

/-- C10: data supplied through the `data` argument of `update` is consumed
as is (the sanitizer never touches it and the fetch environment is
irrelevant to the run), while data obtained through `fetch` is always run
through `sanitize`. -/
theorem C10_supplied_data_is_not_sanitized (cfg : Cfg) (db : DB) (d : IxfData)
    (env env2 : Importer.FetchEnv) :
    Importer.acquireData cfg (St.init db) (some d) env = (d, St.init db) ∧
    Importer.runUpdate cfg db (some d) env = Importer.runUpdate cfg db (some d) env2 ∧
    (∀ j u, env.outcome = .json j → db.ixlan.ixf_ixp_member_list_url = some u →
      cfg.cache_only = false →
      (Importer.acquireData cfg (St.init db) none env).1 = Importer.sanitize j) := by
  refine ⟨rfl, rfl, ?_⟩
  intro j u hj hu hc
  unfold Importer.acquireData Importer.fetch
  rw [hc]
  have hu2 : (St.init db).db.ixlan.ixf_ixp_member_list_url = some u := hu
  rw [hu2, hj]
  simp only [Bool.false_eq_true, if_false]
  split <;> rfl

/-- Witness for C10 at a concrete run. -/
theorem C10_witness :
    Importer.acquireData {} (St.init exDbUrl) (some exDualStackData)
      { outcome := .json exEmptyData } = (exDualStackData, St.init exDbUrl) ∧
    Importer.runUpdate {} exDbUrl (some exDualStackData) { outcome := .json exEmptyData }
      = Importer.runUpdate {} exDbUrl (some exDualStackData) {} ∧
    (Importer.acquireData {} (St.init exDbUrl) none { outcome := .json exEmptyData }).1
      = Importer.sanitize exEmptyData := by
  obtain ⟨h1, h2, h3⟩ := C10_supplied_data_is_not_sanitized {} exDbUrl exDualStackData
    { outcome := .json exEmptyData } {}
  exact ⟨h1, h2, h3 exEmptyData "https feed url" rfl rfl rfl⟩

/-! Supporting lemmas shared by the run-level theorems. -/

theorem effectsExtend_of_eq {P : Effect → Prop} {st st2 : St}
    (h : st2.effects = st.effects) : EffectsExtend P st st2 :=
  ⟨[], by simp [h], by simp⟩

theorem effectsExtend_refl {P : Effect → Prop} (st : St) : EffectsExtend P st st :=
  effectsExtend_of_eq rfl

theorem effectsExtend_trans {P : Effect → Prop} {st1 st2 st3 : St}
    (h1 : EffectsExtend P st1 st2) (h2 : EffectsExtend P st2 st3) :
    EffectsExtend P st1 st3 := by
  obtain ⟨es1, he1, hp1⟩ := h1
  obtain ⟨es2, he2, hp2⟩ := h2
  refine ⟨es1 ++ es2, by rw [he2, he1, List.append_assoc], ?_⟩
  intro e he
  rcases List.mem_append.mp he with h | h
  · exact hp1 e h
  · exact hp2 e h

theorem effectsExtend_emit {P : Effect → Prop} {st st2 : St} {e : Effect}
    (h : EffectsExtend P st st2) (hp : P e) : EffectsExtend P st (st2.emit e) := by
  obtain ⟨es, he, hpp⟩ := h
  refine ⟨es ++ [e], ?_, ?_⟩
  · simp [St.emit, he]
  · intro x hx
    rcases List.mem_append.mp hx with h | h
    · exact hpp x h
    · simp only [List.mem_singleton] at h
      subst h
      exact hp

theorem effectsExtend_mono {P Q : Effect → Prop} {st st2 : St}
    (himp : ∀ e, P e → Q e) (h : EffectsExtend P st st2) : EffectsExtend Q st st2 := by
  obtain ⟨es, he, hp⟩ := h
  exact ⟨es, he, fun e hx => himp e (hp e hx)⟩

/-- `log_peer` only writes the in-memory attempt log. -/
theorem log_peer_frame {st : St} {asn : Nat} {a r : String} {lr : Importer.LogRef}
    {st2 : St} {eid : Nat}
    (h : Importer.log_peer st asn a r (some lr) = .ok (st2, eid)) :
    st2.effects = st.effects ∧ st2.db = st.db ∧ st2.ixf_ids = st.ixf_ids ∧
    st2.pending_save = st.pending_save ∧ st2.deletions = st.deletions ∧
    st2.actions_taken = st.actions_taken := by
  simp only [Importer.log_peer, Except.ok.injEq, Prod.mk.injEq] at h
  obtain ⟨h1, _⟩ := h
  subst h1
  exact ⟨rfl, rfl, rfl, rfl, rfl, rfl⟩

/-- `log_peer` with no object always raises. -/
theorem log_peer_none_raises (st : St) (asn : Nat) (a r : String) :
    Importer.log_peer st asn a r none = .error (.attributeError "ixf_log_entry") := rfl

/-- `log_error` only writes the attempt log, plus its save effect. -/
theorem log_error_frame (st : St) (msg : String) (sv : Bool) :
    (Importer.log_error st msg sv).db = st.db ∧
    (Importer.log_error st msg sv).ixf_ids = st.ixf_ids ∧
    (Importer.log_error st msg sv).pending_save = st.pending_save ∧
    (Importer.log_error st msg sv).deletions = st.deletions ∧
    (Importer.log_error st msg sv).actions_taken = st.actions_taken := by
  unfold Importer.log_error St.emit
  split <;> exact ⟨rfl, rfl, rfl, rfl, rfl⟩

theorem log_error_effects_false (st : St) (msg : String) :
    (Importer.log_error st msg false).effects = st.effects := rfl

/-- `queue_notification` only appends to the notification queue. -/
theorem queue_notification_frame (st : St) (m : IXFMemberData) (typ : String)
    (ac ix net : Bool) :
    (Importer.queue_notification st m typ ac ix net).effects = st.effects ∧
    (Importer.queue_notification st m typ ac ix net).db = st.db ∧
    (Importer.queue_notification st m typ ac ix net).ixf_ids = st.ixf_ids ∧
    (Importer.queue_notification st m typ ac ix net).pending_save = st.pending_save ∧
    (Importer.queue_notification st m typ ac ix net).deletions = st.deletions ∧
    (Importer.queue_notification st m typ ac ix net).actions_taken = st.actions_taken :=
  ⟨rfl, rfl, rfl, rfl, rfl, rfl⟩

/-- Field values of an instantiated proposal. -/
theorem instantiate_fields (db : DB) (now asn : Nat) (ip4 ip6 : Option Ip)
    (speed : Int) (op rs hd : Bool) :
    (IXFMemberData.instantiate db now asn ip4 ip6 speed op rs hd).has_data = hd ∧
    (IXFMemberData.instantiate db now asn ip4 ip6 speed op rs hd).ixfId = (asn, ip4, ip6) ∧
    (IXFMemberData.instantiate db now asn ip4 ip6 speed op rs hd).asn = asn ∧
    (IXFMemberData.instantiate db now asn ip4 ip6 speed op rs hd).ipaddr4 = ip4 ∧
    (IXFMemberData.instantiate db now asn ip4 ip6 speed op rs hd).ipaddr6 = ip6 := by
  unfold IXFMemberData.instantiate IXFMemberData.ixfId
  split <;> exact ⟨rfl, rfl, rfl, rfl, rfl⟩

theorem parseEvol_refl (st : St) : ParseEvol st st :=
  ⟨rfl, rfl, rfl, rfl, fun _ hk => hk, fun _ hm => Or.inl hm⟩

theorem parseEvol_trans {st1 st2 st3 : St} (h1 : ParseEvol st1 st2)
    (h2 : ParseEvol st2 st3) : ParseEvol st1 st3 := by
  obtain ⟨d1, e1, del1, a1, i1, p1⟩ := h1
  obtain ⟨d2, e2, del2, a2, i2, p2⟩ := h2
  refine ⟨d2.trans d1, e2.trans e1, del2.trans del1, a2.trans a1,
    fun k hk => i2 k (i1 k hk), ?_⟩
  intro m hm
  rcases p2 m hm with h | hg
  · rcases p1 m h with h2 | ⟨hd, hk⟩
    · exact Or.inl h2
    · exact Or.inr ⟨hd, i2 _ hk⟩
  · exact Or.inr hg

theorem parseEvol_log_error (st : St) (msg : String) :
    ParseEvol st (Importer.log_error st msg false) :=
  ⟨rfl, rfl, rfl, rfl, fun _ hk => hk, fun _ hm => Or.inl hm⟩

theorem parseEvol_queue (st : St) (m : IXFMemberData) (typ : String) (ac ix net : Bool) :
    ParseEvol st (Importer.queue_notification st m typ ac ix net) :=
  ⟨rfl, rfl, rfl, rfl, fun _ hk => hk, fun _ hm => Or.inl hm⟩

theorem parseEvol_ids_append (st : St) (l : List IxfId) :
    ParseEvol st { st with ixf_ids := st.ixf_ids ++ l } :=
  ⟨rfl, rfl, rfl, rfl, fun _ hk => List.mem_append.mpr (Or.inl hk),
    fun _ hm => Or.inl hm⟩

theorem parseEvol_pending_append (st : St) (m : IXFMemberData)
    (hd : m.has_data = true) (hk : m.ixfId ∈ st.ixf_ids) :
    ParseEvol st { st with pending_save := st.pending_save ++ [m] } := by
  refine ⟨rfl, rfl, rfl, rfl, fun _ h => h, ?_⟩
  intro x hx
  rcases List.mem_append.mp hx with h | h
  · exact Or.inl h
  · simp only [List.mem_singleton] at h
    subst h
    exact Or.inr ⟨hd, hk⟩

theorem parseEvol_invalid_ip (st : St) (e : String) :
    ParseEvol st { st with invalid_ip_errors := st.invalid_ip_errors ++ [e] } :=
  ⟨rfl, rfl, rfl, rfl, fun _ hk => hk, fun _ hm => Or.inl hm⟩

theorem parseEvol_conn_errors (st : St) (l : List String) :
    ParseEvol st { st with connection_errors := l } :=
  ⟨rfl, rfl, rfl, rfl, fun _ hk => hk, fun _ hm => Or.inl hm⟩

theorem parseEvol_asns (st : St) (l : List Nat) :
    ParseEvol st { st with asns := l } :=
  ⟨rfl, rfl, rfl, rfl, fun _ hk => hk, fun _ hm => Or.inl hm⟩

/-- One vlan entry only grows the seen-set and the pending list (with
well-formed rows) and touches nothing the later phases depend on. -/
theorem parse_vlan_entry_evol (cfg : Cfg) (network : NetworkRec) (asn : Nat)
    (connection : Connection) (speed : Int) (st : St) (lan : VlanEntry) :
    ParseEvol st (Importer.parse_vlan_entry cfg network asn connection speed st lan) := by
  unfold Importer.parse_vlan_entry
  by_cases c1 : lan.ipv4.isNone = true ∧ lan.ipv6.isNone = true
  · simp only [if_pos c1]
    exact parseEvol_log_error _ _
  · simp only [if_neg c1]
    cases hpa : Importer.parseAddresses (lan.ipv4.bind fun o => o.address)
        (lan.ipv6.bind fun o => o.address) with
    | error exc =>
      simp only [hpa]
      exact parseEvol_trans (parseEvol_invalid_ip st exc) (parseEvol_log_error _ _)
    | ok p =>
      obtain ⟨a4, a6⟩ := p
      simp only [hpa]
      by_cases c2 : a4.isSome = true ∧ ¬ st.db.ixlan.test_ip_address a4 = true ∧
          a6.isSome = true ∧ ¬ st.db.ixlan.test_ip_address a6 = true
      · simp only [if_pos c2]
        exact parseEvol_refl st
      · simp only [if_neg c2]
        by_cases c3 : ¬ st.db.ixlan.test_ip_address a4 = true ∧ a6.isNone = true
        · simp only [if_pos c3]
          exact parseEvol_refl st
        · simp only [if_neg c3]
          by_cases c4 : ¬ st.db.ixlan.test_ip_address a6 = true ∧ a4.isNone = true
          · simp only [if_pos c4]
            exact parseEvol_refl st
          · simp only [if_neg c4]
            generalize hst1 : (if ¬ ((if a4.isSome = true ∧ ¬ network.ipv4_support = true
                  then [4] else []) ++
                  (if a6.isSome = true ∧ ¬ network.ipv6_support = true then [6]
                  else [])).isEmpty = true then
                Importer.queue_notification st
                  (IXFMemberData.instantiate st.db cfg.now asn a4 a6 0 true false true)
                  "protocol-conflict" false true true
              else st) = st1
            have h1 : ParseEvol st st1 := by
              rw [← hst1]
              repeat' split
              all_goals first
                | exact parseEvol_queue _ _ _ _ _ _
                | exact parseEvol_refl st
            refine parseEvol_trans h1 ?_
            simp only [List.append_assoc]
            repeat' split
            all_goals first
              | exact parseEvol_trans (parseEvol_ids_append _ _) (parseEvol_log_error _ _)
              | (refine ⟨rfl, rfl, rfl, rfl,
                  fun k hk => List.mem_append.mpr (Or.inl hk), ?_⟩
                 intro x hx
                 rcases List.mem_append.mp hx with h | h
                 · exact Or.inl h
                 · simp only [List.mem_singleton] at h
                   subst h
                   refine Or.inr ⟨(instantiate_fields _ _ _ _ _ _ _ _ _).1, ?_⟩
                   show IXFMemberData.ixfId _ ∈ _
                   simp only [IXFMemberData.ixfId]
                   rw [(instantiate_fields _ _ _ _ _ _ _ _ _).2.2.1,
                     (instantiate_fields _ _ _ _ _ _ _ _ _).2.2.2.1,
                     (instantiate_fields _ _ _ _ _ _ _ _ _).2.2.2.2]
                   simp [List.mem_append])


theorem parse_speed_loop_evol (sp : Int) (l : List IfEntry) :
    ∀ st : St, ParseEvol st (Importer.parse_speed_loop st sp l).1 := by
  induction l generalizing sp with
  | nil =>
    intro st
    exact parseEvol_refl st
  | cons i rest ih =>
    intro st
    unfold Importer.parse_speed_loop
    cases hsp : i.if_speed.getD (.num 0) with
    | num n =>
      exact ih (sp + n) st
    | bad s =>
      refine parseEvol_trans ?_ (ih sp _)
      refine parseEvol_trans (parseEvol_log_error st _) (parseEvol_conn_errors _ _)

theorem parse_speed_evol (st : St) (l : List IfEntry) :
    ParseEvol st (Importer.parse_speed st l).1 :=
  parse_speed_loop_evol 0 l st

theorem parse_vlans_evol (cfg : Cfg) (network : NetworkRec) (asn : Nat)
    (connection : Connection) (speed : Int) (l : List VlanEntry) :
    ∀ st : St, ParseEvol st (Importer.parse_vlans cfg network asn connection speed st l) := by
  induction l with
  | nil =>
    intro st
    exact parseEvol_refl st
  | cons lan rest ih =>
    intro st
    unfold Importer.parse_vlans
    exact parseEvol_trans
      (parse_vlan_entry_evol cfg network asn connection speed st lan) (ih _)

theorem parse_connections_evol (cfg : Cfg) (network : NetworkRec) (asn : Nat)
    (l : List Connection) :
    ∀ st st2 : St, Importer.parse_connections cfg network asn st l = .ok st2 →
      ParseEvol st st2 := by
  induction l with
  | nil =>
    intro st st2 h
    simp only [Importer.parse_connections, Except.ok.injEq] at h
    subst h
    exact parseEvol_refl st
  | cons c rest ih =>
    intro st st2 h
    unfold Importer.parse_connections at h
    by_cases hst : Importer.state_allowed c = true
    · rw [if_pos hst] at h
      dsimp only at h
      exact parseEvol_trans (parseEvol_conn_errors st [])
        (parseEvol_trans
          (parse_speed_evol ({ st with connection_errors := [] } : St) c.if_list)
          (parseEvol_trans
            (parse_vlans_evol cfg network asn c
              (Importer.parse_speed ({ st with connection_errors := [] } : St) c.if_list).2
              c.vlan_list _)
            (ih _ _ h)))
    · rw [if_neg hst] at h
      rw [log_peer_none_raises] at h
      simp at h

theorem parse_member_one_evol (cfg : Cfg) (b : Option Nat) (st : St) (m : Member)
    (st2 : St) (b2 : Option Nat)
    (h : Importer.parse_member_one cfg b st m = .ok (st2, b2)) : ParseEvol st st2 := by
  unfold Importer.parse_member_one at h
  dsimp only at h
  by_cases ht : Importer.allowed_member_types.contains
      (pyLower (m.member_type.getD "peering")) = true
  · rw [if_pos ht] at h
    cases hasn : m.asnum with
    | none => rw [hasn] at h; simp at h
    | some asn =>
      rw [hasn] at h
      dsimp only at h
      by_cases hf : asnTruthy cfg.asn = true ∧ ¬ asn = cfg.asn.getD 0
      · rw [if_pos hf] at h
        simp only [Except.ok.injEq, Prod.mk.injEq] at h
        rw [← h.1]
        exact parseEvol_refl st
      · rw [if_neg hf] at h
        by_cases ha : st.asns.contains asn = true
        · rw [if_pos ha] at h
          cases hnet : st.db.network? asn with
          | none => rw [hnet, log_peer_none_raises] at h; simp at h
          | some network =>
            rw [hnet] at h
            dsimp only at h
            by_cases hok : ¬ network.status = "ok"
            · rw [if_pos hok, log_peer_none_raises] at h; simp at h
            · rw [if_neg hok] at h
              cases hpc : Importer.parse_connections cfg network asn st
                  m.connection_list with
              | error e => rw [hpc] at h; simp at h
              | ok st3 =>
                rw [hpc] at h
                dsimp only at h
                simp only [Except.ok.injEq, Prod.mk.injEq] at h
                rw [← h.1]
                exact parse_connections_evol cfg network asn m.connection_list st st3 hpc
        · rw [if_neg ha] at h
          cases hnet : ({ st with asns := st.asns ++ [asn] } : St).db.network? asn with
          | none => rw [hnet, log_peer_none_raises] at h; simp at h
          | some network =>
            rw [hnet] at h
            dsimp only at h
            by_cases hok : ¬ network.status = "ok"
            · rw [if_pos hok, log_peer_none_raises] at h; simp at h
            · rw [if_neg hok] at h
              cases hpc : Importer.parse_connections cfg network asn
                  ({ st with asns := st.asns ++ [asn] } : St) m.connection_list with
              | error e => rw [hpc] at h; simp at h
              | ok st3 =>
                rw [hpc] at h
                dsimp only at h
                simp only [Except.ok.injEq, Prod.mk.injEq] at h
                rw [← h.1]
                exact parseEvol_trans (parseEvol_asns st (st.asns ++ [asn]))
                  (parse_connections_evol cfg network asn m.connection_list _ st3 hpc)
  · rw [if_neg ht] at h
    cases b with
    | none => simp at h
    | some asn =>
      dsimp only at h
      rw [log_peer_none_raises] at h
      simp at h

theorem parse_members_evol (cfg : Cfg) (l : List Member) :
    ∀ (b : Option Nat) (st st2 : St),
      Importer.parse_members cfg b st l = .ok st2 → ParseEvol st st2 := by
  induction l with
  | nil =>
    intro b st st2 h
    simp only [Importer.parse_members, Except.ok.injEq] at h
    subst h
    exact parseEvol_refl st
  | cons m rest ih =>
    intro b st st2 h
    unfold Importer.parse_members at h
    cases hone : Importer.parse_member_one cfg b st m with
    | error e => rw [hone] at h; simp at h
    | ok p =>
      obtain ⟨st3, b3⟩ := p
      rw [hone] at h
      exact parseEvol_trans (parse_member_one_evol cfg b st m st3 b3 hone)
        (ih b3 st3 st2 h)

theorem parse_evol (cfg : Cfg) (st st2 : St) (d : IxfData)
    (h : Importer.parse cfg st d = .ok st2) : ParseEvol st st2 :=
  parse_members_evol cfg d.member_list none st st2 h

end IXF

namespace IXF

theorem stFrame_refl (st : St) : StFrame st st := ⟨rfl, rfl, rfl, rfl⟩

theorem stFrame_trans {st1 st2 st3 : St} (h1 : StFrame st1 st2) (h2 : StFrame st2 st3) :
    StFrame st1 st3 := by
  obtain ⟨a1, b1, c1, d1⟩ := h1
  obtain ⟨a2, b2, c2, d2⟩ := h2
  exact ⟨a2.trans a1, b2.trans b1, c2.trans c1, d2.trans d1⟩

theorem transFrame_refl (st : St) : TransFrame st st := ⟨rfl, rfl, rfl⟩

theorem transFrame_trans {st1 st2 st3 : St} (h1 : TransFrame st1 st2)
    (h2 : TransFrame st2 st3) : TransFrame st1 st3 := by
  obtain ⟨b1, c1, d1⟩ := h1
  obtain ⟨b2, c2, d2⟩ := h2
  exact ⟨b2.trans b1, c2.trans c1, d2.trans d1⟩

theorem stFrame_transFrame {st1 st2 : St} (h : StFrame st1 st2) : TransFrame st1 st2 := h.2

theorem network?_congr {db1 db2 : DB} (h : db1.networks = db2.networks) (a : Nat) :
    db1.network? a = db2.network? a := by
  unfold DB.network?
  rw [h]

theorem softEvol_refl (l : List Netixlan) : NixSoftDeleteEvol l l :=
  ⟨id, l.map_id.symm, fun _ => ⟨rfl, rfl, rfl, rfl, Or.inl rfl⟩⟩

theorem softEvol_of_eq {a b : List Netixlan} (h : b = a) : NixSoftDeleteEvol a b := by
  rw [h]
  exact softEvol_refl a

theorem softEvol_trans {a b c : List Netixlan} (h1 : NixSoftDeleteEvol a b)
    (h2 : NixSoftDeleteEvol b c) : NixSoftDeleteEvol a c := by
  obtain ⟨g1, hm1, hp1⟩ := h1
  obtain ⟨g2, hm2, hp2⟩ := h2
  refine ⟨g2 ∘ g1, by rw [hm2, hm1, List.map_map], ?_⟩
  intro n
  obtain ⟨h1a, h1b, h1c, h1d, h1e⟩ := hp1 n
  obtain ⟨h2a, h2b, h2c, h2d, h2e⟩ := hp2 (g1 n)
  refine ⟨h2a.trans h1a, h2b.trans h1b, h2c.trans h1c, h2d.trans h1d, ?_⟩
  rcases h2e with he | he
  · rcases h1e with he' | he'
    · exact Or.inl ((he.trans he' : ((g2 ∘ g1) n).status = n.status))
    · exact Or.inr (he.trans he')
  · exact Or.inr he

theorem softEvol_mem {old new : List Netixlan} (h : NixSoftDeleteEvol old new) :
    ∀ n ∈ new, ∃ n0 ∈ old, n.ixfId = n0.ixfId ∧ n.asn = n0.asn ∧
      (n.status = n0.status ∨ n.status = "deleted") := by
  obtain ⟨g, hm, hp⟩ := h
  intro n hn
  rw [hm] at hn
  obtain ⟨n0, hn0, rfl⟩ := List.mem_map.mp hn
  obtain ⟨_, hb, hc, hd, he⟩ := hp n0
  refine ⟨n0, hn0, ?_, hb, he⟩
  show ((g n0).asn, (g n0).ipaddr4, (g n0).ipaddr6) = (n0.asn, n0.ipaddr4, n0.ipaddr6)
  rw [hb, hc, hd]

theorem nixId_congr {a b : Netixlan} (h1 : a.asn = b.asn) (h2 : a.ipaddr4 = b.ipaddr4)
    (h3 : a.ipaddr6 = b.ipaddr6) : a.ixfId = b.ixfId := by
  show (a.asn, a.ipaddr4, a.ipaddr6) = (b.asn, b.ipaddr4, b.ipaddr6)
  rw [h1, h2, h3]

theorem activeUnique_evol {db1 db2 : DB} (h : NixSoftDeleteEvol db1.netixlans db2.netixlans)
    (hu : ActiveUnique db1) : ActiveUnique db2 := by
  obtain ⟨g, hm, hp⟩ := h
  intro a ha b hb hao hbo hk
  rw [hm] at ha hb
  obtain ⟨a0, ha0, rfl⟩ := List.mem_map.mp ha
  obtain ⟨b0, hb0, rfl⟩ := List.mem_map.mp hb
  obtain ⟨_, ha2, ha3, ha4, ha5⟩ := hp a0
  obtain ⟨_, hb2, hb3, hb4, hb5⟩ := hp b0
  have ha0s : a0.status = "ok" := by
    rcases ha5 with h' | h'
    · rw [← h', hao]
    · rw [h'] at hao
      exact absurd hao (by decide)
  have hb0s : b0.status = "ok" := by
    rcases hb5 with h' | h'
    · rw [← h', hbo]
    · rw [h'] at hbo
      exact absurd hbo (by decide)
  have hga : (g a0).ixfId = a0.ixfId := nixId_congr ha2 ha3 ha4
  have hgb : (g b0).ixfId = b0.ixfId := nixId_congr hb2 hb3 hb4
  have : a0 = b0 := hu a0 ha0 b0 hb0 ha0s hb0s (by rw [← hga, ← hgb]; exact hk)
  rw [this]

theorem statusWf_evol {st st2 : St} (h : NixSoftDeleteEvol st.db.netixlans st2.db.netixlans)
    (hs : StatusWf st) : StatusWf st2 := by
  intro n hn
  obtain ⟨n0, hn0, _, _, he⟩ := softEvol_mem h n hn
  rcases he with he | he
  · rw [he]
    exact hs n0 hn0
  · exact Or.inr he

theorem wf_activeUnique {db : DB} (h : db.wf) : ActiveUnique db := by
  obtain ⟨h1, -, -, h4, h5⟩ := h
  intro a ha b hb hao hbo hk
  have hasn : a.asn = b.asn ∧ a.ipaddr4 = b.ipaddr4 ∧ a.ipaddr6 = b.ipaddr6 := by
    have : (a.asn, a.ipaddr4, a.ipaddr6) = (b.asn, b.ipaddr4, b.ipaddr6) := hk
    simpa using this
  by_cases hid : a.id = b.id
  · exact List.inj_on_of_nodup_map h1 ha hb hid
  · obtain ⟨c4, c6⟩ := h5 a ha b hb hao hbo hid
    have h4a := h4 a ha hao
    rcases c4 with c4 | c4
    · rcases c6 with c6 | c6
      · rw [c4, c6] at h4a
        simp at h4a
      · exact absurd hasn.2.2 c6
    · exact absurd hasn.2.1 c4

end IXF

namespace IXF

theorem upsertProposal_frame (db : DB) (m : IXFMemberData) :
    (db.upsertProposal m).netixlans = db.netixlans ∧
    (db.upsertProposal m).networks = db.networks := by
  unfold DB.upsertProposal
  split
  · exact ⟨rfl, rfl⟩
  · exact ⟨rfl, rfl⟩

theorem setProposal_spec (cfg : Cfg) (st : St) (m : IXFMemberData) (reason : String) :
    StFrame st (setProposal cfg st m reason).1 ∧
    EffectsExtend (fun e => cfg.save = true ∧ e = Effect.dbWrite "ixfmemberdata.upsert") st
      (setProposal cfg st m reason).1 := by
  unfold setProposal
  by_cases hs : cfg.save = true
  · rw [if_pos hs]
    dsimp only
    exact ⟨⟨(upsertProposal_frame _ _).1, rfl, rfl, (upsertProposal_frame _ _).2⟩,
      effectsExtend_emit (effectsExtend_of_eq rfl) ⟨hs, rfl⟩⟩
  · rw [if_neg hs]
    exact ⟨stFrame_refl st, effectsExtend_refl st⟩

theorem set_resolved_spec (cfg : Cfg) (st : St) (m : IXFMemberData) :
    StFrame st (m.set_resolved cfg st).1 ∧
    EffectsExtend (fun e => cfg.save = true ∧ e = Effect.dbWrite "ixfmemberdata.delete") st
      (m.set_resolved cfg st).1 := by
  unfold IXFMemberData.set_resolved
  cases hf : st.db.findProposal m.ixfId with
  | none => exact ⟨stFrame_refl st, effectsExtend_refl st⟩
  | some p =>
    by_cases hs : cfg.save = true
    · rw [if_pos hs]
      exact ⟨⟨rfl, rfl, rfl, rfl⟩, effectsExtend_emit (effectsExtend_of_eq rfl) ⟨hs, rfl⟩⟩
    · rw [if_neg hs]
      exact ⟨stFrame_refl st, effectsExtend_refl st⟩

theorem set_conflict_spec (cfg : Cfg) (st : St) (m : IXFMemberData) (err : String) :
    StFrame st (m.set_conflict cfg st err).1 ∧
    EffectsExtend (fun e => cfg.save = true ∧ e = Effect.dbWrite "ixfmemberdata.upsert") st
      (m.set_conflict cfg st err).1 := by
  unfold IXFMemberData.set_conflict
  by_cases hs : cfg.save = true
  · rw [if_pos hs]
    dsimp only
    exact ⟨⟨(upsertProposal_frame _ _).1, rfl, rfl, (upsertProposal_frame _ _).2⟩,
      effectsExtend_emit (effectsExtend_of_eq rfl) ⟨hs, rfl⟩⟩
  · rw [if_neg hs]
    exact ⟨stFrame_refl st, effectsExtend_refl st⟩

theorem set_requirement_spec (cfg : Cfg) (st : St) (m : IXFMemberData)
    (req : Option (IxfId × IXFMemberData)) :
    StFrame st (m.set_requirement cfg st req).1 ∧
    EffectsExtend (fun e => cfg.save = true ∧ e = Effect.dbWrite "ixfmemberdata.upsert") st
      (m.set_requirement cfg st req).1 := by
  unfold IXFMemberData.set_requirement
  cases req with
  | none => exact ⟨stFrame_refl st, effectsExtend_refl st⟩
  | some kv =>
    obtain ⟨rkey, rimd⟩ := kv
    dsimp only
    by_cases hs : cfg.save = true
    · rw [if_pos hs]
      exact ⟨⟨(upsertProposal_frame _ _).1, rfl, rfl, (upsertProposal_frame _ _).2⟩,
        effectsExtend_emit (effectsExtend_of_eq rfl) ⟨hs, rfl⟩⟩
    · rw [if_neg hs]
      exact ⟨⟨rfl, rfl, rfl, rfl⟩, effectsExtend_of_eq rfl⟩

theorem queue_notification_spec (st : St) (m : IXFMemberData) (typ : String)
    (ac ix net : Bool) :
    StFrame st (Importer.queue_notification st m typ ac ix net) ∧
    (Importer.queue_notification st m typ ac ix net).effects = st.effects :=
  ⟨⟨rfl, rfl, rfl, rfl⟩, rfl⟩

theorem log_peer_stFrame {st : St} {asn : Nat} {a r : String} {lr : Importer.LogRef}
    {st2 : St} {eid : Nat}
    (h : Importer.log_peer st asn a r (some lr) = .ok (st2, eid)) :
    StFrame st st2 ∧ st2.effects = st.effects := by
  obtain ⟨he, hdb, hids, hpend, -, -⟩ := log_peer_frame h
  exact ⟨⟨by rw [hdb], hids, hpend, by rw [hdb]⟩, he⟩

theorem log_apply_spec {st : St} {action : String} {nix : Netixlan} {m : IXFMemberData}
    {reason : String} {st2 : St} {m2 : IXFMemberData}
    (h : Importer.log_apply st action nix m reason = .ok (st2, m2)) :
    StFrame st st2 ∧ st2.effects = st.effects := by
  unfold Importer.log_apply Importer.log_peer at h
  dsimp only at h
  simp only [Except.ok.injEq, Prod.mk.injEq] at h
  obtain ⟨h1, -⟩ := h
  rw [← h1]
  exact ⟨⟨rfl, rfl, rfl, rfl⟩, rfl⟩

theorem log_ixf_member_data_spec {st : St} {m : IXFMemberData} {st2 : St}
    {m2 : IXFMemberData}
    (h : Importer.log_ixf_member_data st m = .ok (st2, m2)) :
    StFrame st st2 ∧ st2.effects = st.effects := by
  unfold Importer.log_ixf_member_data Importer.log_peer at h
  dsimp only at h
  simp only [Except.ok.injEq, Prod.mk.injEq] at h
  obtain ⟨h1, -⟩ := h
  rw [← h1]
  exact ⟨⟨rfl, rfl, rfl, rfl⟩, rfl⟩

theorem removeLogEntry_spec (st : St) (eid : Option Nat) :
    StFrame st (Importer.removeLogEntry st eid) ∧
    (Importer.removeLogEntry st eid).effects = st.effects := by
  unfold Importer.removeLogEntry
  cases eid with
  | none => exact ⟨stFrame_refl st, rfl⟩
  | some e => exact ⟨⟨rfl, rfl, rfl, rfl⟩, rfl⟩

theorem rewriteLogEntry_spec (st : St) (eid : Option Nat) (reason : String) :
    StFrame st (Importer.rewriteLogEntry st eid reason) ∧
    (Importer.rewriteLogEntry st eid reason).effects = st.effects := by
  unfold Importer.rewriteLogEntry
  cases eid with
  | none => exact ⟨stFrame_refl st, rfl⟩
  | some e => exact ⟨⟨rfl, rfl, rfl, rfl⟩, rfl⟩

theorem resolve_spec (cfg : Cfg) (st : St) (m : IXFMemberData) :
    StFrame st (Importer.resolve cfg st m) ∧
    EffectsExtend (fun e => cfg.save = true ∧ e = Effect.dbWrite "ixfmemberdata.delete") st
      (Importer.resolve cfg st m) := by
  unfold Importer.resolve
  dsimp only
  obtain ⟨hf, he⟩ := set_resolved_spec cfg st m
  by_cases hr : (m.set_resolved cfg st).2 = true
  · rw [if_pos hr]
    obtain ⟨hqf, hqe⟩ :=
      queue_notification_spec (m.set_resolved cfg st).1 m "resolved" true true true
    exact ⟨stFrame_trans hf hqf, effectsExtend_trans he (effectsExtend_of_eq hqe)⟩
  · rw [if_neg hr]
    exact ⟨hf, he⟩

end IXF

namespace IXF

theorem consolidate_spec (cfg : Cfg) (st : St) (m : IXFMemberData) :
    StFrame st (Importer.consolidate_delete_add cfg st m).1 ∧
    EffectsExtend (fun e => cfg.save = true ∧ e = Effect.dbWrite "ixfmemberdata.upsert") st
      (Importer.consolidate_delete_add cfg st m).1 := by
  unfold Importer.consolidate_delete_add
  by_cases h1 : m.ipaddr4.isNone ∨ m.ipaddr6.isNone
  · rw [if_pos h1]
    exact ⟨stFrame_refl st, effectsExtend_refl st⟩
  · rw [if_neg h1]
    dsimp only
    generalize hd4 : st.deletions.find?
      (fun kv => kv.1 = ((m.asn, m.ipaddr4, none) : IxfId)) = d4
    generalize hd6 : st.deletions.find?
      (fun kv => kv.1 = ((m.asn, none, m.ipaddr6) : IxfId)) = d6
    by_cases h2 : d4.isNone = true ∧ d6.isNone = true
    · rw [if_pos h2]
      exact ⟨stFrame_refl st, effectsExtend_refl st⟩
    · rw [if_neg h2]
      generalize hp1 : IXFMemberData.set_requirement m cfg st d4 = p1
      generalize hp2 : IXFMemberData.set_requirement p1.2 cfg p1.1 d6 = p2
      have s1 := set_requirement_spec cfg st m d4
      rw [hp1] at s1
      have s2 := set_requirement_spec cfg p1.1 p1.2 d6
      rw [hp2] at s2
      have s12f := stFrame_trans s1.1 s2.1
      have s12e := effectsExtend_trans s1.2 s2.2
      by_cases h3 : ¬ p2.2.has_requirements = true
      · rw [if_pos h3]
        exact ⟨s12f, s12e⟩
      · rw [if_neg h3]
        generalize hq4 : (match d4 with
          | some kv => Importer.removeLogEntry p2.1 kv.2.log_eid
          | none => p2.1) = st4
        have s4 : StFrame p2.1 st4 ∧ st4.effects = p2.1.effects := by
          rw [← hq4]
          cases d4 with
          | none => exact ⟨stFrame_refl _, rfl⟩
          | some kv => exact removeLogEntry_spec p2.1 kv.2.log_eid
        generalize hq6 : (match d6 with
          | some kv => Importer.removeLogEntry st4 kv.2.log_eid
          | none => st4) = st6
        have s6 : StFrame st4 st6 ∧ st6.effects = st4.effects := by
          rw [← hq6]
          cases d6 with
          | none => exact ⟨stFrame_refl _, rfl⟩
          | some kv => exact removeLogEntry_spec st4 kv.2.log_eid
        by_cases hs : cfg.save = true
        · rw [if_pos hs]
          constructor
          · exact stFrame_trans s12f (stFrame_trans s4.1 (stFrame_trans s6.1
              (stFrame_trans (rewriteLogEntry_spec st6 p2.2.log_eid _).1
                ⟨(upsertProposal_frame _ _).1, rfl, rfl, (upsertProposal_frame _ _).2⟩)))
          · exact effectsExtend_trans s12e (effectsExtend_trans (effectsExtend_of_eq s4.2)
              (effectsExtend_trans (effectsExtend_of_eq s6.2)
                (effectsExtend_trans
                  (effectsExtend_of_eq (rewriteLogEntry_spec st6 p2.2.log_eid _).2)
                  (effectsExtend_emit (effectsExtend_of_eq rfl) ⟨hs, rfl⟩))))
        · rw [if_neg hs]
          exact ⟨stFrame_trans s12f (stFrame_trans s4.1 (stFrame_trans s6.1
              (rewriteLogEntry_spec st6 p2.2.log_eid _).1)),
            effectsExtend_trans s12e (effectsExtend_trans (effectsExtend_of_eq s4.2)
              (effectsExtend_trans (effectsExtend_of_eq s6.2)
                (effectsExtend_of_eq (rewriteLogEntry_spec st6 p2.2.log_eid _).2)))⟩

end IXF

namespace IXF

theorem findActiveNetixlan_some {db : DB} {key : IxfId} {n : Netixlan}
    (h : db.findActiveNetixlan key = some n) :
    n ∈ db.netixlans ∧ n.status = "ok" ∧ n.ixfId = key := by
  unfold DB.findActiveNetixlan at h
  refine ⟨List.mem_of_find?_eq_some h, ?_⟩
  have := List.find?_some h
  simpa using this

theorem findActiveNetixlan_none {db : DB} {key : IxfId}
    (h : db.findActiveNetixlan key = none) :
    ∀ n ∈ db.netixlans, ¬ (n.status = "ok" ∧ n.ixfId = key) := by
  unfold DB.findActiveNetixlan at h
  intro n hn
  have := List.find?_eq_none.mp h n hn
  simpa using this

theorem nixSaveEvol_refl (old : List Netixlan) (k : IxfId) : NixSaveEvol old old k :=
  fun n hn => Or.inl ⟨n, hn, rfl, rfl, rfl⟩

theorem applyImd_delete_spec {cfg : Cfg} {st : St} {m : IXFMemberData} {st2 : St}
    {a : String} {nix : Netixlan} (hhd : m.has_data = false)
    (h : applyImd cfg st m = .ok (st2, a, nix)) :
    TransFrame st st2 ∧
    NixSoftDeleteEvol st.db.netixlans st2.db.netixlans ∧
    EffectsExtend (fun e => cfg.save = true ∧ e = Effect.dbWrite "netixlan.delete") st st2 ∧
    (cfg.save = true → ActiveUnique st.db →
      ∀ n2 ∈ st2.db.netixlans, n2.status = "ok" → ¬ n2.ixfId = m.ixfId) := by
  unfold applyImd at h
  dsimp only at h
  have ha : m.action st.db = "delete" := by
    unfold IXFMemberData.action
    rw [hhd]
    simp
  rw [ha] at h
  rw [if_pos rfl] at h
  cases hfind : st.db.findActiveNetixlan m.ixfId with
  | none =>
    rw [hfind] at h
    simp at h
  | some n1 =>
    rw [hfind] at h
    dsimp only at h
    by_cases hs : cfg.save = true
    · rw [if_pos hs] at h
      simp only [Except.ok.injEq, Prod.mk.injEq] at h
      obtain ⟨h1, -, -⟩ := h
      subst h1
      refine ⟨⟨rfl, rfl, rfl⟩, ?_, ?_, ?_⟩
      · refine ⟨fun x => if x.id = n1.id
            then { x with status := "deleted", updated := cfg.now } else x, rfl, ?_⟩
        intro x
        dsimp only
        by_cases hid : x.id = n1.id
        · rw [if_pos hid]
          exact ⟨rfl, rfl, rfl, rfl, Or.inr rfl⟩
        · rw [if_neg hid]
          exact ⟨rfl, rfl, rfl, rfl, Or.inl rfl⟩
      · exact effectsExtend_emit (effectsExtend_of_eq rfl) ⟨hs, rfl⟩
      · intro _ hau n2 hn2 hok hkey
        obtain ⟨x0, hx0, hgx⟩ := List.mem_map.mp
          (show n2 ∈ st.db.netixlans.map
            (fun x => if x.id = n1.id
              then { x with status := "deleted", updated := cfg.now } else x) from hn2)
        by_cases hid : x0.id = n1.id
        · rw [if_pos hid] at hgx
          rw [← hgx] at hok
          simp at hok
        · rw [if_neg hid] at hgx
          rw [← hgx] at hok hkey
          obtain ⟨hn1mem, hn1ok, hn1key⟩ := findActiveNetixlan_some hfind
          have := hau x0 hx0 n1 hn1mem hok hn1ok (by rw [hkey, hn1key])
          exact hid (by rw [this])
    · rw [if_neg hs] at h
      simp only [Except.ok.injEq, Prod.mk.injEq] at h
      obtain ⟨h1, -, -⟩ := h
      subst h1
      exact ⟨⟨rfl, rfl, rfl⟩, softEvol_refl _, effectsExtend_refl st,
        fun hs' => absurd hs' hs⟩

theorem applyImd_hasdata_spec {cfg : Cfg} {st : St} {m : IXFMemberData} {st2 : St}
    {a : String} {nix : Netixlan} (hhd : m.has_data = true)
    (h : applyImd cfg st m = .ok (st2, a, nix)) :
    TransFrame st st2 ∧
    NixSaveEvol st.db.netixlans st2.db.netixlans m.ixfId ∧
    EffectsExtend (fun e => cfg.save = true ∧
      (e = Effect.dbWrite "netixlan.create" ∨ e = Effect.dbWrite "netixlan.update")) st st2 := by
  unfold applyImd at h
  dsimp only at h
  by_cases hex : m.netixlan_exists st.db = true
  · by_cases hch : (m.changes st.db).isEmpty = true
    · have ha : m.action st.db = "noop" := by
        unfold IXFMemberData.action
        rw [hhd, hex, hch]
        simp
      rw [ha] at h
      rw [if_neg (by decide), if_neg (by decide), if_neg (by decide)] at h
      cases hfind : st.db.findActiveNetixlan m.ixfId with
      | none =>
        rw [hfind] at h
        simp at h
      | some n1 =>
        rw [hfind] at h
        simp only [Except.ok.injEq, Prod.mk.injEq] at h
        obtain ⟨h1, -, -⟩ := h
        subst h1
        exact ⟨⟨rfl, rfl, rfl⟩, nixSaveEvol_refl _ _, effectsExtend_refl st⟩
    · have ha : m.action st.db = "modify" := by
        unfold IXFMemberData.action
        rw [hhd, hex]
        simp [hch]
      rw [ha] at h
      rw [if_neg (by decide), if_neg (by decide), if_pos rfl] at h
      cases hfind : st.db.findActiveNetixlan m.ixfId with
      | none =>
        rw [hfind] at h
        simp at h
      | some n1 =>
        rw [hfind] at h
        dsimp only at h
        by_cases hs : cfg.save = true
        · rw [if_pos hs] at h
          simp only [Except.ok.injEq, Prod.mk.injEq] at h
          obtain ⟨h1, -, -⟩ := h
          subst h1
          refine ⟨⟨rfl, rfl, rfl⟩, ?_, ?_⟩
          · intro n hn
            obtain ⟨x0, hx0, hgx⟩ := List.mem_map.mp
              (show n ∈ st.db.netixlans.map
                (fun x => if x.id = n1.id
                  then { x with speed := m.speed, operational := m.operational,
                                is_rs_peer := m.is_rs_peer, updated := cfg.now }
                  else x) from hn)
            refine Or.inl ⟨x0, hx0, ?_⟩
            by_cases hid : x0.id = n1.id
            · rw [if_pos hid] at hgx
              rw [← hgx]
              exact ⟨nixId_congr rfl rfl rfl, rfl, rfl⟩
            · rw [if_neg hid] at hgx
              rw [← hgx]
              exact ⟨rfl, rfl, rfl⟩
          · exact effectsExtend_emit (effectsExtend_of_eq rfl) ⟨hs, Or.inr rfl⟩
        · rw [if_neg hs] at h
          simp only [Except.ok.injEq, Prod.mk.injEq] at h
          obtain ⟨h1, -, -⟩ := h
          subst h1
          exact ⟨⟨rfl, rfl, rfl⟩, nixSaveEvol_refl _ _, effectsExtend_refl st⟩
  · have ha : m.action st.db = "add" := by
      unfold IXFMemberData.action
      rw [hhd]
      simp [hex]
    rw [ha] at h
    rw [if_neg (by decide), if_pos rfl] at h
    by_cases c1 : cfg.save = true ∧ m.ipaddr4.isSome = true ∧
        ¬ st.db.ixlan.test_ip_address m.ipaddr4 = true
    · rw [if_pos c1] at h
      simp at h
    · rw [if_neg c1] at h
      by_cases c2 : cfg.save = true ∧ m.ipaddr6.isSome = true ∧
          ¬ st.db.ixlan.test_ip_address m.ipaddr6 = true
      · rw [if_pos c2] at h
        simp at h
      · rw [if_neg c2] at h
        by_cases c3 : cfg.save = true ∧ (st.db.netixlans.any (fun n => n.status = "ok" ∧
            ((m.ipaddr4.isSome ∧ n.ipaddr4 = m.ipaddr4) ∨
             (m.ipaddr6.isSome ∧ n.ipaddr6 = m.ipaddr6)))) = true
        · rw [if_pos c3] at h
          simp at h
        · rw [if_neg c3] at h
          by_cases hs : cfg.save = true
          · rw [if_pos hs] at h
            simp only [Except.ok.injEq, Prod.mk.injEq] at h
            obtain ⟨h1, -, -⟩ := h
            subst h1
            refine ⟨⟨rfl, rfl, rfl⟩, ?_, ?_⟩
            · intro n hn
              rcases List.mem_append.mp hn with hn | hn
              · exact Or.inl ⟨n, hn, rfl, rfl, rfl⟩
              · simp only [List.mem_singleton] at hn
                subst hn
                exact Or.inr ⟨rfl, rfl⟩
            · exact effectsExtend_emit (effectsExtend_of_eq rfl) ⟨hs, Or.inl rfl⟩
          · rw [if_neg hs] at h
            simp only [Except.ok.injEq, Prod.mk.injEq] at h
            obtain ⟨h1, -, -⟩ := h
            subst h1
            exact ⟨⟨rfl, rfl, rfl⟩, nixSaveEvol_refl _ _, effectsExtend_refl st⟩

end IXF

namespace IXF

theorem ixfId_asn {a b : Netixlan} (h : a.ixfId = b.ixfId) : a.asn = b.asn :=
  congrArg Prod.fst h

theorem imd_ixfId_asn {a : IXFMemberData} {b : Netixlan} (h : a.ixfId = b.ixfId) :
    a.asn = b.asn :=
  congrArg Prod.fst h

theorem applyImd_delete_error {cfg : Cfg} {st : St} {m : IXFMemberData} {s : String}
    (hhd : m.has_data = false) (h : applyImd cfg st m = .error s) :
    st.db.findActiveNetixlan m.ixfId = none := by
  unfold applyImd at h
  dsimp only at h
  have ha : m.action st.db = "delete" := by
    unfold IXFMemberData.action
    rw [hhd]
    simp
  rw [ha, if_pos rfl] at h
  cases hfind : st.db.findActiveNetixlan m.ixfId with
  | none => rfl
  | some n1 =>
    rw [hfind] at h
    dsimp only at h
    by_cases hs : cfg.save = true
    · rw [if_pos hs] at h
      simp at h
    · rw [if_neg hs] at h
      simp at h

theorem nixSaveEvol_of_eq {old new : List Netixlan} (k : IxfId) (h : new = old) :
    NixSaveEvol old new k := by
  rw [h]
  exact nixSaveEvol_refl old k

theorem close_revision_spec (st : St) :
    TransFrame st (Importer.close_revision st) ∧
    NixSoftDeleteEvol st.db.netixlans (Importer.close_revision st).db.netixlans ∧
    (Importer.close_revision st).effects = st.effects := by
  unfold Importer.close_revision
  dsimp only
  refine ⟨⟨rfl, rfl, rfl⟩, ?_, rfl⟩
  refine ⟨fun n => if (st.changed.dedup).contains n.id
      then { n with version := n.version + 1 } else n, rfl, ?_⟩
  intro n
  dsimp only
  by_cases hc : (st.changed.dedup).contains n.id = true
  · rw [if_pos hc]
    exact ⟨rfl, rfl, rfl, rfl, Or.inl rfl⟩
  · rw [if_neg hc]
    exact ⟨rfl, rfl, rfl, rfl, Or.inl rfl⟩

theorem delInv_nil_evol {cfg : Cfg} {st st2 : St} (f : TransFrame st st2)
    (e : NixSoftDeleteEvol st.db.netixlans st2.db.netixlans)
    (h : DelInv cfg st []) : DelInv cfg st2 [] := by
  intro n hn hok hscope
  obtain ⟨n0, hn0, hkey, hasn, hstat⟩ := softEvol_mem e n hn
  have hok0 : n0.status = "ok" := by
    rcases hstat with h' | h'
    · rw [← h', hok]
    · rw [h'] at hok
      exact absurd hok (by decide)
  rcases h n0 hn0 hok0 (by rw [← hasn]; exact hscope) with hc | ⟨n', hn', -⟩
  · left
    intro net hnet hallow
    have hnet0 : st.db.network? n0.asn = some net := by
      rw [← hasn, ← network?_congr f.2.2 n.asn]
      exact hnet
    have := hc net hnet0 hallow
    rw [hkey, f.1]
    exact this
  · exact absurd hn' (List.not_mem_nil n')

theorem delInv_nil_saveEvol {cfg : Cfg} {st st2 : St} {k : IxfId} (f : TransFrame st st2)
    (e : NixSaveEvol st.db.netixlans st2.db.netixlans k) (hk : k ∈ st.ixf_ids)
    (h : DelInv cfg st []) : DelInv cfg st2 [] := by
  intro n hn hok hscope
  rcases e n hn with ⟨n0, hn0, hkey, hstat, hasn⟩ | ⟨hkey, -⟩
  · have hok0 : n0.status = "ok" := by rw [← hstat, hok]
    rcases h n0 hn0 hok0 (by rw [← hasn]; exact hscope) with hc | ⟨n', hn', -⟩
    · left
      intro net hnet hallow
      have hnet0 : st.db.network? n0.asn = some net := by
        rw [← hasn, ← network?_congr f.2.2 n.asn]
        exact hnet
      have := hc net hnet0 hallow
      rw [hkey, f.1]
      exact this
    · exact absurd hn' (List.not_mem_nil n')
  · left
    intro net _ _
    rw [hkey, f.1]
    exact hk

theorem statusWf_saveEvol {st st2 : St} {k : IxfId}
    (e : NixSaveEvol st.db.netixlans st2.db.netixlans k) (hs : StatusWf st) :
    StatusWf st2 := by
  intro n hn
  rcases e n hn with ⟨n0, hn0, -, hstat, -⟩ | ⟨-, hok⟩
  · rw [hstat]
    exact hs n0 hn0
  · exact Or.inl hok

end IXF

namespace IXF

theorem process_deletion_entry_spec {cfg : Cfg} {st : St} {nix : Netixlan} {st2 : St}
    (h : Importer.process_deletion_entry cfg st nix = .ok st2) :
    TransFrame st st2 ∧
    NixSoftDeleteEvol st.db.netixlans st2.db.netixlans ∧
    EffectsExtend (delPhaseEffect cfg) st st2 ∧
    (cfg.save = true → ActiveUnique st.db →
      ∀ n ∈ st2.db.netixlans, n.status = "ok" → n.ixfId = nix.ixfId →
        ConsentSeen cfg st2 n) := by
  unfold Importer.process_deletion_entry at h
  dsimp only at h
  by_cases hseen : st.ixf_ids.contains nix.ixfId = true
  · rw [if_pos hseen] at h
    simp only [Except.ok.injEq] at h
    subst h
    refine ⟨transFrame_refl st, softEvol_refl _, effectsExtend_refl st, ?_⟩
    intro _ _ n _ _ hkey
    intro net _ _
    rw [hkey]
    simpa using hseen
  · rw [if_neg hseen] at h
    have hm := instantiate_fields st.db cfg.now nix.asn nix.ipaddr4 nix.ipaddr6 0 true false false
    have hmkey : (IXFMemberData.instantiate st.db cfg.now nix.asn nix.ipaddr4 nix.ipaddr6
        0 true false false).ixfId = nix.ixfId := by
      rw [hm.2.1]
      rfl
    cases hnetq : st.db.network? nix.asn with
    | none =>
      rw [hnetq] at h
      simp only [Except.ok.injEq] at h
      subst h
      refine ⟨transFrame_refl st, softEvol_refl _, effectsExtend_refl st, ?_⟩
      intro _ _ n _ _ hkey
      intro net hnet _
      rw [ixfId_asn hkey] at hnet
      rw [hnetq] at hnet
      exact absurd hnet (by simp)
    | some net0 =>
      rw [hnetq] at h
      dsimp only at h
      by_cases hallow : net0.allow_ixp_update = true
      · rw [if_pos hallow] at h
        cases happ : applyImd cfg st (IXFMemberData.instantiate st.db cfg.now nix.asn
            nix.ipaddr4 nix.ipaddr6 0 true false false) with
        | error s =>
          rw [happ] at h
          simp only [Except.ok.injEq] at h
          subst h
          refine ⟨transFrame_refl st, softEvol_refl _, effectsExtend_refl st, ?_⟩
          intro _ _ n hn hok hkey
          have hnone := applyImd_delete_error hm.1 happ
          rw [hmkey] at hnone
          exact absurd ⟨hok, hkey⟩ (findActiveNetixlan_none hnone n hn)
        | ok trip =>
          obtain ⟨stA, action, nix2⟩ := trip
          rw [happ] at h
          dsimp only at h
          obtain ⟨fA, eA, xA, clA⟩ := applyImd_delete_spec hm.1 happ
          cases hlog : Importer.log_apply stA action nix2 (IXFMemberData.instantiate st.db
              cfg.now nix.asn nix.ipaddr4 nix.ipaddr6 0 true false false)
              Importer.REASON_ENTRY_GONE_FROM_REMOTE with
          | error e =>
            rw [hlog] at h
            simp at h
          | ok pB =>
            obtain ⟨stB, mB⟩ := pB
            rw [hlog] at h
            simp only [Except.ok.injEq] at h
            subst h
            obtain ⟨fB, eB⟩ := log_apply_spec hlog
            have fA2 : TransFrame st stB := transFrame_trans fA fB.2
            refine ⟨⟨fA2.1, fA2.2.1, fA2.2.2⟩, ?_, ?_, ?_⟩
            · exact softEvol_trans eA (softEvol_of_eq fB.1)
            · refine effectsExtend_trans
                (effectsExtend_mono (fun e he => ⟨he.1, Or.inl he.2⟩) xA)
                (effectsExtend_of_eq eB)
            · intro hsv hau n hn hok hkey
              have hnA : n ∈ stA.db.netixlans := by
                rw [← fB.1]
                exact hn
              have := clA hsv hau n hnA hok
              rw [hmkey] at this
              exact absurd hkey this
      · rw [if_neg hallow] at h
        generalize hr : IXFMemberData.set_remove (IXFMemberData.instantiate st.db cfg.now
            nix.asn nix.ipaddr4 nix.ipaddr6 0 true false false) cfg st
            Importer.REASON_ENTRY_GONE_FROM_REMOTE = r at h
        have hrs : StFrame st r.1 ∧
            EffectsExtend (fun e => cfg.save = true ∧
              e = Effect.dbWrite "ixfmemberdata.upsert") st r.1 := by
          rw [← hr]
          exact setProposal_spec cfg st _ _
        generalize hq : (if r.2.2 = true
            then Importer.queue_notification r.1 r.2.1 "remove" true true true
            else r.1) = stq at h
        have hqs : StFrame r.1 stq ∧ stq.effects = r.1.effects := by
          rw [← hq]
          by_cases hb : r.2.2 = true
          · rw [if_pos hb]
            exact queue_notification_spec r.1 r.2.1 "remove" true true true
          · rw [if_neg hb]
            exact ⟨stFrame_refl _, rfl⟩
        cases hlog : Importer.log_ixf_member_data stq r.2.1 with
        | error e =>
          rw [hlog] at h
          simp at h
        | ok pB =>
          obtain ⟨stB, mB⟩ := pB
          rw [hlog] at h
          simp only [Except.ok.injEq] at h
          subst h
          obtain ⟨fB, eB⟩ := log_ixf_member_data_spec hlog
          have fr : StFrame st stB := stFrame_trans hrs.1 (stFrame_trans hqs.1 fB)
          refine ⟨⟨fr.2.1, fr.2.2.1, fr.2.2.2⟩, softEvol_of_eq fr.1, ?_, ?_⟩
          · refine effectsExtend_trans
              (effectsExtend_mono (fun e he => ⟨he.1, Or.inr he.2⟩) hrs.2)
              (effectsExtend_trans (effectsExtend_of_eq hqs.2) (effectsExtend_of_eq eB))
          · intro hsv hau n hn hok hkey
            intro net hnet htrue
            have hnet0 : st.db.network? nix.asn = some net := by
              rw [← ixfId_asn hkey, ← network?_congr fr.2.2.2 n.asn]
              exact hnet
            rw [hnetq] at hnet0
            have : net0 = net := by
              simpa using hnet0
            rw [← this] at htrue
            exact absurd htrue hallow

end IXF

namespace IXF

theorem process_deletions_loop_spec (cfg : Cfg) (hsave : cfg.save = true)
    (l : List Netixlan) :
    ∀ st st2 : St, Importer.process_deletions_loop cfg st l = .ok st2 →
      ActiveUnique st.db → DelInv cfg st l →
      TransFrame st st2 ∧ NixSoftDeleteEvol st.db.netixlans st2.db.netixlans ∧
      EffectsExtend (delPhaseEffect cfg) st st2 ∧ DelInv cfg st2 [] ∧
      ActiveUnique st2.db := by
  induction l with
  | nil =>
    intro st st2 h hau hinv
    simp only [Importer.process_deletions_loop, Except.ok.injEq] at h
    subst h
    exact ⟨transFrame_refl st, softEvol_refl _, effectsExtend_refl st, hinv, hau⟩
  | cons nix rest ih =>
    intro st st2 h hau hinv
    unfold Importer.process_deletions_loop at h
    cases hent : Importer.process_deletion_entry cfg st nix with
    | error e =>
      rw [hent] at h
      simp at h
    | ok st1 =>
      rw [hent] at h
      obtain ⟨f1, e1, x1, cl1⟩ := process_deletion_entry_spec hent
      have hau1 : ActiveUnique st1.db := activeUnique_evol e1 hau
      have hinv1 : DelInv cfg st1 rest := by
        intro n hn hok hscope
        obtain ⟨n0, hn0, hkey0, hasn0, hst0⟩ := softEvol_mem e1 n hn
        have hok0 : n0.status = "ok" := by
          rcases hst0 with h' | h'
          · rw [← h', hok]
          · rw [h'] at hok
            exact absurd hok (by decide)
        have hscope0 : inAsnScope cfg n0.asn := by
          rw [← hasn0]
          exact hscope
        rcases hinv n0 hn0 hok0 hscope0 with hc | ⟨n', hn', hk'⟩
        · left
          intro net hnet hallow
          have hnet0 : st.db.network? n0.asn = some net := by
            rw [← hasn0, ← network?_congr f1.2.2 n.asn]
            exact hnet
          have := hc net hnet0 hallow
          rw [hkey0, f1.1]
          exact this
        · rcases List.mem_cons.mp hn' with heq | hrest
          · left
            subst heq
            exact cl1 hsave hau n hn hok (hkey0.trans hk'.symm)
          · right
            exact ⟨n', hrest, hk'.trans hkey0.symm⟩
      obtain ⟨f2, e2, x2, hinv2, hau2⟩ := ih st1 st2 h hau1 hinv1
      exact ⟨transFrame_trans f1 f2, softEvol_trans e1 e2, effectsExtend_trans x1 x2,
        hinv2, hau2⟩

theorem process_deletions_spec {cfg : Cfg} {st st2 : St} (hsave : cfg.save = true)
    (h : Importer.process_deletions cfg st = .ok st2) (hau : ActiveUnique st.db) :
    TransFrame st st2 ∧ NixSoftDeleteEvol st.db.netixlans st2.db.netixlans ∧
    EffectsExtend (delPhaseEffect cfg) st st2 ∧ DelInv cfg st2 [] ∧
    ActiveUnique st2.db := by
  unfold Importer.process_deletions at h
  cases hloop : Importer.process_deletions_loop cfg st
      (Importer.netixlan_set_active cfg st.db) with
  | error e =>
    rw [hloop] at h
    simp at h
  | ok st1 =>
    rw [hloop] at h
    simp only [Except.ok.injEq] at h
    subst h
    have hinv0 : DelInv cfg st (Importer.netixlan_set_active cfg st.db) := by
      intro n hn hok hscope
      right
      refine ⟨n, ?_, rfl⟩
      unfold Importer.netixlan_set_active
      dsimp only
      by_cases ht : asnTruthy cfg.asn = true
      · rw [if_pos ht]
        refine List.mem_filter.mpr ⟨List.mem_filter.mpr ⟨hn, by simp [hok]⟩, ?_⟩
        have := hscope ht
        simp [this]
      · rw [if_neg ht]
        exact List.mem_filter.mpr ⟨hn, by simp [hok]⟩
    obtain ⟨f, e, x, hinv, hau1⟩ :=
      process_deletions_loop_spec cfg hsave _ st st1 hloop hau hinv0
    obtain ⟨fc, ec, xc⟩ := close_revision_spec st1
    refine ⟨transFrame_trans f fc, softEvol_trans e ec,
      effectsExtend_trans x (effectsExtend_of_eq xc), ?_, activeUnique_evol ec hau1⟩
    exact delInv_nil_evol fc ec hinv

end IXF

namespace IXF

theorem nixSaveEvol_eq_trans {old mid new : List Netixlan} {k : IxfId}
    (e : NixSaveEvol old mid k) (h : new = mid) : NixSaveEvol old new k := by
  rw [h]
  exact e

theorem apply_update_spec {cfg : Cfg} {st : St} {m : IXFMemberData} {st2 : St}
    (hhd : m.has_data = true) (h : Importer.apply_update cfg st m = .ok st2) :
    TransFrame st st2 ∧ NixSaveEvol st.db.netixlans st2.db.netixlans m.ixfId ∧
    EffectsExtend (savePhaseEffect cfg) st st2 := by
  unfold Importer.apply_update at h
  dsimp only at h
  generalize hR : Importer.REASON_VALUES_CHANGED ++ ": " ++
    String.intercalate ", " (m.changes st.db) = R at h
  cases hnet : st.db.network? m.asn with
  | none =>
    rw [hnet] at h
    simp only [Except.ok.injEq] at h
    subst h
    exact ⟨transFrame_refl st, nixSaveEvol_refl _ _, effectsExtend_refl st⟩
  | some net =>
    rw [hnet] at h
    dsimp only at h
    by_cases hallow : net.allow_ixp_update = true
    · rw [if_pos hallow] at h
      cases happ : applyImd cfg st m with
      | ok trip =>
        obtain ⟨stA, action, nixx⟩ := trip
        rw [happ] at h
        dsimp only at h
        obtain ⟨fA, eA, xA⟩ := applyImd_hasdata_spec hhd happ
        cases hlog : Importer.log_apply stA action nixx m R with
        | error e =>
          rw [hlog] at h
          simp at h
        | ok pB =>
          obtain ⟨stB, mB⟩ := pB
          rw [hlog] at h
          simp only [Except.ok.injEq] at h
          subst h
          obtain ⟨fB, eB⟩ := log_apply_spec hlog
          exact ⟨transFrame_trans fA fB.2, nixSaveEvol_eq_trans eA fB.1,
            effectsExtend_trans
              (effectsExtend_mono (fun e he => ⟨he.1, by
                rcases he.2 with h' | h'
                · exact Or.inl h'
                · exact Or.inr (Or.inl h')⟩) xA)
              (effectsExtend_of_eq eB)⟩
      | error exc =>
        rw [happ] at h
        dsimp only at h
        generalize hr : IXFMemberData.set_conflict m cfg st exc = r at h
        have hrs : StFrame st r.1 ∧
            EffectsExtend (fun e => cfg.save = true ∧
              e = Effect.dbWrite "ixfmemberdata.upsert") st r.1 := by
          rw [← hr]
          exact set_conflict_spec cfg st m exc
        simp only [Except.ok.injEq] at h
        by_cases hb : r.2.2 = true
        · rw [if_pos hb] at h
          subst h
          obtain ⟨hqf, hqe⟩ := queue_notification_spec r.1 r.2.1 "conflict" true true true
          have fr : StFrame st _ := stFrame_trans hrs.1 hqf
          exact ⟨fr.2, nixSaveEvol_of_eq _ fr.1,
            effectsExtend_trans
              (effectsExtend_mono (fun e he => ⟨he.1, Or.inr (Or.inr (Or.inl he.2))⟩) hrs.2)
              (effectsExtend_of_eq hqe)⟩
        · rw [if_neg hb] at h
          subst h
          exact ⟨hrs.1.2, nixSaveEvol_of_eq _ hrs.1.1,
            effectsExtend_mono (fun e he => ⟨he.1, Or.inr (Or.inr (Or.inl he.2))⟩) hrs.2⟩
    · rw [if_neg hallow] at h
      generalize hr : IXFMemberData.set_update m cfg st R = r at h
      have hrs : StFrame st r.1 ∧
          EffectsExtend (fun e => cfg.save = true ∧
            e = Effect.dbWrite "ixfmemberdata.upsert") st r.1 := by
        rw [← hr]
        exact setProposal_spec cfg st _ _
      generalize hq : (if r.2.2 = true
          then Importer.queue_notification r.1 r.2.1 "modify" true true true
          else r.1) = stq at h
      have hqs : StFrame r.1 stq ∧ stq.effects = r.1.effects := by
        rw [← hq]
        by_cases hb : r.2.2 = true
        · rw [if_pos hb]
          exact queue_notification_spec r.1 r.2.1 "modify" true true true
        · rw [if_neg hb]
          exact ⟨stFrame_refl _, rfl⟩
      cases hlog : Importer.log_ixf_member_data stq r.2.1 with
      | error e =>
        rw [hlog] at h
        simp at h
      | ok pB =>
        obtain ⟨stB, mB⟩ := pB
        rw [hlog] at h
        simp only [Except.ok.injEq] at h
        subst h
        obtain ⟨fB, eB⟩ := log_ixf_member_data_spec hlog
        have fr : StFrame st stB := stFrame_trans hrs.1 (stFrame_trans hqs.1 fB)
        exact ⟨fr.2, nixSaveEvol_of_eq _ fr.1,
          effectsExtend_trans
            (effectsExtend_mono (fun e he => ⟨he.1, Or.inr (Or.inr (Or.inl he.2))⟩) hrs.2)
            (effectsExtend_trans (effectsExtend_of_eq hqs.2) (effectsExtend_of_eq eB))⟩

end IXF

namespace IXF

theorem apply_add_spec {cfg : Cfg} {st : St} {m : IXFMemberData} {st2 : St}
    (hhd : m.has_data = true) (h : Importer.apply_add cfg st m = .ok st2) :
    TransFrame st st2 ∧ NixSaveEvol st.db.netixlans st2.db.netixlans m.ixfId ∧
    EffectsExtend (savePhaseEffect cfg) st st2 := by
  unfold Importer.apply_add at h
  dsimp only at h
  cases hnet : st.db.network? m.asn with
  | none =>
    rw [hnet] at h
    simp only [Except.ok.injEq] at h
    subst h
    exact ⟨transFrame_refl st, nixSaveEvol_refl _ _, effectsExtend_refl st⟩
  | some net =>
    rw [hnet] at h
    dsimp only at h
    by_cases hallow : net.allow_ixp_update = true
    · rw [if_pos hallow] at h
      cases happ : applyImd cfg st m with
      | ok trip =>
        obtain ⟨stA, action, nixx⟩ := trip
        rw [happ] at h
        dsimp only at h
        obtain ⟨fA, eA, xA⟩ := applyImd_hasdata_spec hhd happ
        have xA2 : EffectsExtend (savePhaseEffect cfg) st stA :=
          effectsExtend_mono (fun e he => ⟨he.1, by
            rcases he.2 with h' | h'
            · exact Or.inl h'
            · exact Or.inr (Or.inl h')⟩) xA
        cases hlog : Importer.log_apply stA action nixx m Importer.REASON_NEW_ENTRY with
        | error e =>
          rw [hlog] at h
          simp at h
        | ok pB =>
          obtain ⟨stB, mB⟩ := pB
          rw [hlog] at h
          dsimp only at h
          obtain ⟨fB, eB⟩ := log_apply_spec hlog
          by_cases hs : ¬ cfg.save = true
          · rw [if_pos hs] at h
            simp only [Except.ok.injEq] at h
            subst h
            obtain ⟨fC, xC⟩ := consolidate_spec cfg stB mB
            refine ⟨transFrame_trans fA (transFrame_trans fB.2 fC.2), ?_, ?_⟩
            · exact nixSaveEvol_eq_trans (nixSaveEvol_eq_trans eA fB.1) fC.1
            · exact effectsExtend_trans xA2 (effectsExtend_trans (effectsExtend_of_eq eB)
                (effectsExtend_mono
                  (fun e he => ⟨he.1, Or.inr (Or.inr (Or.inl he.2))⟩) xC))
          · rw [if_neg hs] at h
            simp only [Except.ok.injEq] at h
            subst h
            exact ⟨transFrame_trans fA fB.2, nixSaveEvol_eq_trans eA fB.1,
              effectsExtend_trans xA2 (effectsExtend_of_eq eB)⟩
      | error exc =>
        rw [happ] at h
        dsimp only at h
        generalize hr : IXFMemberData.set_conflict m cfg st exc = r at h
        have hrs : StFrame st r.1 ∧
            EffectsExtend (fun e => cfg.save = true ∧
              e = Effect.dbWrite "ixfmemberdata.upsert") st r.1 := by
          rw [← hr]
          exact set_conflict_spec cfg st m exc
        simp only [Except.ok.injEq] at h
        by_cases hb : r.2.2 = true
        · rw [if_pos hb] at h
          subst h
          obtain ⟨hqf, hqe⟩ := queue_notification_spec r.1 r.2.1 "conflict" true true true
          have fr : StFrame st _ := stFrame_trans hrs.1 hqf
          exact ⟨fr.2, nixSaveEvol_of_eq _ fr.1,
            effectsExtend_trans
              (effectsExtend_mono (fun e he => ⟨he.1, Or.inr (Or.inr (Or.inl he.2))⟩) hrs.2)
              (effectsExtend_of_eq hqe)⟩
        · rw [if_neg hb] at h
          subst h
          exact ⟨hrs.1.2, nixSaveEvol_of_eq _ hrs.1.1,
            effectsExtend_mono (fun e he => ⟨he.1, Or.inr (Or.inr (Or.inl he.2))⟩) hrs.2⟩
    · rw [if_neg hallow] at h
      generalize hr : IXFMemberData.set_add m cfg st Importer.REASON_NEW_ENTRY = r at h
      have hrs : StFrame st r.1 ∧
          EffectsExtend (fun e => cfg.save = true ∧
            e = Effect.dbWrite "ixfmemberdata.upsert") st r.1 := by
        rw [← hr]
        exact setProposal_spec cfg st _ _
      cases hlog : Importer.log_ixf_member_data r.1 r.2.1 with
      | error e =>
        rw [hlog] at h
        simp at h
      | ok pB =>
        obtain ⟨stB, mB⟩ := pB
        rw [hlog] at h
        dsimp only at h
        obtain ⟨fB, eB⟩ := log_ixf_member_data_spec hlog
        obtain ⟨fC, xC⟩ := consolidate_spec cfg stB mB
        have fr : StFrame st (Importer.consolidate_delete_add cfg stB mB).1 :=
          stFrame_trans hrs.1 (stFrame_trans fB fC)
        have xr : EffectsExtend (savePhaseEffect cfg) st
            (Importer.consolidate_delete_add cfg stB mB).1 :=
          effectsExtend_trans
            (effectsExtend_mono (fun e he => ⟨he.1, Or.inr (Or.inr (Or.inl he.2))⟩) hrs.2)
            (effectsExtend_trans (effectsExtend_of_eq eB)
              (effectsExtend_mono
                (fun e he => ⟨he.1, Or.inr (Or.inr (Or.inl he.2))⟩) xC))
        by_cases hc1 : r.2.2 = true ∧ Importer.net_present_at_ix
            (Importer.consolidate_delete_add cfg stB mB).1.db
            (Importer.consolidate_delete_add cfg stB mB).2.asn = true
        · rw [if_pos hc1] at h
          simp only [Except.ok.injEq] at h
          subst h
          obtain ⟨hqf, hqe⟩ := queue_notification_spec
            (Importer.consolidate_delete_add cfg stB mB).1
            (Importer.consolidate_delete_add cfg stB mB).2 _ true true true
          have fr2 : StFrame st _ := stFrame_trans fr hqf
          exact ⟨fr2.2, nixSaveEvol_of_eq _ fr2.1,
            effectsExtend_trans xr (effectsExtend_of_eq hqe)⟩
        · rw [if_neg hc1] at h
          by_cases hc2 : r.2.2 = true
          · rw [if_pos hc2] at h
            simp only [Except.ok.injEq] at h
            subst h
            obtain ⟨hqf, hqe⟩ := queue_notification_spec
              (Importer.consolidate_delete_add cfg stB mB).1
              (Importer.consolidate_delete_add cfg stB mB).2 _ false false true
            have fr2 : StFrame st _ := stFrame_trans fr hqf
            exact ⟨fr2.2, nixSaveEvol_of_eq _ fr2.1,
              effectsExtend_trans xr (effectsExtend_of_eq hqe)⟩
          · rw [if_neg hc2] at h
            simp only [Except.ok.injEq] at h
            subst h
            exact ⟨fr.2, nixSaveEvol_of_eq _ fr.1, xr⟩

theorem apply_aou_spec {cfg : Cfg} {st : St} {m : IXFMemberData} {st2 : St}
    (hhd : m.has_data = true)
    (h : Importer.apply_add_or_update cfg st m = .ok st2) :
    TransFrame st st2 ∧ NixSaveEvol st.db.netixlans st2.db.netixlans m.ixfId ∧
    EffectsExtend (savePhaseEffect cfg) st st2 := by
  unfold Importer.apply_add_or_update at h
  by_cases hex : m.netixlan_exists st.db = true
  · rw [if_pos hex] at h
    by_cases hch : (m.changes st.db).isEmpty = true
    · rw [if_pos hch] at h
      simp only [Except.ok.injEq] at h
      subst h
      obtain ⟨hf, he⟩ := resolve_spec cfg st m
      exact ⟨hf.2, nixSaveEvol_of_eq _ hf.1,
        effectsExtend_mono
          (fun e he' => ⟨he'.1, Or.inr (Or.inr (Or.inr he'.2))⟩) he⟩
    · rw [if_neg hch] at h
      exact apply_update_spec hhd h
  · rw [if_neg hex] at h
    exact apply_add_spec hhd h

end IXF

namespace IXF

theorem process_saves_loop_spec (cfg : Cfg) (l : List IXFMemberData) :
    ∀ st st2 : St, Importer.process_saves_loop cfg st l = .ok st2 →
      (∀ m ∈ l, m.has_data = true) →
      TransFrame st st2 ∧
      (∀ n ∈ st2.db.netixlans,
        (∃ n0 ∈ st.db.netixlans,
          n.ixfId = n0.ixfId ∧ n.status = n0.status ∧ n.asn = n0.asn) ∨
        (∃ mm ∈ l, n.ixfId = mm.ixfId ∧ n.status = "ok")) ∧
      EffectsExtend (savePhaseEffect cfg) st st2 := by
  induction l with
  | nil =>
    intro st st2 h _
    simp only [Importer.process_saves_loop, Except.ok.injEq] at h
    subst h
    exact ⟨transFrame_refl st, fun n hn => Or.inl ⟨n, hn, rfl, rfl, rfl⟩,
      effectsExtend_refl st⟩
  | cons mm rest ih =>
    intro st st2 h hhd
    unfold Importer.process_saves_loop at h
    cases hstep : Importer.apply_add_or_update cfg st mm with
    | error e =>
      rw [hstep] at h
      simp at h
    | ok st1 =>
      rw [hstep] at h
      obtain ⟨f1, e1, x1⟩ := apply_aou_spec (hhd mm (List.mem_cons_self mm rest)) hstep
      obtain ⟨f2, chr, x2⟩ := ih st1 st2 h (fun m hm => hhd m (List.mem_cons_of_mem mm hm))
      refine ⟨transFrame_trans f1 f2, ?_, effectsExtend_trans x1 x2⟩
      intro n hn
      rcases chr n hn with ⟨n1, hn1, hkey, hst, hasn⟩ | ⟨m', hm', hkey, hok⟩
      · rcases e1 n1 hn1 with ⟨n0, hn0, k0, s0, a0⟩ | ⟨k1, o1⟩
        · exact Or.inl ⟨n0, hn0, hkey.trans k0, hst.trans s0, hasn.trans a0⟩
        · exact Or.inr ⟨mm, List.mem_cons_self mm rest, hkey.trans k1, hst.trans o1⟩
      · exact Or.inr ⟨m', List.mem_cons_of_mem mm hm', hkey, hok⟩

theorem process_saves_spec {cfg : Cfg} {st st2 : St}
    (h : Importer.process_saves cfg st = .ok st2)
    (hpend : ∀ m ∈ st.pending_save, m.has_data = true ∧ m.ixfId ∈ st.ixf_ids)
    (hinv : DelInv cfg st []) (hsw : StatusWf st) :
    TransFrame st st2 ∧ DelInv cfg st2 [] ∧ StatusWf st2 ∧
    EffectsExtend (savePhaseEffect cfg) st st2 := by
  unfold Importer.process_saves at h
  cases hloop : Importer.process_saves_loop cfg st st.pending_save with
  | error e =>
    rw [hloop] at h
    simp at h
  | ok st1 =>
    rw [hloop] at h
    simp only [Except.ok.injEq] at h
    subst h
    obtain ⟨f1, chr, x1⟩ := process_saves_loop_spec cfg st.pending_save st st1 hloop
      (fun m hm => (hpend m hm).1)
    have hinv1 : DelInv cfg st1 [] := by
      intro n hn hok hscope
      rcases chr n hn with ⟨n0, hn0, hkey, hst, hasn⟩ | ⟨m', hm', hkey, -⟩
      · have hok0 : n0.status = "ok" := by rw [← hst, hok]
        rcases hinv n0 hn0 hok0 (by rw [← hasn]; exact hscope) with hc | ⟨n', hn', -⟩
        · left
          intro net hnet hallow
          have hnet0 : st.db.network? n0.asn = some net := by
            rw [← hasn, ← network?_congr f1.2.2 n.asn]
            exact hnet
          have := hc net hnet0 hallow
          rw [hkey, f1.1]
          exact this
        · exact absurd hn' (List.not_mem_nil n')
      · left
        intro net _ _
        rw [hkey, f1.1]
        exact (hpend m' hm').2
    have hsw1 : StatusWf st1 := by
      intro n hn
      rcases chr n hn with ⟨n0, hn0, -, hst, -⟩ | ⟨-, -, -, hok⟩
      · rw [hst]
        exact hsw n0 hn0
      · exact Or.inl hok
    obtain ⟨fc, ec, xc⟩ := close_revision_spec st1
    exact ⟨transFrame_trans f1 fc, delInv_nil_evol fc ec hinv1, statusWf_evol ec hsw1,
      effectsExtend_trans x1 (effectsExtend_of_eq xc)⟩

end IXF

namespace IXF

theorem email_spec (cfg : Cfg) (st : St) (subject message : String)
    (recipients : List String) (net ix : Option Nat) :
    StFrame st (Importer._email cfg st subject message recipients net ix) ∧
    EffectsExtend nonNixEffect st
      (Importer._email cfg st subject message recipients net ix) := by
  unfold Importer._email
  dsimp only
  generalize hs1 : (match net with
    | some _ => st.emit (Effect.dbWrite "email_log.create")
    | none => st) = st1
  have f1 : StFrame st st1 ∧ EffectsExtend nonNixEffect st st1 := by
    rw [← hs1]
    cases net with
    | none => exact ⟨stFrame_refl st, effectsExtend_refl st⟩
    | some x =>
      exact ⟨⟨rfl, rfl, rfl, rfl⟩,
        effectsExtend_emit (effectsExtend_of_eq rfl) ⟨by decide, by decide⟩⟩
  by_cases c1 : net.isSome = true ∧ ¬ cfg.notify_net_enabled = true
  · rw [if_pos c1]
    exact f1
  · rw [if_neg c1]
    generalize hs2 : (match ix with
      | some _ => st1.emit (Effect.dbWrite "email_log.create")
      | none => st1) = st2
    have f2 : StFrame st1 st2 ∧ EffectsExtend nonNixEffect st1 st2 := by
      rw [← hs2]
      cases ix with
      | none => exact ⟨stFrame_refl st1, effectsExtend_refl st1⟩
      | some x =>
        exact ⟨⟨rfl, rfl, rfl, rfl⟩,
          effectsExtend_emit (effectsExtend_of_eq rfl) ⟨by decide, by decide⟩⟩
    by_cases c2 : ix.isSome = true ∧ ¬ cfg.notify_ix_enabled = true
    · rw [if_pos c2]
      exact ⟨stFrame_trans f1.1 f2.1, effectsExtend_trans f1.2 f2.2⟩
    · rw [if_neg c2]
      generalize hs3 : (if ¬ cfg.mail_debug = true
        then st2.emit (Effect.email recipients subject)
        else st2.emit (Effect.debugMail recipients subject)) = st3
      have f3 : StFrame st2 st3 ∧ EffectsExtend nonNixEffect st2 st3 := by
        rw [← hs3]
        by_cases hd : ¬ cfg.mail_debug = true
        · rw [if_pos hd]
          exact ⟨⟨rfl, rfl, rfl, rfl⟩,
            effectsExtend_emit (effectsExtend_of_eq rfl) ⟨not_false, not_false⟩⟩
        · rw [if_neg hd]
          exact ⟨⟨rfl, rfl, rfl, rfl⟩,
            effectsExtend_emit (effectsExtend_of_eq rfl) ⟨not_false, not_false⟩⟩
      have fa : StFrame st st3 := stFrame_trans f1.1 (stFrame_trans f2.1 f3.1)
      have xa : EffectsExtend nonNixEffect st st3 :=
        effectsExtend_trans f1.2 (effectsExtend_trans f2.2 f3.2)
      by_cases c3 : net.isSome = true ∨ ix.isSome = true
      · rw [if_pos c3]
        exact ⟨stFrame_trans fa ⟨rfl, rfl, rfl, rfl⟩,
          effectsExtend_emit xa ⟨by decide, by decide⟩⟩
      · rw [if_neg c3]
        exact ⟨fa, xa⟩

theorem ticket_spec {cfg : Cfg} {st : St} {m : IXFMemberData} {subject message : String}
    {st2 : St} {t : TicketRec}
    (h : Importer._ticket cfg st m subject message = .ok (st2, t)) :
    StFrame st st2 ∧ EffectsExtend nonNixEffect st st2 := by
  unfold Importer._ticket at h
  dsimp only at h
  cases hexc : cfg.ticket_exc with
  | none =>
    rw [hexc] at h
    dsimp only at h
    simp only [Except.ok.injEq, Prod.mk.injEq] at h
    obtain ⟨h1, -⟩ := h
    subst h1
    exact ⟨⟨rfl, rfl, rfl, rfl⟩,
      effectsExtend_emit (effectsExtend_emit
        (effectsExtend_emit (effectsExtend_of_eq rfl) ⟨by decide, by decide⟩)
        ⟨not_false, not_false⟩) ⟨by decide, by decide⟩⟩
  | some exc =>
    cases exc with
    | plain s =>
      rw [hexc] at h
      simp at h
    | withData d =>
      rw [hexc] at h
      dsimp only at h
      simp only [Except.ok.injEq, Prod.mk.injEq] at h
      obtain ⟨h1, -⟩ := h
      subst h1
      exact ⟨⟨rfl, rfl, rfl, rfl⟩,
        effectsExtend_emit (effectsExtend_emit
          (effectsExtend_emit (effectsExtend_of_eq rfl) ⟨by decide, by decide⟩)
          ⟨not_false, not_false⟩) ⟨by decide, by decide⟩⟩

end IXF

namespace IXF

theorem ticket_proposal_spec {cfg : Cfg} {st : St} {m : IXFMemberData} {typ0 : String}
    {ac ix net : Bool} {st2 : St}
    (h : Importer.ticket_proposal cfg st m typ0 ac ix net = .ok st2) :
    StFrame st st2 ∧ EffectsExtend nonNixEffect st st2 := by
  have hX : ∀ (c : Prop) [Decidable c] (s : St) (sub msg : String) (rec : List String)
      (n i : Option Nat),
      StFrame s (if c then Importer._email cfg s sub msg rec n i else s) ∧
      EffectsExtend nonNixEffect s
        (if c then Importer._email cfg s sub msg rec n i else s) := by
    intro c inst s sub msg rec n i
    by_cases hc : c
    · rw [if_pos hc]
      exact email_spec cfg s sub msg rec n i
    · rw [if_neg hc]
      exact ⟨stFrame_refl s, effectsExtend_refl s⟩
  unfold Importer.ticket_proposal at h
  dsimp only at h
  split at h
  · simp at h
  · rename_i x stM mM heq
    have hstep : StFrame st stM ∧ EffectsExtend nonNixEffect st stM := by
      split at heq
      · split at heq
        · simp at heq
        · rename_i stT ticket hticket
          obtain ⟨fT, xT⟩ := ticket_spec hticket
          split at heq
          · simp only [Except.ok.injEq, Prod.mk.injEq] at heq
            obtain ⟨h1, -⟩ := heq
            subst h1
            exact ⟨stFrame_trans fT
                ⟨(upsertProposal_frame _ _).1, rfl, rfl, (upsertProposal_frame _ _).2⟩,
              effectsExtend_trans xT
                (effectsExtend_emit (effectsExtend_of_eq rfl) ⟨by decide, by decide⟩)⟩
          · simp only [Except.ok.injEq, Prod.mk.injEq] at heq
            obtain ⟨h1, -⟩ := heq
            subst h1
            exact ⟨fT, xT⟩
      · simp only [Except.ok.injEq, Prod.mk.injEq] at heq
        obtain ⟨h1, -⟩ := heq
        subst h1
        exact ⟨stFrame_refl st, effectsExtend_refl st⟩
    simp only [Except.ok.injEq] at h
    subst h
    refine ⟨stFrame_trans hstep.1 (stFrame_trans (hX _ _ _ _ _ _ _).1
        (hX _ _ _ _ _ _ _).1), ?_⟩
    exact effectsExtend_trans hstep.2 (effectsExtend_trans (hX _ _ _ _ _ _ _).2
      (hX _ _ _ _ _ _ _).2)

end IXF

namespace IXF

theorem ticket_aged_loop_spec (cfg : Cfg) (l : List IXFMemberData) :
    ∀ st st2 : St, Importer.ticket_aged_loop cfg st l = .ok st2 →
      StFrame st st2 ∧ EffectsExtend nonNixEffect st st2 := by
  induction l with
  | nil =>
    intro st st2 h
    simp only [Importer.ticket_aged_loop, Except.ok.injEq] at h
    subst h
    exact ⟨stFrame_refl st, effectsExtend_refl st⟩
  | cons p rest ih =>
    intro st st2 h
    unfold Importer.ticket_aged_loop at h
    dsimp only at h
    cases htp : Importer.ticket_proposal cfg st p
        (if p.action st.db = "delete" then "remove" else p.action st.db)
        true true true with
    | error e =>
      rw [htp] at h
      simp at h
    | ok st1 =>
      rw [htp] at h
      obtain ⟨f1, x1⟩ := ticket_proposal_spec htp
      obtain ⟨f2, x2⟩ := ih st1 st2 h
      exact ⟨stFrame_trans f1 f2, effectsExtend_trans x1 x2⟩

theorem ticket_aged_proposals_spec {cfg : Cfg} {st st2 : St}
    (h : Importer.ticket_aged_proposals cfg st = .ok st2) :
    StFrame st st2 ∧ EffectsExtend (postPhaseEffect cfg) st st2 := by
  unfold Importer.ticket_aged_proposals at h
  by_cases hs : ¬ cfg.save = true
  · rw [if_pos hs] at h
    simp only [Except.ok.injEq] at h
    subst h
    exact ⟨stFrame_refl st, effectsExtend_refl st⟩
  · rw [if_neg hs] at h
    dsimp only at h
    obtain ⟨f, x⟩ := ticket_aged_loop_spec cfg _ st st2 h
    refine ⟨f, effectsExtend_mono (fun e he => ⟨?_, he⟩) x⟩
    by_contra hx
    exact hs fun hy => hx hy

theorem notify_error_spec {cfg : Cfg} {st st2 : St} {err : String}
    (h : Importer.notify_error cfg st err = .ok st2) :
    StFrame st st2 ∧ EffectsExtend (postPhaseEffect cfg) st st2 := by
  unfold Importer.notify_error at h
  by_cases hs : ¬ cfg.save = true
  · rw [if_pos hs] at h
    simp only [Except.ok.injEq] at h
    subst h
    exact ⟨stFrame_refl st, effectsExtend_refl st⟩
  · rw [if_neg hs] at h
    dsimp only at h
    have hsv : cfg.save = true := by
      by_contra hx
      exact hs fun hy => hx hy
    split at h
    · simp only [Except.ok.injEq] at h
      subst h
      exact ⟨stFrame_refl st, effectsExtend_refl st⟩
    · split at h
      · simp at h
      · rename_i stT ticket hticket
        obtain ⟨fT, xT⟩ := ticket_spec hticket
        have f0 : StFrame st stT ∧ EffectsExtend nonNixEffect st stT := by
          refine ⟨stFrame_trans (stFrame_trans ⟨rfl, rfl, rfl, rfl⟩
            ⟨rfl, rfl, rfl, rfl⟩) fT, ?_⟩
          refine effectsExtend_trans (effectsExtend_emit (effectsExtend_of_eq rfl)
            ⟨by decide, by decide⟩) xT
        split at h
        · simp only [Except.ok.injEq] at h
          subst h
          obtain ⟨fE, xE⟩ := email_spec cfg stT
            "Could not process IX-F Data"
            (Importer.render_notification "email/notify-ixf-source-error.txt" "ac")
            stT.db.ixlan.tech_contacts none (some stT.db.ixlan.ix_id)
          exact ⟨stFrame_trans f0.1 fE,
            effectsExtend_mono (fun e he => ⟨hsv, he⟩)
              (effectsExtend_trans f0.2 xE)⟩
        · simp only [Except.ok.injEq] at h
          subst h
          exact ⟨f0.1, effectsExtend_mono (fun e he => ⟨hsv, he⟩) f0.2⟩

end IXF

namespace IXF

theorem cleanup_entry_spec (cfg : Cfg) (st : St) (p : IXFMemberData) :
    StFrame st (Importer.cleanup_entry cfg st p) ∧
    EffectsExtend (fun e => cfg.save = true ∧ e = Effect.dbWrite "ixfmemberdata.delete")
      st (Importer.cleanup_entry cfg st p) := by
  unfold Importer.cleanup_entry
  dsimp only
  split
  · split
    · split
      · exact resolve_spec cfg st p
      · exact ⟨stFrame_refl st, effectsExtend_refl st⟩
    · exact ⟨stFrame_refl st, effectsExtend_refl st⟩
  · split
    · exact resolve_spec cfg st p
    · split
      · split
        · exact resolve_spec cfg st p
        · exact ⟨stFrame_refl st, effectsExtend_refl st⟩
      · exact ⟨stFrame_refl st, effectsExtend_refl st⟩

theorem cleanup_loop_spec (cfg : Cfg) (l : List IXFMemberData) :
    ∀ st : St, StFrame st (Importer.cleanup_loop cfg st l) ∧
      EffectsExtend (fun e => cfg.save = true ∧ e = Effect.dbWrite "ixfmemberdata.delete")
        st (Importer.cleanup_loop cfg st l) := by
  induction l with
  | nil =>
    intro st
    exact ⟨stFrame_refl st, effectsExtend_refl st⟩
  | cons p rest ih =>
    intro st
    unfold Importer.cleanup_loop
    obtain ⟨f1, x1⟩ := cleanup_entry_spec cfg st p
    obtain ⟨f2, x2⟩ := ih (Importer.cleanup_entry cfg st p)
    exact ⟨stFrame_trans f1 f2, effectsExtend_trans x1 x2⟩

theorem cleanup_spec (cfg : Cfg) (st : St) :
    StFrame st (Importer.cleanup_ixf_member_data cfg st) ∧
    EffectsExtend (postPhaseEffect cfg) st (Importer.cleanup_ixf_member_data cfg st) := by
  unfold Importer.cleanup_ixf_member_data
  by_cases hs : ¬ cfg.save = true
  · rw [if_pos hs]
    exact ⟨stFrame_refl st, effectsExtend_refl st⟩
  · rw [if_neg hs]
    dsimp only
    obtain ⟨f, x⟩ := cleanup_loop_spec cfg _ st
    refine ⟨f, effectsExtend_mono (fun e he => ⟨he.1, ?_, ?_⟩) x⟩
    · rw [he.2]
      decide
    · rw [he.2]
      decide

theorem cleanup_dry (cfg : Cfg) (st : St) (hs : ¬ cfg.save = true) :
    Importer.cleanup_ixf_member_data cfg st = st := by
  unfold Importer.cleanup_ixf_member_data
  rw [if_pos hs]

theorem archive_entry_spec (st : St) (action : String) (info : ActionInfo) :
    StFrame st (Importer.archive_entry_write st action info) ∧
    EffectsExtend nonNixEffect st (Importer.archive_entry_write st action info) := by
  unfold Importer.archive_entry_write
  dsimp only
  split
  · exact ⟨⟨rfl, rfl, rfl, rfl⟩,
      effectsExtend_emit (effectsExtend_of_eq rfl) ⟨not_false, not_false⟩⟩
  · exact ⟨stFrame_refl st, effectsExtend_refl st⟩

theorem archive_loop_spec (action : String) (l : List ActionInfo) :
    ∀ st : St, StFrame st (Importer.archive_loop st action l) ∧
      EffectsExtend nonNixEffect st (Importer.archive_loop st action l) := by
  induction l with
  | nil =>
    intro st
    exact ⟨stFrame_refl st, effectsExtend_refl st⟩
  | cons i rest ih =>
    intro st
    unfold Importer.archive_loop
    obtain ⟨f1, x1⟩ := archive_entry_spec st action i
    obtain ⟨f2, x2⟩ := ih (Importer.archive_entry_write st action i)
    exact ⟨stFrame_trans f1 f2, effectsExtend_trans x1 x2⟩

theorem archive_spec (cfg : Cfg) (st : St) :
    StFrame st (Importer.archive cfg st) ∧
    EffectsExtend (postPhaseEffect cfg) st (Importer.archive cfg st) := by
  unfold Importer.archive
  by_cases hs : ¬ cfg.save = true
  · rw [if_pos hs]
    exact ⟨stFrame_refl st, effectsExtend_refl st⟩
  · rw [if_neg hs]
    dsimp only
    have hsv : cfg.save = true := by
      by_contra hx
      exact hs fun hy => hx hy
    obtain ⟨f1, x1⟩ := archive_loop_spec "delete" (st.emit
      (Effect.dbWrite "import_log.create")).actions_taken.delete
      (st.emit (Effect.dbWrite "import_log.create"))
    obtain ⟨f2, x2⟩ := archive_loop_spec "modify" _
      (Importer.archive_loop (st.emit (Effect.dbWrite "import_log.create")) "delete"
        (st.emit (Effect.dbWrite "import_log.create")).actions_taken.delete)
    obtain ⟨f3, x3⟩ := archive_loop_spec "add" _
      (Importer.archive_loop (Importer.archive_loop
        (st.emit (Effect.dbWrite "import_log.create")) "delete"
        (st.emit (Effect.dbWrite "import_log.create")).actions_taken.delete) "modify" _)
    refine ⟨?_, ?_⟩
    · exact stFrame_trans ⟨rfl, rfl, rfl, rfl⟩ (stFrame_trans f1 (stFrame_trans f2 f3))
    · refine effectsExtend_mono (fun e he => ⟨hsv, he⟩) ?_
      exact effectsExtend_trans (effectsExtend_emit (effectsExtend_of_eq rfl)
        ⟨by decide, by decide⟩) (effectsExtend_trans x1 (effectsExtend_trans x2 x3))

theorem update_ix_spec (cfg : Cfg) (st : St) :
    StFrame st (Importer.update_ix cfg st) ∧
    EffectsExtend nonNixEffect st (Importer.update_ix cfg st) := by
  unfold Importer.update_ix
  dsimp only
  split
  · exact ⟨⟨rfl, rfl, rfl, rfl⟩,
      effectsExtend_emit (effectsExtend_of_eq rfl) ⟨by decide, by decide⟩⟩
  · exact ⟨stFrame_refl st, effectsExtend_refl st⟩

theorem save_log_spec (st : St) :
    StFrame st (Importer.save_log st) ∧
    EffectsExtend nonNixEffect st (Importer.save_log st) :=
  ⟨⟨rfl, rfl, rfl, rfl⟩,
    effectsExtend_emit (effectsExtend_of_eq rfl) ⟨by decide, by decide⟩⟩

theorem log_error_spec (st : St) (msg : String) (sv : Bool) :
    StFrame st (Importer.log_error st msg sv) ∧
    EffectsExtend nonNixEffect st (Importer.log_error st msg sv) := by
  unfold Importer.log_error
  dsimp only
  split
  · exact ⟨⟨rfl, rfl, rfl, rfl⟩,
      effectsExtend_emit (effectsExtend_of_eq rfl) ⟨by decide, by decide⟩⟩
  · exact ⟨stFrame_refl _, effectsExtend_refl _⟩

theorem acquireData_spec (cfg : Cfg) (st : St) (d : Option IxfData)
    (env : Importer.FetchEnv) :
    StFrame st (Importer.acquireData cfg st d env).2 ∧
    EffectsExtend preRunEffect st (Importer.acquireData cfg st d env).2 := by
  unfold Importer.acquireData
  cases d with
  | some x => exact ⟨stFrame_refl st, effectsExtend_refl st⟩
  | none =>
    dsimp only
    split
    · unfold Importer.fetch_cached
      split
      · exact ⟨stFrame_refl st, effectsExtend_refl st⟩
      · split
        · exact ⟨stFrame_refl st, effectsExtend_refl st⟩
        · exact ⟨stFrame_refl st, effectsExtend_refl st⟩
    · unfold Importer.fetch
      split
      · exact ⟨stFrame_refl st, effectsExtend_refl st⟩
      · split
        · exact ⟨stFrame_refl st, effectsExtend_refl st⟩
        · split
          · exact ⟨stFrame_refl st, effectsExtend_refl st⟩
          · exact ⟨stFrame_refl st, effectsExtend_refl st⟩
        · exact ⟨stFrame_refl st, effectsExtend_refl st⟩
        · dsimp only
          split
          · exact ⟨⟨rfl, rfl, rfl, rfl⟩,
              effectsExtend_emit (effectsExtend_of_eq rfl)
                ⟨trivial, not_false, not_false⟩⟩
          · exact ⟨stFrame_refl st, effectsExtend_refl st⟩

end IXF

namespace IXF

theorem log_error_gated_spec (cfg : Cfg) (st : St) (msg : String) :
    StFrame st (Importer.log_error st msg cfg.save) ∧
    EffectsExtend (postPhaseEffect cfg) st (Importer.log_error st msg cfg.save) := by
  unfold Importer.log_error
  dsimp only
  by_cases hs : cfg.save = true
  · rw [if_pos hs]
    exact ⟨⟨rfl, rfl, rfl, rfl⟩,
      effectsExtend_emit (effectsExtend_of_eq rfl) ⟨hs, by decide, by decide⟩⟩
  · rw [if_neg hs]
    exact ⟨stFrame_refl _, effectsExtend_refl _⟩

theorem run_post_transaction_spec {cfg : Cfg} {st st2 : St}
    (h : Importer.run_post_transaction cfg st = .ok st2) :
    StFrame st st2 ∧ EffectsExtend (postPhaseEffect cfg) st st2 := by
  unfold Importer.run_post_transaction at h
  dsimp only at h
  obtain ⟨fc, xc⟩ := cleanup_spec cfg st
  cases hta : Importer.ticket_aged_proposals cfg
      (Importer.cleanup_ixf_member_data cfg st) with
  | error e =>
    rw [hta] at h
    simp at h
  | ok stB =>
    rw [hta] at h
    dsimp only at h
    obtain ⟨fa, xa⟩ := ticket_aged_proposals_spec hta
    obtain ⟨fr, xr⟩ := archive_spec cfg stB
    split at h
    · simp at h
    · rename_i x stC heq
      have hne : StFrame (Importer.archive cfg stB) stC ∧
          EffectsExtend (postPhaseEffect cfg) (Importer.archive cfg stB) stC := by
        split at heq
        · exact notify_error_spec heq
        · simp only [Except.ok.injEq] at heq
          subst heq
          exact ⟨stFrame_refl _, effectsExtend_refl _⟩
      simp only [Except.ok.injEq] at h
      subst h
      have base : StFrame st stC ∧ EffectsExtend (postPhaseEffect cfg) st stC :=
        ⟨stFrame_trans fc (stFrame_trans fa (stFrame_trans fr hne.1)),
         effectsExtend_trans xc (effectsExtend_trans xa
           (effectsExtend_trans xr hne.2))⟩
      by_cases hs : cfg.save = true
      · rw [if_pos hs]
        obtain ⟨fu, xu⟩ := update_ix_spec cfg stC
        obtain ⟨fl, xl⟩ := save_log_spec (Importer.update_ix cfg stC)
        refine ⟨stFrame_trans base.1 (stFrame_trans fu fl), ?_⟩
        refine effectsExtend_trans base.2 (effectsExtend_trans
          (effectsExtend_mono (fun e he => ⟨hs, he⟩) xu)
          (effectsExtend_mono (fun e he => ⟨hs, he⟩) xl))
      · rw [if_neg hs]
        exact base

theorem process_deletions_loop_light (cfg : Cfg) (l : List Netixlan) :
    ∀ st st2 : St, Importer.process_deletions_loop cfg st l = .ok st2 →
      TransFrame st st2 ∧ EffectsExtend (delPhaseEffect cfg) st st2 := by
  induction l with
  | nil =>
    intro st st2 h
    simp only [Importer.process_deletions_loop, Except.ok.injEq] at h
    subst h
    exact ⟨transFrame_refl st, effectsExtend_refl st⟩
  | cons nix rest ih =>
    intro st st2 h
    unfold Importer.process_deletions_loop at h
    cases hent : Importer.process_deletion_entry cfg st nix with
    | error e =>
      rw [hent] at h
      simp at h
    | ok st1 =>
      rw [hent] at h
      obtain ⟨f1, -, x1, -⟩ := process_deletion_entry_spec hent
      obtain ⟨f2, x2⟩ := ih st1 st2 h
      exact ⟨transFrame_trans f1 f2, effectsExtend_trans x1 x2⟩

theorem process_deletions_light {cfg : Cfg} {st st2 : St}
    (h : Importer.process_deletions cfg st = .ok st2) :
    TransFrame st st2 ∧ EffectsExtend (delPhaseEffect cfg) st st2 := by
  unfold Importer.process_deletions at h
  cases hloop : Importer.process_deletions_loop cfg st
      (Importer.netixlan_set_active cfg st.db) with
  | error e =>
    rw [hloop] at h
    simp at h
  | ok st1 =>
    rw [hloop] at h
    simp only [Except.ok.injEq] at h
    subst h
    obtain ⟨f, x⟩ := process_deletions_loop_light cfg _ st st1 hloop
    obtain ⟨fc, -, xc⟩ := close_revision_spec st1
    exact ⟨transFrame_trans f fc, effectsExtend_trans x (effectsExtend_of_eq xc)⟩

theorem process_saves_light {cfg : Cfg} {st st2 : St}
    (h : Importer.process_saves cfg st = .ok st2)
    (hpend : ∀ m ∈ st.pending_save, m.has_data = true) :
    TransFrame st st2 ∧ EffectsExtend (savePhaseEffect cfg) st st2 := by
  unfold Importer.process_saves at h
  cases hloop : Importer.process_saves_loop cfg st st.pending_save with
  | error e =>
    rw [hloop] at h
    simp at h
  | ok st1 =>
    rw [hloop] at h
    simp only [Except.ok.injEq] at h
    subst h
    obtain ⟨f, -, x⟩ := process_saves_loop_spec cfg st.pending_save st st1 hloop hpend
    obtain ⟨fc, -, xc⟩ := close_revision_spec st1
    exact ⟨transFrame_trans f fc, effectsExtend_trans x (effectsExtend_of_eq xc)⟩

theorem run_transaction_light {cfg : Cfg} {st st2 : St}
    (h : Importer.run_transaction cfg st = .ok st2)
    (hpend : ∀ m ∈ st.pending_save, m.has_data = true) :
    TransFrame st st2 ∧
    ∃ e1 e2, st2.effects = st.effects ++ e1 ++ e2 ∧
      (∀ x ∈ e1, delPhaseEffect cfg x) ∧ (∀ x ∈ e2, savePhaseEffect cfg x) := by
  unfold Importer.run_transaction at h
  cases hdel : Importer.process_deletions cfg st with
  | error e =>
    rw [hdel] at h
    simp at h
  | ok st1 =>
    rw [hdel] at h
    obtain ⟨f1, x1⟩ := process_deletions_light hdel
    have hpend1 : ∀ m ∈ st1.pending_save, m.has_data = true := by
      intro m hm
      rw [f1.2.1] at hm
      exact hpend m hm
    obtain ⟨f2, x2⟩ := process_saves_light h hpend1
    obtain ⟨e1, he1, hp1⟩ := x1
    obtain ⟨e2, he2, hp2⟩ := x2
    exact ⟨transFrame_trans f1 f2, e1, e2, by rw [he2, he1, List.append_assoc], hp1, hp2⟩

theorem run_transaction_full {cfg : Cfg} {st st2 : St} (hsave : cfg.save = true)
    (h : Importer.run_transaction cfg st = .ok st2) (hau : ActiveUnique st.db)
    (hsw : StatusWf st)
    (hpend : ∀ m ∈ st.pending_save, m.has_data = true ∧ m.ixfId ∈ st.ixf_ids) :
    TransFrame st st2 ∧ DelInv cfg st2 [] ∧ StatusWf st2 := by
  unfold Importer.run_transaction at h
  cases hdel : Importer.process_deletions cfg st with
  | error e =>
    rw [hdel] at h
    simp at h
  | ok st1 =>
    rw [hdel] at h
    obtain ⟨f1, e1, -, hinv1, hau1⟩ := process_deletions_spec hsave hdel hau
    have hsw1 : StatusWf st1 := statusWf_evol e1 hsw
    have hpend1 : ∀ m ∈ st1.pending_save, m.has_data = true ∧ m.ixfId ∈ st1.ixf_ids := by
      intro m hm
      rw [f1.2.1] at hm
      rw [f1.1]
      exact hpend m hm
    obtain ⟨f2, hinv2, hsw2, -⟩ := process_saves_spec h hpend1 hinv1 hsw1
    exact ⟨transFrame_trans f1 f2, hinv2, hsw2⟩

theorem seenOrDeleted_of_delInv {cfg : Cfg} {st : St} (hinv : DelInv cfg st [])
    (hsw : StatusWf st) : SeenOrDeleted cfg st := by
  intro n hn hnd hscope net hnet hallow
  have hok : n.status = "ok" := by
    rcases hsw n hn with h | h
    · exact h
    · exact absurd h hnd
  rcases hinv n hn hok hscope with hc | ⟨n', hn', -⟩
  · exact hc net hnet hallow
  · exact absurd hn' (List.not_mem_nil n')

theorem statusWf_of_wf {db : DB} (h : db.wf) : StatusWf (St.init db) := by
  intro n hn
  exact h.2.2.1 n hn

end IXF

namespace IXF

theorem runUpdate_cases {cfg : Cfg} {db : DB} {dataArg : Option IxfData}
    {env : Importer.FetchEnv} {r : Importer.RunResult}
    (hrun : Importer.runUpdate cfg db dataArg env = .ok r) :
    ∃ st0 : St, StFrame (St.init db) st0 ∧ EffectsExtend preRunEffect (St.init db) st0 ∧
      ((StFrame st0 r.st ∧ EffectsExtend (postPhaseEffect cfg) st0 r.st ∧
        (r.success = true → cfg.skip_import = true)) ∨
       (∃ stP stT, r.success = true ∧
         Importer.parse cfg st0 (Importer.acquireData cfg (St.init db) dataArg env).1 =
           .ok stP ∧
         Importer.run_transaction cfg stP = .ok stT ∧
         Importer.run_post_transaction cfg stT = .ok r.st)) := by
  unfold Importer.runUpdate at hrun
  dsimp only at hrun
  obtain ⟨fA, xA⟩ := acquireData_spec cfg (St.init db) dataArg env
  split at hrun
  · rename_i err heq
    split at hrun
    · simp at hrun
    · rename_i x stN hN
      simp only [Except.ok.injEq] at hrun
      obtain ⟨fN, xN⟩ := notify_error_spec hN
      obtain ⟨fL, xL⟩ := log_error_gated_spec cfg stN err
      refine ⟨(Importer.acquireData cfg (St.init db) dataArg env).2, fA, xA, Or.inl ?_⟩
      rw [← hrun]
      refine ⟨stFrame_trans fN fL, effectsExtend_trans xN xL, ?_⟩
      intro hf
      simp at hf
  · rename_i heq
    generalize hst0 : (if (Importer.acquireData cfg (St.init db) dataArg
          env).2.db.ixlan.ixf_ixp_import_error.isSome = true then
        (({ (Importer.acquireData cfg (St.init db) dataArg env).2 with
            db := { (Importer.acquireData cfg (St.init db) dataArg env).2.db with
              ixlan := { (Importer.acquireData cfg (St.init db) dataArg
                env).2.db.ixlan with ixf_ixp_import_error := none } } } : St).emit
          (Effect.dbWrite "ixlan.clear_error"))
      else (Importer.acquireData cfg (St.init db) dataArg env).2) = st0 at hrun
    have f0 : StFrame (Importer.acquireData cfg (St.init db) dataArg env).2 st0 ∧
        EffectsExtend preRunEffect
          (Importer.acquireData cfg (St.init db) dataArg env).2 st0 := by
      rw [← hst0]
      split
      · exact ⟨⟨rfl, rfl, rfl, rfl⟩,
          effectsExtend_emit (effectsExtend_of_eq rfl) ⟨by decide, by decide, by decide⟩⟩
      · exact ⟨stFrame_refl _, effectsExtend_refl _⟩
    refine ⟨st0, stFrame_trans fA f0.1, effectsExtend_trans xA f0.2, ?_⟩
    split at hrun
    · rename_i hempty
      simp only [Except.ok.injEq] at hrun
      obtain ⟨fL, xL⟩ := log_error_gated_spec cfg st0 "No prefixes defined on ixlan"
      refine Or.inl ?_
      rw [← hrun]
      refine ⟨fL, xL, ?_⟩
      intro hf
      simp at hf
    · split at hrun
      · rename_i hskip
        simp only [Except.ok.injEq] at hrun
        obtain ⟨fC, xC⟩ := cleanup_spec cfg st0
        refine Or.inl ?_
        rw [← hrun]
        exact ⟨fC, xC, fun _ => by simpa using hskip⟩
      · rename_i hnoskip
        split at hrun
        · rename_i k heqP
          simp only [Except.ok.injEq] at hrun
          obtain ⟨fL, xL⟩ := log_error_gated_spec cfg st0
            ("Internal Error 'KeyError': " ++ k)
          refine Or.inl ?_
          rw [← hrun]
          refine ⟨fL, xL, ?_⟩
          intro hf
          simp at hf
        · simp at hrun
        · rename_i xscrut stP heqP
          unfold Importer.run_parsed at hrun
          split at hrun
          · simp at hrun
          · rename_i x stT heqT
            split at hrun
            · simp at hrun
            · rename_i y stF heqF
              simp only [Except.ok.injEq] at hrun
              refine Or.inr ⟨stP, stT, ?_, heqP, heqT, ?_⟩
              · rw [← hrun]
              · rw [← hrun]
                exact heqF

end IXF

namespace IXF

theorem effects_absorb {P : Effect → Prop} {st st' : St} (h : EffectsExtend P st st')
    (hP : ∀ e, P e → False) : ∀ e ∈ st'.effects, e ∈ st.effects := by
  obtain ⟨es, hes, hp⟩ := h
  intro e he
  rw [hes] at he
  rcases List.mem_append.mp he with he | he
  · exact he
  · exact absurd (hp e he) (hP e)

theorem pending_after_parse {cfg : Cfg} {db : DB} {dataArg : Option IxfData}
    {env : Importer.FetchEnv} {st0 stP : St}
    (f0 : StFrame (St.init db) st0)
    (heqP : Importer.parse cfg st0
      (Importer.acquireData cfg (St.init db) dataArg env).1 = .ok stP) :
    ∀ m ∈ stP.pending_save, m.has_data = true ∧ m.ixfId ∈ stP.ixf_ids := by
  have hpe := parse_evol cfg st0 stP _ heqP
  intro m hm
  rcases hpe.2.2.2.2.2 m hm with hold | hnew
  · rw [f0.2.2.1] at hold
    have hinit : (St.init db).pending_save = ([] : List IXFMemberData) := rfl
    rw [hinit] at hold
    exact absurd hold (List.not_mem_nil m)
  · exact hnew

theorem preEffects_of_runStart {db : DB} {st0 : St}
    (x0 : EffectsExtend preRunEffect (St.init db) st0) :
    ∀ e ∈ st0.effects, preRunEffect e := by
  obtain ⟨es, hes, hp⟩ := x0
  intro e he
  rw [hes] at he
  have hinit : (St.init db).effects = ([] : List Effect) := rfl
  rw [hinit] at he
  simp only [List.nil_append] at he
  exact hp e he

end IXF

namespace IXF

/-- C2 (amended): for every saving, non-skipping run on a well-formed
database that completes successfully, every connection record of the final
state that is not soft deleted, lies in the run's ASN scope and belongs to a
network that consents to automatic updates has its identity key in the
run's seen-set of feed keys. -/
theorem C2_seen_or_deleted_after_saving_run (cfg : Cfg) (db : DB)
    (dataArg : Option IxfData) (env : Importer.FetchEnv) (r : Importer.RunResult)
    (hsave : cfg.save = true) (hskip : cfg.skip_import = false) (hwf : db.wf)
    (hrun : Importer.runUpdate cfg db dataArg env = .ok r) (hsucc : r.success = true) :
    SeenOrDeleted cfg r.st := by
  obtain ⟨st0, f0, -, hcase⟩ := runUpdate_cases hrun
  rcases hcase with ⟨-, -, himp⟩ | ⟨stP, stT, -, heqP, heqT, heqF⟩
  · rw [himp hsucc] at hskip
    exact absurd hskip (by decide)
  · have hpe := parse_evol cfg st0 stP _ heqP
    have hau0 : ActiveUnique st0.db :=
      activeUnique_evol (softEvol_of_eq f0.1) (wf_activeUnique hwf)
    have hsw0 : StatusWf st0 := by
      intro n hn
      rw [f0.1] at hn
      exact hwf.2.2.1 n hn
    have hauP : ActiveUnique stP.db := by
      rw [hpe.1]
      exact hau0
    have hswP : StatusWf stP := by
      intro n hn
      rw [hpe.1] at hn
      exact hsw0 n hn
    have hpendP := pending_after_parse f0 heqP
    obtain ⟨fT, hinvT, hswT⟩ := run_transaction_full hsave heqT hauP hswP hpendP
    obtain ⟨fF, -⟩ := run_post_transaction_spec heqF
    have hinvF : DelInv cfg r.st [] := delInv_nil_evol fF.2 (softEvol_of_eq fF.1) hinvT
    have hswF : StatusWf r.st := statusWf_evol (softEvol_of_eq fF.1) hswT
    exact seenOrDeleted_of_delInv hinvF hswF

/-- C2 witness: a concrete saving dual-stack run. -/
theorem C2_seen_or_deleted_witness :
    exDbConsent.wf ∧
    SeenOrDeleted exCfgSave
      (runOk (Importer.runUpdate exCfgSave exDbConsent (some exDualStackData) {})).st :=
  ⟨by decide,
   C2_seen_or_deleted_after_saving_run exCfgSave exDbConsent (some exDualStackData) {} _
     rfl rfl (by decide) (by decide) (by decide)⟩

/-- C4 (amended): a dry run (`save = false`) that returns leaves only
allowed effects in the trace: no emails, no tickets, no archive rows, and no
database write other than the clearing of a previous import error note on
the IXLan; feed caching may occur. -/
theorem C4_dry_run_effects (cfg : Cfg) (db : DB) (dataArg : Option IxfData)
    (env : Importer.FetchEnv) (r : Importer.RunResult)
    (hsave : cfg.save = false)
    (hrun : Importer.runUpdate cfg db dataArg env = .ok r) :
    ∀ e ∈ r.st.effects, dryRunAllowed e := by
  have hfalse : ∀ (Q : Effect → Prop),
      (∀ e, (cfg.save = true ∧ Q e) → False) := by
    intro Q e he
    rw [hsave] at he
    exact absurd he.1 (by decide)
  obtain ⟨st0, f0, x0, hcase⟩ := runUpdate_cases hrun
  have hpre := preEffects_of_runStart x0
  rcases hcase with ⟨-, xP, -⟩ | ⟨stP, stT, -, heqP, heqT, heqF⟩
  · intro e he
    have := effects_absorb xP (hfalse _) e he
    exact (hpre e this).1
  · have hpe := parse_evol cfg st0 stP _ heqP
    have hpendP : ∀ m ∈ stP.pending_save, m.has_data = true :=
      fun m hm => (pending_after_parse f0 heqP m hm).1
    obtain ⟨fT, e1, e2, hTeff, hp1, hp2⟩ := run_transaction_light heqT hpendP
    obtain ⟨fF, xF⟩ := run_post_transaction_spec heqF
    intro e he
    have heT := effects_absorb xF (hfalse _) e he
    rw [hTeff] at heT
    rcases List.mem_append.mp heT with heT | heT
    · rcases List.mem_append.mp heT with heT | heT
      · rw [hpe.2.1] at heT
        exact (hpre e heT).1
      · have hx := (hp1 e heT).1
        rw [hsave] at hx
        exact absurd hx (by decide)
    · have hx := (hp2 e heT).1
      rw [hsave] at hx
      exact absurd hx (by decide)

/-- C4 witness: a concrete dry run. -/
theorem C4_dry_run_witness :
    exCfgDry.save = false ∧
    ∀ e ∈ (runOk (Importer.runUpdate exCfgDry exDbConsent
      (some exDualStackData) {})).st.effects, dryRunAllowed e :=
  ⟨rfl,
   C4_dry_run_effects exCfgDry exDbConsent (some exDualStackData) {} _ rfl (by decide)⟩

/-- C6: in every run's final effect trace, every connection-record deletion
precedes every connection-record creation or update: the deletion pass runs
before the save pass inside the transaction, and no other phase writes
connection records. -/
theorem C6_deletes_happen_before_saves (cfg : Cfg) (db : DB)
    (dataArg : Option IxfData) (env : Importer.FetchEnv) (r : Importer.RunResult)
    (i j : Nat) (e e' : Effect)
    (hrun : Importer.runUpdate cfg db dataArg env = .ok r)
    (hi : r.st.effects[i]? = some e) (hd : isNixDelete e)
    (hj : r.st.effects[j]? = some e') (hc : isNixCreateOrUpdate e') :
    i < j := by
  obtain ⟨A, B, hAB, hA, hB⟩ : ∃ A B, r.st.effects = A ++ B ∧
      (∀ x ∈ A, ¬ isNixCreateOrUpdate x) ∧ (∀ x ∈ B, ¬ isNixDelete x) := by
    obtain ⟨st0, f0, x0, hcase⟩ := runUpdate_cases hrun
    have hpre := preEffects_of_runStart x0
    rcases hcase with ⟨-, xP, -⟩ | ⟨stP, stT, -, heqP, heqT, heqF⟩
    · obtain ⟨es, hes, hp⟩ := xP
      refine ⟨r.st.effects, [], by simp, ?_, by simp⟩
      intro x hx
      rw [hes] at hx
      rcases List.mem_append.mp hx with hx | hx
      · exact (hpre x hx).2.2
      · exact (hp x hx).2.2
    · have hpe := parse_evol cfg st0 stP _ heqP
      have hpendP : ∀ m ∈ stP.pending_save, m.has_data = true :=
        fun m hm => (pending_after_parse f0 heqP m hm).1
      obtain ⟨fT, e1, e2, hTeff, hp1, hp2⟩ := run_transaction_light heqT hpendP
      obtain ⟨fF, xF⟩ := run_post_transaction_spec heqF
      obtain ⟨e3, hFeff, hp3⟩ := xF
      refine ⟨st0.effects ++ e1, e2 ++ e3, ?_, ?_, ?_⟩
      · rw [hFeff, hTeff, hpe.2.1]
        simp [List.append_assoc]
      · intro x hx
        rcases List.mem_append.mp hx with hx | hx
        · exact (hpre x hx).2.2
        · rcases (hp1 x hx).2 with h' | h' <;> (rw [h']; decide)
      · intro x hx
        rcases List.mem_append.mp hx with hx | hx
        · rcases (hp2 x hx).2 with h' | h' | h' | h' <;> (rw [h']; decide)
        · exact (hp3 x hx).2.1
  rw [hAB, List.getElem?_append] at hi hj
  by_cases h1 : i < A.length
  · by_cases h2 : j < A.length
    · rw [if_pos h2] at hj
      exact absurd hc (hA e' (List.getElem?_mem hj))
    · omega
  · rw [if_neg h1] at hi
    exact absurd hd (hB e (List.getElem?_mem hi))

end IXF

namespace IXF

/-- C6 witness: a run whose trace contains both a deletion and a creation. -/
theorem C6_deletes_happen_before_saves_witness :
    (runOk (Importer.runUpdate exCfgSave exDbConsent
      (some exDualStackData) {})).st.effects[0]? =
        some (Effect.dbWrite "netixlan.delete") ∧
    (runOk (Importer.runUpdate exCfgSave exDbConsent
      (some exDualStackData) {})).st.effects[1]? =
        some (Effect.dbWrite "netixlan.create") ∧
    (0 : Nat) < 1 :=
  ⟨by decide, by decide,
   C6_deletes_happen_before_saves exCfgSave exDbConsent (some exDualStackData) {}
     (runOk (Importer.runUpdate exCfgSave exDbConsent (some exDualStackData) {})) 0 1
     (Effect.dbWrite "netixlan.delete") (Effect.dbWrite "netixlan.create")
     (by decide) (by decide) (by decide) (by decide) (by decide)⟩

end IXF
